import Mathlib

/-!
# In-memory OCI test registry: manifest store, tag listing and referrers

A shallow embedding of `manifest.go` (package `ocitestregistry`): the manifest
handler (`GET`, `HEAD`, `PUT`, `DELETE`), the tag listing and the referrers
query, followed by the properties of the specification that concern them.

Conventions of the embedding.

* The registry state `map[string]map[string]manifest` is a `Store`, a `GoMap`
  of `GoMap`s.  A `GoMap` is a key-unique association list; `set` overwrites in
  place or appends, `delete` drops the entry.  Go leaves the iteration order of
  a map unspecified: the embedding iterates in entry order, and the results
  that depend on iteration are stated through membership or after sorting.
* The handlers run under `m.lock`, so each request is one atomic step
  `Store → Store × Outcome`.  A run-time panic of the Go code (slice bounds or
  index out of range) is the outcome `Outcome.panic`.
* The code outside `manifest.go` that the handlers call (the `hasher` package,
  `isIndex`, `isImage`, `isDistributable`, `encoding/json`, `%q` formatting) is
  the parameter `Env`.  `refEnv` is a concrete instance used to evaluate the
  handlers on concrete requests.
-/

namespace OciTestRegistry

/-! ## Byte strings and Go string helpers -/

/-- A Go `[]byte`. -/
abbrev Bytes := List UInt8

/-- Go `a < b` on strings.  Go compares byte-wise over UTF-8, which orders
strings exactly as the code points do. -/
def strLt (a b : String) : Prop := a.data < b.data

instance strLt.decidable : DecidableRel strLt := fun a b => by
  unfold strLt; infer_instance

/-- Go `a <= b` on strings. -/
def strLe (a b : String) : Prop := ¬ strLt b a

instance strLe.decidable : DecidableRel strLe := fun a b => by
  unfold strLe; infer_instance

/-- Splitting a character list at every `'/'`: the work of
`strings.Split(s, "/")`. -/
def splitSlash (cs : List Char) : List (List Char) :=
  cs.foldr (fun c acc =>
    if c = '/' then [] :: acc
    else match acc with
      | [] => [[c]]
      | h :: t => (c :: h) :: t) [[]]

/-- Go `strings.Split(s, "/")`. -/
def stringsSplit (s : String) : List String :=
  (splitSlash s.data).map String.mk

/-- Go `strings.Join(elems, "/")`. -/
def stringsJoin (elems : List String) : String :=
  String.intercalate "/" elems

/-- Go `strings.Contains(s, sub)`. -/
def stringsContains (s sub : String) : Bool :=
  s.data.tails.any (fun t => sub.data.isPrefixOf t)

/-- Go `sort.Strings`: the ascending arrangement of the slice (insertion sort;
equal strings are indistinguishable, so every sorting algorithm gives this
list). -/
def sortStrings (l : List String) : List String :=
  l.insertionSort strLe

/-! ## `strconv.Atoi` (64-bit `int`) -/

/-- The two error kinds of `strconv`: `ErrSyntax` and `ErrRange`. -/
inductive NumErr
  | syntaxErr
  | rangeErr
  deriving DecidableEq, Repr

/-- The text of `ErrSyntax` and `ErrRange`. -/
def NumErr.text : NumErr → String
  | .syntaxErr => "invalid syntax"
  | .rangeErr => "value out of range"

/-- The digit loop of `strconv.ParseUint(s, 10, 64)`: left to right, a
character that is no decimal digit is a syntax error, an overflow of `uint64`
a range error, whichever comes first. -/
def parseUintLoop : List Char → Nat → Except NumErr Nat
  | [], n => .ok n
  | c :: cs, n =>
    if '0' ≤ c ∧ c ≤ '9' then
      if n ≥ (2 ^ 64 - 1) / 10 + 1 then .error .rangeErr
      else
        let n1 := n * 10 + (c.toNat - '0'.toNat)
        if n1 > 2 ^ 64 - 1 then .error .rangeErr
        else parseUintLoop cs n1
    else .error .syntaxErr

/-- Go `strconv.ParseUint(s, 10, 64)`. -/
def parseUint (cs : List Char) : Except NumErr Nat :=
  match cs with
  | [] => .error .syntaxErr
  | _ => parseUintLoop cs 0

/-- Go `strconv.Atoi` where `int` has 64 bits: an optional sign, then decimal
digits, the value within `[-2^63, 2^63 - 1]`. -/
def atoi (s : String) : Except NumErr Int :=
  match s.data with
  | [] => .error .syntaxErr
  | c :: cs =>
    let neg := c = '-'
    let digits := if c = '+' ∨ c = '-' then cs else c :: cs
    match parseUint digits with
    | .error e => .error e
    | .ok un =>
      if ¬ neg ∧ un ≥ 2 ^ 63 then .error .rangeErr
      else if neg ∧ un > 2 ^ 63 then .error .rangeErr
      else .ok (if neg then - (un : Int) else (un : Int))

/-- The value `n` of `n, _ = strconv.Atoi(s)`, the error dropped: the parsed
number, 0 after a syntax error, and after a range error the nearest bound of
`int`. -/
def atoiValue (s : String) : Int :=
  match atoi s with
  | .ok n => n
  | .error .syntaxErr => 0
  | .error .rangeErr => if s.data.head? = some '-' then -(2 ^ 63) else 2 ^ 63 - 1

/-! ## Go maps -/

/-- A Go `map[string]V`: an association list whose keys are pairwise
distinct. -/
structure GoMap (V : Type) where
  /-- the entries, in iteration order -/
  entries : List (String × V)
  /-- a map holds a key once -/
  nodup : (entries.map Prod.fst).Nodup

namespace GoMap

variable {V : Type}

/-- The lookup `m[k]` on entries. -/
def getEntries (k : String) : List (String × V) → Option V
  | [] => none
  | (k', v) :: rest => if k' = k then some v else getEntries k rest

/-- The assignment `m[k] = v` on entries: overwrite in place or append. -/
def setEntries (k : String) (v : V) : List (String × V) → List (String × V)
  | [] => [(k, v)]
  | (k', v') :: rest =>
    if k' = k then (k, v) :: rest else (k', v') :: setEntries k v rest

/-- The statement `delete(m, k)` on entries. -/
def deleteEntries (k : String) : List (String × V) → List (String × V)
  | [] => []
  | (k', v) :: rest =>
    if k' = k then deleteEntries k rest else (k', v) :: deleteEntries k rest

/-- The empty map `map[string]V{}`. -/
def empty : GoMap V := ⟨[], List.nodup_nil⟩

/-- The lookup `v, ok := m[k]`. -/
def get (m : GoMap V) (k : String) : Option V := getEntries k m.entries

/-- The assignment `m[k] = v`. -/
def set (m : GoMap V) (k : String) (v : V) : GoMap V :=
  ⟨setEntries k v m.entries, by
    have keys : ∀ l : List (String × V), (setEntries k v l).map Prod.fst =
        if k ∈ l.map Prod.fst then l.map Prod.fst else l.map Prod.fst ++ [k] := by
      intro l
      induction l with
      | nil => simp [setEntries]
      | cons e rest ih =>
        obtain ⟨k', v'⟩ := e
        by_cases h : k' = k
        · subst h; simp [setEntries]
        · have h' : ¬ k = k' := fun e => h e.symm
          simp only [setEntries, h, if_false, List.map_cons, ih, List.mem_cons, h', false_or]
          split <;> simp
    rw [keys]
    split
    · exact m.nodup
    · rename_i hk
      exact List.Nodup.append m.nodup (List.nodup_singleton k) (by
        intro a ha hb
        simp only [List.mem_singleton] at hb
        subst hb
        exact hk ha)⟩

/-- The statement `delete(m, k)`. -/
def delete (m : GoMap V) (k : String) : GoMap V :=
  ⟨deleteEntries k m.entries, by
    have sub : ∀ l : List (String × V), List.Sublist (deleteEntries k l) l := by
      intro l
      induction l with
      | nil => exact List.Sublist.slnil
      | cons e rest ih =>
        obtain ⟨k', v'⟩ := e
        by_cases h : k' = k
        · simpa [deleteEntries, h] using List.Sublist.cons _ ih
        · simpa [deleteEntries, h] using ih
    exact List.Nodup.sublist (List.Sublist.map _ (sub m.entries)) m.nodup⟩

/-- The keys of the map, in iteration order. -/
def keys (m : GoMap V) : List String := m.entries.map Prod.fst

instance decEq [DecidableEq V] : DecidableEq (GoMap V) := fun a b =>
  decidable_of_iff (a.entries = b.entries)
    ⟨fun h => by cases a; cases b; cases h; rfl, fun h => by rw [h]⟩

end GoMap

/-! ## Data model of `manifest.go` -/

/-- The struct `manifest`: a stored body and the content type it came with. -/
structure Manifest where
  contentType : String
  blob : Bytes
  deriving DecidableEq, Repr

/-- The store `manifests.manifests`: repository, then tag or digest, then
manifest. -/
abbrev Store := GoMap (GoMap Manifest)

/-- The fields of `ocispec.Descriptor` that the handlers read or write. -/
structure Descriptor where
  mediaType : String
  digest : String
  size : Int
  artifactType : String
  deriving DecidableEq, Repr

/-- The struct `regError`. -/
structure RegError where
  status : Nat
  code : String
  message : String
  deriving DecidableEq, Repr

/-- What a handler writes as response body.  The three JSON documents are kept
structured (a nil and an empty slice are both the empty list); `raw` is
`io.Copy` of a stored blob. -/
inductive Body
  | empty
  | raw (blob : Bytes)
  | tags (name : String) (tags : List String)
  | index (schemaVersion : Nat) (mediaType : String) (manifests : List Descriptor)
  | catalog (repos : List String)
  deriving DecidableEq, Repr

/-- A written response: the status of `WriteHeader`, the headers set before it,
and the body. -/
structure Response where
  status : Nat
  headers : List (String × String)
  body : Body
  deriving DecidableEq, Repr

/-- How a handler call ends: a run-time panic, a returned `*regError`, or a
written response with a nil error. -/
inductive Outcome
  | panic
  | err (e : RegError)
  | ok (r : Response)
  deriving DecidableEq, Repr

/-- The status and code of a returned error. -/
def Outcome.errorCode : Outcome → Option (Nat × String)
  | .err e => some (e.status, e.code)
  | _ => none

/-- The part of an `*http.Request` the handlers read. -/
structure Request where
  /-- the field `req.Method` -/
  method : String
  /-- the field `req.URL.Path` -/
  path : String
  /-- the parsed `req.URL.Query()`, first value of each parameter -/
  query : List (String × String)
  /-- the value of `req.Header.Get("Content-Type")` -/
  contentType : String
  /-- the bytes of `req.Body` -/
  body : Bytes
  deriving DecidableEq, Repr

/-- Go `req.URL.Query().Get(name)`: the value, or the empty string. -/
def Request.queryGet (req : Request) (name : String) : String :=
  (GoMap.getEntries name req.query).getD ""

/-- The code that `manifest.go` calls and that lives outside it. -/
structure Env where
  /-- the text `h.String()` of `h, _, _ := hasher.SHA256(r)` -/
  sha256 : Bytes → String
  /-- the call `hasher.NewHash(s)`: `none` for an error, else `h.String()` -/
  newHash : String → Option String
  /-- the predicate `isIndex` on media types -/
  isIndex : String → Bool
  /-- the predicate `isImage` on media types -/
  isImage : String → Bool
  /-- the predicate `isDistributable` on media types -/
  isDistributable : String → Bool
  /-- the constant `mediaTypeOCIImageIndex` -/
  mediaTypeOCIImageIndex : String
  /-- the call `json.Unmarshal(b, &im)` for `im ocispec.Index`: the error text,
  or `im.Manifests` -/
  unmarshalIndex : Bytes → Except String (List Descriptor)
  /-- the field `refPointer.Subject` after `json.Unmarshal(blob, &refPointer)`,
  the error dropped: `none` for nil -/
  unmarshalSubject : Bytes → Option Descriptor
  /-- the field `imageAsArtifact.Config.MediaType` after
  `json.Unmarshal(blob, &imageAsArtifact)`, the error dropped -/
  unmarshalConfigMediaType : Bytes → String
  /-- the verb `%q` of `fmt` on a string -/
  quote : String → String
  /-- the length of `json.Marshal` of a JSON response body -/
  jsonLen : Body → Nat

/-- What the handlers rely on from the `hasher` package: a parsed hash prints
as the string it was parsed from, and the digest of any content parses. -/
structure Env.Lawful (env : Env) : Prop where
  newHash_string : ∀ s h, env.newHash s = some h → h = s
  newHash_sha256 : ∀ b, env.newHash (env.sha256 b) = some (env.sha256 b)

/-- The `*regError` for an unknown repository. -/
def errNameUnknown : RegError := ⟨404, "NAME_UNKNOWN", "Unknown name"⟩

/-- The `*regError` for an unknown manifest reference. -/
def errManifestUnknown : RegError := ⟨404, "MANIFEST_UNKNOWN", "Unknown manifest"⟩

/-- The `*regError` for an unsupported method. -/
def errMethodUnknown : RegError :=
  ⟨400, "METHOD_UNKNOWN", "We don't understand your method + url"⟩

/-! ## Path handling -/

/-- The slice `elem` after `elem = strings.Split(req.URL.Path, "/")` and
`elem = elem[1:]`. -/
def pathElems (path : String) : List String := (stringsSplit path).drop 1

/-- The expression `elem[len(elem)-1]`; `none` when the index is out of
range. -/
def targetOf (elem : List String) : Option String := elem.getLast?

/-- The expression `strings.Join(elem[1:len(elem)-2], "/")`; `none` when the
slice bounds are out of range. -/
def repoOf (elem : List String) : Option String :=
  if 3 ≤ elem.length then
    some (stringsJoin ((elem.drop 1).take (elem.length - 3)))
  else none

/-- The request names reference `target` of repository `repo`: the values the
handlers compute from the path. -/
def Request.addresses (req : Request) (repo target : String) : Prop :=
  targetOf (pathElems req.path) = some target ∧ repoOf (pathElems req.path) = some repo

instance Request.addresses.decidable (req : Request) (repo target : String) :
    Decidable (req.addresses repo target) := by
  unfold Request.addresses; infer_instance

/-- The entry of the store under reference `key` of repository `repo`: the Go
expression `m.manifests[repo][key]`. -/
def Store.lookup (s : Store) (repo key : String) : Option Manifest :=
  (s.get repo).bind (fun c => c.get key)

/-! ## The manifest handler -/

/-- The response of `GET` for a stored manifest. -/
def getResponse (env : Env) (m : Manifest) : Response :=
  { status := 200
    headers := [("Docker-Content-Digest", env.sha256 m.blob),
                ("Content-Type", m.contentType),
                ("Content-Length", toString m.blob.length)]
    body := .raw m.blob }

/-- The response of `HEAD` for a stored manifest: the headers of `GET`, no
body. -/
def headResponse (env : Env) (m : Manifest) : Response :=
  { status := 200
    headers := [("Docker-Content-Digest", env.sha256 m.blob),
                ("Content-Type", m.contentType),
                ("Content-Length", toString m.blob.length)]
    body := .empty }

/-- The loop `for _, desc := range im.Manifests` of `PUT`: the first listed
sub-manifest that is missing from the repository `c` ends the request. -/
def checkSubManifests (env : Env) (c : GoMap Manifest) : List Descriptor → Option RegError
  | [] => none
  | desc :: rest =>
    if !env.isDistributable desc.mediaType then checkSubManifests env c rest
    else if env.isIndex desc.mediaType || env.isImage desc.mediaType then
      if (c.get desc.digest).isSome then checkSubManifests env c rest
      else some ⟨404, "MANIFEST_UNKNOWN",
        "Sub-manifest " ++ env.quote desc.digest ++ " not found"⟩
    else checkSubManifests env c rest

/-- The two assignments that end a successful `PUT`, and its response. -/
def putStore (s : Store) (repo target digest : String) (mf : Manifest) : Store × Outcome :=
  let c := (s.get repo).getD GoMap.empty
  (s.set repo ((c.set target mf).set digest mf),
   .ok { status := 201, headers := [("Docker-Content-Digest", digest)], body := .empty })

/-- The case `http.MethodPut` of `manifests.handle`. -/
def handlePut (env : Env) (s : Store) (repo target : String) (req : Request) :
    Store × Outcome :=
  let s1 := if (s.get repo).isNone then s.set repo GoMap.empty else s
  let digest := env.sha256 req.body
  let mf : Manifest := { blob := req.body, contentType := req.contentType }
  if env.isIndex mf.contentType then
    match env.unmarshalIndex req.body with
    | .error e => (s1, .err ⟨400, "MANIFEST_INVALID", e⟩)
    | .ok descs =>
      match checkSubManifests env ((s1.get repo).getD GoMap.empty) descs with
      | some e => (s1, .err e)
      | none => putStore s1 repo target digest mf
  else putStore s1 repo target digest mf

/-- The method `manifests.handle`. -/
def handle (env : Env) (s : Store) (req : Request) : Store × Outcome :=
  let elem := pathElems req.path
  match targetOf elem, repoOf elem with
  | some target, some repo =>
    if req.method = "GET" then
      match s.get repo with
      | none => (s, .err errNameUnknown)
      | some c =>
        match c.get target with
        | none => (s, .err errManifestUnknown)
        | some m => (s, .ok (getResponse env m))
    else if req.method = "HEAD" then
      match s.get repo with
      | none => (s, .err errNameUnknown)
      | some c =>
        match c.get target with
        | none => (s, .err errManifestUnknown)
        | some m => (s, .ok (headResponse env m))
    else if req.method = "PUT" then
      handlePut env s repo target req
    else if req.method = "DELETE" then
      match s.get repo with
      | none => (s, .err errNameUnknown)
      | some c =>
        match c.get target with
        | none => (s, .err errManifestUnknown)
        | some _ =>
          (s.set repo (c.delete target),
           .ok { status := 202, headers := [], body := .empty })
    else (s, .err errMethodUnknown)
  | _, _ => (s, .panic)

/-! ## The tag listing -/

/-- The loop `for i, t := range tags` under `last`: `tags[i:]` for the first
`i` with `tags[i] > last`, and the slice as it is when there is none. -/
def seekLast (last : String) (all : List String) : List String → List String
  | [] => all
  | t :: rest => if strLt last t then t :: rest else seekLast last all rest

/-- The method `manifests.handleTags`. -/
def handleTags (env : Env) (s : Store) (req : Request) : Store × Outcome :=
  match repoOf (pathElems req.path) with
  | none => (s, .panic)
  | some repo =>
    if req.method = "GET" then
      match s.get repo with
      | none => (s, .err errNameUnknown)
      | some c =>
        let tags := sortStrings (c.keys.filter (fun tag => !stringsContains tag "sha256:"))
        let last := req.queryGet "last"
        let tags := if last ≠ "" then seekLast last tags tags else tags
        let ns := req.queryGet "n"
        let respond (tags : List String) : Store × Outcome :=
          (s, .ok { status := 200
                    headers := [("Content-Length", toString (env.jsonLen (.tags repo tags)))]
                    body := .tags repo tags })
        if ns ≠ "" then
          match atoi ns with
          | .error e =>
            (s, .err ⟨400, "BAD_REQUEST",
              "parsing n: strconv.Atoi: parsing " ++ env.quote ns ++ ": " ++ e.text⟩)
          | .ok n =>
            if n < (tags.length : Int) then
              if n < 0 then (s, .panic) else respond (tags.take n.toNat)
            else respond tags
        else respond tags
    else (s, .err errMethodUnknown)

/-- The slice `tags` of `handleTags` when it reaches the count `n`: the sorted
keys without `sha256:`, moved to the cursor `last` when that is given. -/
def tagsAtCount (c : GoMap Manifest) (last : String) : List String :=
  if last ≠ "" then
    seekLast last (sortStrings (c.keys.filter (fun tag => !stringsContains tag "sha256:")))
      (sortStrings (c.keys.filter (fun tag => !stringsContains tag "sha256:")))
  else sortStrings (c.keys.filter (fun tag => !stringsContains tag "sha256:"))

/-! ## The referrers query -/

/-- One turn of the loop `for dg, manifest := range digestToManifestMap`: the
descriptor appended for the entry, if any. -/
def referrerOf (env : Env) (target : String) (e : String × Manifest) : Option Descriptor :=
  match env.newHash e.1 with
  | none => none
  | some h =>
    match env.unmarshalSubject e.2.blob with
    | none => none
    | some subject =>
      if subject.digest ≠ target then none
      else some { mediaType := e.2.contentType
                  size := (e.2.blob.length : Int)
                  digest := h
                  artifactType := env.unmarshalConfigMediaType e.2.blob }

/-- The method `manifests.handleReferrers`. -/
def handleReferrers (env : Env) (s : Store) (req : Request) : Store × Outcome :=
  if req.method ≠ "GET" then (s, .err errMethodUnknown)
  else
    let elem := pathElems req.path
    match targetOf elem, repoOf elem with
    | some target, some repo =>
      match env.newHash target with
      | none => (s, .err ⟨400, "UNSUPPORTED", "Target must be a valid digest"⟩)
      | some _ =>
        match s.get repo with
        | none => (s, .err errNameUnknown)
        | some c =>
          let body := Body.index 2 env.mediaTypeOCIImageIndex
            (c.entries.filterMap (referrerOf env target))
          (s, .ok { status := 200
                    headers := [("Content-Length", toString (env.jsonLen body))]
                    body := body })
    | _, _ => (s, .panic)

/-! ## The catalog listing -/

/-- The loop `for key := range m.manifests` of `handleCatalog` over the keys
still to come, with the counter `countRepos` and the slice `repos`. -/
def catalogLoop (n : Int) : List String → Nat → List String → List String
  | [], _, repos => repos
  | key :: rest, countRepos, repos =>
    if (countRepos : Int) ≥ n then repos
    else catalogLoop n rest (countRepos + 1) (repos ++ [key])

/-- The method `manifests.handleCatalog`.  Go leaves the order in which `range`
yields the keys of a map unspecified: `order` is the order of this call, some
arrangement of the keys of the store. -/
def handleCatalog (env : Env) (s : Store) (order : List String) (req : Request) :
    Store × Outcome :=
  let nStr := req.queryGet "n"
  let n : Int := if nStr ≠ "" then atoiValue nStr else 10000
  if req.method = "GET" then
    let repos := catalogLoop n order 0 []
    (s, .ok { status := 200
              headers := [("Content-Length", toString (env.jsonLen (.catalog repos)))]
              body := .catalog repos })
  else (s, .err errMethodUnknown)

/-! ## Runs of the manifest handler and the digest-key invariant -/

/-- The state after serving the manifest requests `reqs` in turn. -/
def run (env : Env) (s : Store) : List Request → Store
  | [] => s
  | req :: rest => run env (handle env s req).1 rest

/-- The digest-key invariant: every key of a repository that is a
syntactically valid digest holds content whose digest is that key. -/
def DigestKeysOK (env : Env) (s : Store) : Prop :=
  ∀ R k m, s.lookup R k = some m → env.newHash k ≠ none → env.sha256 m.blob = k

/-- The reference of the request is no valid digest, or it is the digest of
the request body. -/
def Request.referenceMatchesBody (env : Env) (req : Request) : Bool :=
  match targetOf (pathElems req.path) with
  | none => true
  | some t => (env.newHash t).isNone || decide (t = env.sha256 req.body)

/-! ## A concrete environment

The instance `refEnv` of `Env` evaluates the handlers on concrete requests.
Its parts stand for code that is not in `manifest.go`. -/

namespace Ref

/-- The round constants of SHA-256. -/
def K : List Nat := [
  0x428a2f98, 0x71374491, 0xb5c0fbcf, 0xe9b5dba5, 0x3956c25b, 0x59f111f1, 0x923f82a4, 0xab1c5ed5,
  0xd807aa98, 0x12835b01, 0x243185be, 0x550c7dc3, 0x72be5d74, 0x80deb1fe, 0x9bdc06a7, 0xc19bf174,
  0xe49b69c1, 0xefbe4786, 0x0fc19dc6, 0x240ca1cc, 0x2de92c6f, 0x4a7484aa, 0x5cb0a9dc, 0x76f988da,
  0x983e5152, 0xa831c66d, 0xb00327c8, 0xbf597fc7, 0xc6e00bf3, 0xd5a79147, 0x06ca6351, 0x14292967,
  0x27b70a85, 0x2e1b2138, 0x4d2c6dfc, 0x53380d13, 0x650a7354, 0x766a0abb, 0x81c2c92e, 0x92722c85,
  0xa2bfe8a1, 0xa81a664b, 0xc24b8b70, 0xc76c51a3, 0xd192e819, 0xd6990624, 0xf40e3585, 0x106aa070,
  0x19a4c116, 0x1e376c08, 0x2748774c, 0x34b0bcb5, 0x391c0cb3, 0x4ed8aa4a, 0x5b9cca4f, 0x682e6ff3,
  0x748f82ee, 0x78a5636f, 0x84c87814, 0x8cc70208, 0x90befffa, 0xa4506ceb, 0xbef9a3f7, 0xc67178f2]

/-- The modulus of 32-bit words. -/
def W32 : Nat := 4294967296

/-- Rotation of a 32-bit word to the right. -/
def rotr (x n : Nat) : Nat := ((x >>> n) ||| (x <<< (32 - n))) % W32

def bsig0 (x : Nat) : Nat := rotr x 2 ^^^ rotr x 13 ^^^ rotr x 22
def bsig1 (x : Nat) : Nat := rotr x 6 ^^^ rotr x 11 ^^^ rotr x 25
def ssig0 (x : Nat) : Nat := rotr x 7 ^^^ rotr x 18 ^^^ (x >>> 3)
def ssig1 (x : Nat) : Nat := rotr x 17 ^^^ rotr x 19 ^^^ (x >>> 10)
def ch (x y z : Nat) : Nat := (x &&& y) ^^^ ((W32 - 1 - x) &&& z)
def maj (x y z : Nat) : Nat := (x &&& y) ^^^ (x &&& z) ^^^ (y &&& z)

/-- Message padding: the byte `0x80`, zeros up to 56 modulo 64, and the bit
length in eight big-endian bytes. -/
def pad (m : List Nat) : List Nat :=
  m ++ [0x80] ++ List.replicate ((119 - m.length % 64) % 64) 0 ++
    (List.range 8).map (fun i => ((8 * m.length) >>> (8 * (7 - i))) % 256)

/-- Big-endian 32-bit words of a byte list. -/
def words : List Nat → List Nat
  | a :: b :: c :: d :: rest => (a * 16777216 + b * 65536 + c * 256 + d) :: words rest
  | _ => []

/-- The message schedule, most recent word first. -/
def extend : Nat → List Nat → List Nat
  | 0, w => w
  | n + 1, w =>
    extend n (((ssig1 (w.getD 1 0) + w.getD 6 0 + ssig0 (w.getD 14 0) + w.getD 15 0) % W32) :: w)

/-- The eight working variables. -/
structure St where
  (a b c d e f g h : Nat)

/-- One round of the compression function. -/
def round (s : St) (kw : Nat × Nat) : St :=
  let t1 := (s.h + bsig1 s.e + ch s.e s.f s.g + kw.1 + kw.2) % W32
  let t2 := (bsig0 s.a + maj s.a s.b s.c) % W32
  ⟨(t1 + t2) % W32, s.a, s.b, s.c, (s.d + t1) % W32, s.e, s.f, s.g⟩

/-- The compression function on one block of sixteen words. -/
def compress (h : St) (block : List Nat) : St :=
  let s := (K.zip (extend 48 block.reverse).reverse).foldl round h
  ⟨(h.a + s.a) % W32, (h.b + s.b) % W32, (h.c + s.c) % W32, (h.d + s.d) % W32,
   (h.e + s.e) % W32, (h.f + s.f) % W32, (h.g + s.g) % W32, (h.h + s.h) % W32⟩

/-- The first `n` blocks of sixteen words. -/
def blocks : Nat → List Nat → List (List Nat)
  | 0, _ => []
  | n + 1, ws => ws.take 16 :: blocks n (ws.drop 16)

/-- The initial hash value. -/
def init : St :=
  ⟨0x6a09e667, 0xbb67ae85, 0x3c6ef372, 0xa54ff53a, 0x510e527f, 0x9b05688c, 0x1f83d9ab, 0x5be0cd19⟩

/-- A lower-case hexadecimal digit. -/
def hexDigit (n : Nat) : Char := "0123456789abcdef".data.getD n '0'

/-- The eight hexadecimal digits of a 32-bit word. -/
def hexWord (w : Nat) : List Char :=
  [28, 24, 20, 16, 12, 8, 4, 0].map (fun s => hexDigit ((w >>> s) % 16))

/-- The 64 hexadecimal digits of the SHA-256 hash of a byte list. -/
def sha256Hex (m : List Nat) : List Char :=
  let ws := words (pad m)
  let s := (blocks (ws.length / 16) ws).foldl compress init
  hexWord s.a ++ hexWord s.b ++ hexWord s.c ++ hexWord s.d ++
    hexWord s.e ++ hexWord s.f ++ hexWord s.g ++ hexWord s.h

/-- Modelled from the spec: `hasher.SHA256` followed by `String()`, of the
package `hasher` that is not among the sources.  The spec's digest is
`algorithm:hex`; this is SHA-256 (FIPS 180-4) printed as `sha256:` and 64
lower-case hexadecimal digits. -/
def sha256 (b : Bytes) : String :=
  String.mk ("sha256:".data ++ sha256Hex (b.map UInt8.toNat))

/-- A character of a lower-case hexadecimal number. -/
def isHex (c : Char) : Bool := ('0' ≤ c ∧ c ≤ '9') ∨ ('a' ≤ c ∧ c ≤ 'f')

/-- Modelled from the spec: `hasher.NewHash` followed by `String()`, of the
package `hasher` that is not among the sources.  A digest is `algorithm:hex`
of a known algorithm: here `sha256:` and exactly 64 lower-case hexadecimal
digits; the hash prints as the text it was parsed from. -/
def newHash (s : String) : Option String :=
  if s.data.take 7 = "sha256:".data ∧ (s.data.drop 7).length = 64 ∧ (s.data.drop 7).all isHex
  then some s else none

/-- Modelled from the spec: the predicate `isIndex`, declared outside
`manifest.go`: the index and manifest-list media types. -/
def isIndex (mt : String) : Bool :=
  mt = "application/vnd.oci.image.index.v1+json" ∨
  mt = "application/vnd.docker.distribution.manifest.list.v2+json"

/-- Modelled from the spec: the predicate `isImage`, declared outside
`manifest.go`: the image manifest media types. -/
def isImage (mt : String) : Bool :=
  mt = "application/vnd.oci.image.manifest.v1+json" ∨
  mt = "application/vnd.docker.distribution.manifest.v2+json"

/-- Modelled from the spec: the predicate `isDistributable`, declared outside
`manifest.go`: every media type but those marked as not to be distributed. -/
def isDistributable (mt : String) : Bool :=
  ¬ (mt = "application/vnd.docker.image.rootfs.foreign.diff.tar.gzip" ∨
     mt = "application/vnd.oci.image.layer.nondistributable.v1.tar+gzip" ∨
     mt = "application/vnd.oci.image.layer.nondistributable.v1.tar")

/-- A JSON value of the subset read by `parseJson`. -/
inductive JVal
  | str (s : String)
  | num (n : Nat)
  | arr (items : List JVal)
  | obj (fields : List (String × JVal))

/-- A string literal after its opening quote, escapes excluded. -/
def readStr : List Char → Option (String × List Char)
  | [] => none
  | c :: cs =>
    if c = '"' then some ("", cs)
    else if c = '\\' then none
    else match readStr cs with
      | none => none
      | some (s, r) => some (String.mk (c :: s.data), r)

/-- A run of decimal digits. -/
def readNum : List Char → Nat → Nat × List Char
  | [], n => (n, [])
  | c :: cs, n =>
    if '0' ≤ c ∧ c ≤ '9' then readNum cs (n * 10 + (c.toNat - 48)) else (n, c :: cs)

mutual
/-- A JSON value: a string, a natural number, an array or an object, without
white space. -/
def parseVal : Nat → List Char → Option (JVal × List Char)
  | 0, _ => none
  | fuel + 1, cs =>
    match cs with
    | [] => none
    | c :: rest =>
      if c = '"' then (readStr rest).map (fun p => (JVal.str p.1, p.2))
      else if c = '[' then
        match rest with
        | ']' :: r => some (JVal.arr [], r)
        | _ => (parseItems fuel rest).map (fun p => (JVal.arr p.1, p.2))
      else if c = '{' then
        match rest with
        | '}' :: r => some (JVal.obj [], r)
        | _ => (parseFields fuel rest).map (fun p => (JVal.obj p.1, p.2))
      else if '0' ≤ c ∧ c ≤ '9' then
        some (JVal.num (readNum cs 0).1, (readNum cs 0).2)
      else none
/-- The items of a non-empty array, up to its closing bracket. -/
def parseItems : Nat → List Char → Option (List JVal × List Char)
  | 0, _ => none
  | fuel + 1, cs =>
    match parseVal fuel cs with
    | none => none
    | some (v, r) =>
      match r with
      | ',' :: r2 => (parseItems fuel r2).map (fun p => (v :: p.1, p.2))
      | ']' :: r2 => some ([v], r2)
      | _ => none
/-- The fields of a non-empty object, up to its closing brace. -/
def parseFields : Nat → List Char → Option (List (String × JVal) × List Char)
  | 0, _ => none
  | fuel + 1, cs =>
    match cs with
    | '"' :: r0 =>
      match readStr r0 with
      | some (k, ':' :: r1) =>
        match parseVal fuel r1 with
        | none => none
        | some (v, r) =>
          match r with
          | ',' :: r2 => (parseFields fuel r2).map (fun p => ((k, v) :: p.1, p.2))
          | '}' :: r2 => some ([(k, v)], r2)
          | _ => none
      | _ => none
    | _ => none
end

/-- A whole document of the subset; the fuel exceeds its length. -/
def parseJson (b : Bytes) : Option JVal :=
  match parseVal (b.length + 1) (b.map (fun u => Char.ofNat u.toNat)) with
  | some (v, []) => some v
  | _ => none

/-- The field `k` of an object. -/
def field (k : String) : JVal → Option JVal
  | .obj fs => (fs.find? (fun p => p.1 = k)).map Prod.snd
  | _ => none

/-- The string held by a value, empty when there is none. -/
def strOf : Option JVal → String
  | some (.str s) => s
  | _ => ""

/-- The number held by a value, zero when there is none. -/
def numOf : Option JVal → Int
  | some (.num n) => (n : Int)
  | _ => 0

/-- The descriptor read from an object. -/
def descOf (v : JVal) : Descriptor :=
  { mediaType := strOf (field "mediaType" v)
    digest := strOf (field "digest" v)
    size := numOf (field "size" v)
    artifactType := strOf (field "artifactType" v) }

/-- Modelled from the spec: `json.Unmarshal` into an `ocispec.Index`, of the
library `encoding/json`: the descriptors under `manifests` of a document of
the subset, an error for any other body (the error text is a stand-in for
the library's). -/
def unmarshalIndex (b : Bytes) : Except String (List Descriptor) :=
  match parseJson b with
  | some (.obj fs) =>
    match field "manifests" (.obj fs) with
    | none => .ok []
    | some (.arr items) => .ok (items.map descOf)
    | some _ => .error "json: manifests is not an array"
  | _ => .error "json: the body is not an object"

/-- Modelled from the spec: the `subject` read by `json.Unmarshal` into
`refPointer`: the descriptor under `subject` of a document of the subset, nil
for any other body. -/
def unmarshalSubject (b : Bytes) : Option Descriptor :=
  match (parseJson b).bind (field "subject") with
  | some (.obj fs) => some (descOf (.obj fs))
  | _ => none

/-- Modelled from the spec: the `config.mediaType` read by `json.Unmarshal`
into `imageAsArtifact`: empty when the document has none. -/
def unmarshalConfigMediaType (b : Bytes) : String :=
  strOf (((parseJson b).bind (field "config")).bind (field "mediaType"))

/-- Modelled from the spec: the verb `%q` of `fmt`, for a text without quotes,
backslashes or control characters. -/
def quote (s : String) : String := "\"" ++ s ++ "\""

/-- The JSON text of a descriptor. -/
def renderDesc (d : Descriptor) : String :=
  "\x7b\"mediaType\":" ++ quote d.mediaType ++ ",\"digest\":" ++ quote d.digest ++
    ",\"size\":" ++ toString d.size ++
    (if d.artifactType = "" then "" else ",\"artifactType\":" ++ quote d.artifactType) ++ "\x7d"

/-- Modelled from the spec: the length of `json.Marshal` of a response
document, of the library `encoding/json`, an empty list printed as `[]`. -/
def jsonLen : Body → Nat
  | .tags name tags =>
    ("\x7b\"name\":" ++ quote name ++ ",\"tags\":[" ++
      String.intercalate "," (tags.map quote) ++ "]\x7d").length
  | .index v mt ds =>
    ("\x7b\"schemaVersion\":" ++ toString v ++ ",\"mediaType\":" ++ quote mt ++
      ",\"manifests\":[" ++ String.intercalate "," (ds.map renderDesc) ++ "]\x7d").length
  | .catalog repos =>
    ("\x7b\"repositories\":[" ++ String.intercalate "," (repos.map quote) ++ "]\x7d").length
  | .raw blob => blob.length
  | .empty => 0

/-- The bytes of an ASCII text. -/
def ascii (s : String) : Bytes := s.data.map (fun c => c.toNat.toUInt8)

end Ref

/-- The concrete environment: SHA-256 digests, the `sha256:hex` digest grammar,
the OCI and Docker media types, and a reader for a subset of JSON. -/
def refEnv : Env :=
  { sha256 := Ref.sha256
    newHash := Ref.newHash
    isIndex := Ref.isIndex
    isImage := Ref.isImage
    isDistributable := Ref.isDistributable
    mediaTypeOCIImageIndex := "application/vnd.oci.image.index.v1+json"
    unmarshalIndex := Ref.unmarshalIndex
    unmarshalSubject := Ref.unmarshalSubject
    unmarshalConfigMediaType := Ref.unmarshalConfigMediaType
    quote := Ref.quote
    jsonLen := Ref.jsonLen }

/-! ## Concrete requests and states -/

namespace Ex

/-- A manifest request on `path`. -/
def req (method path contentType body : String) : Request :=
  { method := method, path := path, query := [], contentType := contentType,
    body := Ref.ascii body }

/-- A listing request on `path` with the query parameters `last` and `n`. -/
def listReq (path last n : String) : Request :=
  { method := "GET", path := path, query := [("last", last), ("n", n)], contentType := "",
    body := [] }

/-- The request `PUT /v2/foo/bar/manifests/v1` with body `abc`. -/
def putAbc : Request := req "PUT" "/v2/foo/bar/manifests/v1" "text/plain" "abc"

/-- The registry after `putAbc` on the empty registry. -/
def afterPutAbc : Store := (handle refEnv GoMap.empty putAbc).1

/-- The repository `foo/bar` after `putAbc`: `abc` under `v1` and under its
digest. -/
def repoAbc : GoMap Manifest :=
  (GoMap.empty.set "v1" ⟨"text/plain", Ref.ascii "abc"⟩).set
    "sha256:ba7816bf8f01cfea414140de5dae2223b00361a396177a9cb410ff61f20015ad"
    ⟨"text/plain", Ref.ascii "abc"⟩

/-- The request `GET /v2/foo/bar/manifests/v1`. -/
def getV1 : Request := req "GET" "/v2/foo/bar/manifests/v1" "" ""

/-- The request `GET /v2/foo/bar/manifests/<digest of abc>`. -/
def getAbcByDigest : Request :=
  req "GET"
    "/v2/foo/bar/manifests/sha256:ba7816bf8f01cfea414140de5dae2223b00361a396177a9cb410ff61f20015ad"
    "" ""

/-- A valid digest that is not the digest of `abc`. -/
def digestA : String :=
  "sha256:aaaaaaaaaaaaaaaaaaaaaaaaaaaaaaaaaaaaaaaaaaaaaaaaaaaaaaaaaaaaaaaa"

/-- The request `PUT /v2/r/manifests/<digestA>` with body `abc`. -/
def putMismatch : Request :=
  req "PUT" ("/v2/r/manifests/" ++ digestA) "text/plain" "abc"

/-- The request `DELETE /v2/foo/bar/manifests/v1`. -/
def deleteV1 : Request := req "DELETE" "/v2/foo/bar/manifests/v1" "" ""

/-- The request `PUT /v2/foo/bar/manifests/<digest of abc>` with body `abc`. -/
def putAbcByDigest : Request :=
  req "PUT"
    "/v2/foo/bar/manifests/sha256:ba7816bf8f01cfea414140de5dae2223b00361a396177a9cb410ff61f20015ad"
    "text/plain" "abc"

/-- The media type of an OCI image manifest. -/
def ociManifest : String := "application/vnd.oci.image.manifest.v1+json"

/-- The media type of an OCI image index. -/
def ociIndex : String := "application/vnd.oci.image.index.v1+json"

/-- An image manifest without a subject. -/
def plainManifest : String := "\x7b\"config\":\x7b\"mediaType\":\"application/example\"\x7d\x7d"

/-- The request `PUT /v2/r/manifests/img` of `plainManifest`. -/
def putPlain : Request := req "PUT" "/v2/r/manifests/img" ociManifest plainManifest

/-- The registry after `putPlain` on the empty registry. -/
def afterPutPlain : Store := (handle refEnv GoMap.empty putPlain).1

/-- An index that lists `plainManifest` as its only manifest. -/
def indexOfPlain : String :=
  "\x7b\"manifests\":[\x7b\"mediaType\":\"" ++ ociManifest ++ "\",\"digest\":\"" ++
    Ref.sha256 (Ref.ascii plainManifest) ++ "\",\"size\":46\x7d]\x7d"

/-- The request `PUT /v2/r/manifests/multi` of `indexOfPlain`. -/
def putIndex : Request := req "PUT" "/v2/r/manifests/multi" ociIndex indexOfPlain

/-- The request `PUT /v2/fresh/manifests/v1` with an index content type and a
body that is no JSON document. -/
def putBadIndex : Request := req "PUT" "/v2/fresh/manifests/v1" ociIndex "not json"

/-- The request `PUT /v2/fresh/manifests/v1` of an index whose only
sub-manifest is not in the repository. -/
def putDanglingIndex : Request := req "PUT" "/v2/fresh/manifests/v1" ociIndex indexOfPlain

/-- The request `GET /v2/fresh/manifests/v1`. -/
def getFresh : Request := req "GET" "/v2/fresh/manifests/v1" "" ""

/-- The request `GET /v2/fresh/tags/list`. -/
def listFresh : Request := listReq "/v2/fresh/tags/list" "" ""

/-- The request `GET /v2/fresh/referrers/<digestA>`. -/
def referrersFresh : Request := req "GET" ("/v2/fresh/referrers/" ++ digestA) "" ""

/-- The registry with the tags `a`, `b`, `c` and `d` in repository `r`. -/
def fourTags : Store :=
  run refEnv GoMap.empty
    [req "PUT" "/v2/r/manifests/c" "text/plain" "c", req "PUT" "/v2/r/manifests/a" "text/plain" "a",
     req "PUT" "/v2/r/manifests/d" "text/plain" "d", req "PUT" "/v2/r/manifests/b" "text/plain" "b"]

/-- The request `PUT /v2/r/manifests/sha256:latest` with body `abc`. -/
def putOddTag : Request := req "PUT" "/v2/r/manifests/sha256:latest" "text/plain" "abc"

/-- The registry after `putOddTag` on the empty registry. -/
def afterPutOddTag : Store := (handle refEnv GoMap.empty putOddTag).1

/-- The repository `r` of `fourTags`. -/
def repoFourTags : GoMap Manifest := (fourTags.get "r").getD GoMap.empty

/-- An image manifest whose subject is `digestA`. -/
def referrerManifest : String :=
  "\x7b\"config\":\x7b\"mediaType\":\"application/example\"\x7d,\"subject\":\x7b\"mediaType\":\"" ++
    ociManifest ++ "\",\"digest\":\"" ++ digestA ++ "\",\"size\":3\x7d\x7d"

/-- The request `PUT /v2/r/manifests/art` of `referrerManifest`. -/
def putReferrer : Request := req "PUT" "/v2/r/manifests/art" ociManifest referrerManifest

/-- The registry after `putReferrer` on the empty registry. -/
def afterPutReferrer : Store := (handle refEnv GoMap.empty putReferrer).1

/-- The repository `r` of `afterPutReferrer`. -/
def repoReferrer : GoMap Manifest := (afterPutReferrer.get "r").getD GoMap.empty

/-- The request `PUT /v2/r/manifests/<digest of referrerManifest>` of
`plainManifest`, a body with another digest. -/
def putOverReferrer : Request :=
  req "PUT" ("/v2/r/manifests/" ++ Ref.sha256 (Ref.ascii referrerManifest)) ociManifest
    plainManifest

/-- The registry after `putReferrer` and `putOverReferrer`. -/
def afterPutOverReferrer : Store := (handle refEnv afterPutReferrer putOverReferrer).1

/-- The request `GET /v2/r/referrers/<digestA>`. -/
def referrersOfA : Request := req "GET" ("/v2/r/referrers/" ++ digestA) "" ""

end Ex

/-! ## Package `ocimem`: name grammars, descriptors, repositories -/

namespace Ocimem

/-- A character class `[...]` of a pattern, from the characters it holds. -/
def charClass (l : List Char) : RegularExpression Char :=
  l.foldr (fun c r => RegularExpression.plus (RegularExpression.char c) r)
    RegularExpression.zero

/-- The repetition `r+` of a pattern. -/
def oneOrMore (r : RegularExpression Char) : RegularExpression Char :=
  RegularExpression.comp r (RegularExpression.star r)

/-- The repetition `r{0,n}` of a pattern. -/
def upTo : Nat → RegularExpression Char → RegularExpression Char
  | 0, _ => RegularExpression.epsilon
  | n + 1, r =>
    RegularExpression.plus RegularExpression.epsilon (RegularExpression.comp r (upTo n r))

/-- The characters of the range `a-z`. -/
def lowerChars : List Char := "abcdefghijklmnopqrstuvwxyz".data

/-- The characters of the range `A-Z`. -/
def upperChars : List Char := "ABCDEFGHIJKLMNOPQRSTUVWXYZ".data

/-- The characters of the range `0-9`. -/
def digitChars : List Char := "0123456789".data

/-- The pattern `[a-zA-Z0-9_][a-zA-Z0-9._-]{0,127}` that `tagPattern` holds
between `^` and `$`. -/
def tagPattern : RegularExpression Char :=
  RegularExpression.comp (charClass (lowerChars ++ upperChars ++ digitChars ++ ['_']))
    (upTo 127 (charClass (lowerChars ++ upperChars ++ digitChars ++ ['.', '_', '-'])))

/-- The pattern `[a-z0-9]+([._-][a-z0-9]+)*` of one path segment of a
repository name. -/
def segmentPattern : RegularExpression Char :=
  RegularExpression.comp (oneOrMore (charClass (lowerChars ++ digitChars)))
    (RegularExpression.star (RegularExpression.comp (charClass ['.', '_', '-'])
      (oneOrMore (charClass (lowerChars ++ digitChars)))))

/-- The pattern `[a-z0-9]+([._-][a-z0-9]+)*(/[a-z0-9]+([._-][a-z0-9]+)*)*` that
`repoNamePattern` holds between `^` and `$`. -/
def repoNamePattern : RegularExpression Char :=
  RegularExpression.comp segmentPattern
    (RegularExpression.star (RegularExpression.comp (RegularExpression.char '/') segmentPattern))

/-- The function `isValidRepoName`.  `MatchString` of a pattern that starts
with `^` and ends with `$` holds exactly when the whole string is matched by
the pattern in between. -/
def isValidRepoName (repoName : String) : Bool := repoNamePattern.rmatch repoName.data

/-- The function `isValidTag`. -/
def isValidTag (tag : String) : Bool := tagPattern.rmatch tag.data

/-- The function `CheckDescriptor`: `none` is the nil error; `data` is `none`
for a nil slice; `fromBytes` is `digest.FromBytes` of the library
`go-digest`. -/
def CheckDescriptor (fromBytes : Bytes → String) (desc : Descriptor) (data : Option Bytes) :
    Option String :=
  match data with
  | some d =>
    if fromBytes d ≠ desc.digest then some "digest mismatch"
    else if desc.size ≠ (d.length : Int) then some "size mismatch"
    else if desc.mediaType = "" then some "no media type in descriptor"
    else none
  | none =>
    if desc.size = 0 then some "zero sized content"
    else if desc.mediaType = "" then some "no media type in descriptor"
    else none

/-- The struct `blob`. -/
structure Blob where
  mediaType : String
  data : Bytes
  deriving DecidableEq, Repr

/-- The struct `repository`; a nil map and an empty map are both the empty
map. -/
structure Repository where
  tags : GoMap Descriptor
  manifests : GoMap Blob
  blobs : GoMap Blob
  deriving DecidableEq

/-- The struct `Registry`: the field `repos`, `none` for the nil map; a value
of the map is a `*repository`, `none` for the nil pointer. -/
structure Registry where
  repos : Option (GoMap (Option Repository))
  deriving DecidableEq

/-- The repository `noRepo` that stands for an unknown name: `new(repository)`. -/
def noRepo : Repository := ⟨GoMap.empty, GoMap.empty, GoMap.empty⟩

/-- The expression `r.repos[repoName]`: the stored pointer, nil when the map is
nil or has no such key. -/
def Registry.entry (r : Registry) (repoName : String) : Option Repository :=
  match r.repos with
  | none => none
  | some m => (m.get repoName).join

/-- The method `Registry.repo`: the pointer stored under the name when the key
is there, and `noRepo` otherwise. -/
def Registry.repo (r : Registry) (repoName : String) : Option Repository :=
  match r.repos with
  | none => some noRepo
  | some m =>
    match m.get repoName with
    | some p => p
    | none => some noRepo

/-- The errors of `makeRepo`: `fmt.Errorf("invalid repository name %q",
repoName)`. -/
inductive MemError
  | invalidRepositoryName (repoName : String)
  deriving DecidableEq, Repr

/-- The method `Registry.makeRepo`: the registry it leaves and what it
returns. -/
def Registry.makeRepo (r : Registry) (repoName : String) :
    Registry × Except MemError Repository :=
  if !isValidRepoName repoName then (r, .error (.invalidRepositoryName repoName))
  else
    let r1 : Registry := if r.repos.isNone then ⟨some GoMap.empty⟩ else r
    match r1.entry repoName with
    | some repo => (r1, .ok repo)
    | none =>
      let repo : Repository := ⟨GoMap.empty, GoMap.empty, GoMap.empty⟩
      (⟨some ((r1.repos.getD GoMap.empty).set repoName (some repo))⟩, .ok repo)

/-! ### The grammars in the words of the specification -/

/-- The pieces of a character list between the characters that satisfy `p`. -/
def splitBy (p : Char → Bool) (cs : List Char) : List (List Char) :=
  cs.foldr (fun c acc =>
    if p c then [] :: acc
    else match acc with
      | [] => [[c]]
      | h :: t => (c :: h) :: t) [[]]

/-- A character from `a-z` or `0-9`. -/
def isLowerAlnum (c : Char) : Bool := ('a' ≤ c ∧ c ≤ 'z') ∨ ('0' ≤ c ∧ c ≤ '9')

/-- One of the separators `.`, `_` and `-`. -/
def isNameSeparator (c : Char) : Bool := c = '.' ∨ c = '_' ∨ c = '-'

/-- An ASCII letter. -/
def isAsciiLetter (c : Char) : Bool := ('a' ≤ c ∧ c ≤ 'z') ∨ ('A' ≤ c ∧ c ≤ 'Z')

/-- An ASCII digit. -/
def isAsciiDigit (c : Char) : Bool := '0' ≤ c ∧ c ≤ '9'

/-- The specification's run: a non-empty run of characters from `a-z` and
`0-9`. -/
def specRun (run : List Char) : Bool := run ≠ [] ∧ run.all isLowerAlnum

/-- The specification's segment: runs joined by exactly one separator each,
that is, every piece between separators is a run. -/
def specSegment (seg : List Char) : Bool := (splitBy isNameSeparator seg).all specRun

/-- The specification's repository name: segments separated by `/`, that is,
every piece between slashes is a segment. -/
def specRepoName (repoName : String) : Bool :=
  (splitBy (fun c => c = '/') repoName.data).all specSegment

/-- The specification's tag: between 1 and 128 characters, the first an ASCII
letter, a digit or `_`, every later one an ASCII letter, a digit, `.`, `_` or
`-`. -/
def specTag (tag : String) : Bool :=
  match tag.data with
  | [] => false
  | c :: cs =>
    (1 ≤ (c :: cs).length ∧ (c :: cs).length ≤ 128) ∧
    (isAsciiLetter c ∨ isAsciiDigit c ∨ c = '_') ∧
    cs.all (fun d => isAsciiLetter d ∨ isAsciiDigit d ∨ d = '.' ∨ d = '_' ∨ d = '-')

end Ocimem

/-! ## Package `ociserver`: status codes of request parse errors -/

namespace Ociserver

/-- The value of the field `Err` of an `*ocirequest.ParseError`: one of the
four errors that `handlerErrorForRequestParseError` compares it with, or
another error. -/
inductive ParseErrKind
  | errNotFound
  | errBadlyFormedDigest
  | errMethodNotAllowed
  | errBadRequest
  | other (text : String)
  deriving DecidableEq, Repr

/-- A Go error, as far as `errors.As` looks at it: an `*ocirequest.ParseError`,
an error that wraps another one, or any other error. -/
inductive GoError
  | plain (text : String)
  | parseError (err : ParseErrKind)
  | wrap (text : String) (inner : GoError)
  deriving DecidableEq, Repr

/-- The call `errors.As(err, &perr)` for `perr *ocirequest.ParseError`: the
field `Err` of the first parse error on the chain of `err`, if there is one. -/
def asParseError : GoError → Option ParseErrKind
  | .plain _ => none
  | .parseError k => some k
  | .wrap _ inner => asParseError inner

/-- What `handlerErrorForRequestParseError` returns for a non-nil error: the
error itself, or the call `withHTTPCode(status, err)`, which is declared outside
the file and kept as it is written. -/
inductive HandlerError
  | same (err : GoError)
  | withHTTPCode (status : Nat) (err : GoError)
  deriving DecidableEq, Repr

/-- The function `handlerErrorForRequestParseError`; `none` is the nil
error. -/
def handlerErrorForRequestParseError (err : Option GoError) : Option HandlerError :=
  match err with
  | none => none
  | some e =>
    match asParseError e with
    | none => some (.same e)
    | some .errNotFound => some (.withHTTPCode 404 e)
    | some .errBadlyFormedDigest => some (.withHTTPCode 400 e)
    | some .errMethodNotAllowed => some (.withHTTPCode 405 e)
    | some .errBadRequest => some (.withHTTPCode 400 e)
    | some (.other _) => some (.same e)

end Ociserver

/-! ## Package `ociclient`: reading blobs -/

namespace Ociclient

/-- The kinds of `ocirequest.Request` that `reader.go` builds. -/
inductive RequestKind
  | ReqBlobGet
  | ReqBlobHead
  | ReqManifestGet
  | ReqManifestHead
  deriving DecidableEq, Repr

/-- The fields of `ocirequest.Request` that `reader.go` sets; a field that is
left out of the literal is the empty string. -/
structure OciRequest where
  kind : RequestKind
  repo : String
  digest : String
  tag : String
  deriving DecidableEq, Repr

/-- The part of an `*http.Request` that `reader.go` touches; `header` holds
one value for each key, as `Header.Set` leaves it. -/
structure HTTPRequest where
  method : String
  url : String
  header : GoMap String
  deriving DecidableEq

/-- An `*http.Response`. -/
structure HTTPResponse where
  statusCode : Nat
  header : GoMap String
  body : Bytes
  deriving DecidableEq

/-- A call by which the client reaches the registry: `c.doRequest(ctx, rreq)`,
or `c.do(req, okStatuses...)`. -/
inductive Call
  | doRequest (rreq : OciRequest)
  | doHTTP (req : HTTPRequest) (okStatuses : List Nat)
  deriving DecidableEq

/-- The code that `reader.go` calls and that lives outside it; an error is its
text. -/
structure Client where
  /-- the method `rreq.Construct()`: the HTTP method and the URL -/
  construct : OciRequest → String × String
  /-- the call `http.NewRequestWithContext(ctx, method, u, nil)` -/
  newRequest : String → String → Except String HTTPRequest
  /-- the method `c.doRequest(ctx, rreq)` -/
  doRequest : OciRequest → Except String HTTPResponse
  /-- the method `c.do(req, okStatuses...)` -/
  doHTTP : HTTPRequest → List Nat → Except String HTTPResponse
  /-- the function `descriptorFromResponse(resp, knownDigest, requireSize)` -/
  descriptorFromResponse : HTTPResponse → String → Bool → Except String Descriptor

/-- The struct `blobReader`. -/
structure BlobReader where
  readCloser : Bytes
  desc : Descriptor
  deriving DecidableEq

/-- What a method of the client does: the calls it makes, in order, and the
reader or the error it returns. -/
abbrev Result := List Call × Except String BlobReader

/-- The value of `int64` that a mathematical integer wraps to. -/
def wrapInt64 (x : Int) : Int := (x + 2 ^ 63) % 2 ^ 64 - 2 ^ 63

/-- The verb `%d` of `fmt` on an `int64`: the decimal digits, after `-` for a
negative number. -/
def sprintD (x : Int) : String := toString x

/-- The end of `read` and of `GetBlobRange`, from the response on: the
descriptor of the response, and the reader over its body. -/
def readerOf (c : Client) (rreq : OciRequest) (resp : HTTPResponse) :
    Except String BlobReader :=
  match c.descriptorFromResponse resp rreq.digest true with
  | .error err => .error ("invalid descriptor in response: " ++ err)
  | .ok desc => .ok { readCloser := resp.body, desc := desc }

/-- The method `client.read`. -/
def read (c : Client) (rreq : OciRequest) : Result :=
  match c.doRequest rreq with
  | .error err => ([.doRequest rreq], .error err)
  | .ok resp => ([.doRequest rreq], readerOf c rreq resp)

/-- The method `client.GetBlob`. -/
def GetBlob (c : Client) (repo digest : String) : Result :=
  read c { kind := .ReqBlobGet, repo := repo, digest := digest, tag := "" }

/-- The value that `GetBlobRange` sets the header `Range` to: the two calls of
`fmt.Sprintf`, the subtraction `o1-1` in `int64`. -/
def rangeHeader (o0 o1 : Int) : String :=
  if o1 < 0 then "bytes=" ++ sprintD o0 ++ "-"
  else "bytes=" ++ sprintD o0 ++ "-" ++ sprintD (wrapInt64 (o1 - 1))

/-- The method `client.GetBlobRange`, for `int64` values `o0` and `o1`. -/
def GetBlobRange (c : Client) (repo digest : String) (o0 o1 : Int) : Result :=
  if o0 = 0 ∧ o1 < 0 then GetBlob c repo digest
  else
    let rreq : OciRequest := { kind := .ReqBlobGet, repo := repo, digest := digest, tag := "" }
    match c.newRequest (c.construct rreq).1 (c.construct rreq).2 with
    | .error err => ([], .error err)
    | .ok req =>
      let req : HTTPRequest := { req with header := req.header.set "Range" (rangeHeader o0 o1) }
      match c.doHTTP req [200, 206] with
      | .error err => ([.doHTTP req [200, 206]], .error err)
      | .ok resp => ([.doHTTP req [200, 206]], readerOf c rreq resp)

/-- The byte offsets that the range `bytes=first-last` of HTTP asks for: those
from `first` to `last`, both included. -/
def inclusiveRange (first last : Int) : List Int :=
  (List.range (last - first + 1).toNat).map (fun (i : Nat) => first + (i : Int))

end Ociclient

namespace Ex

/-- The request `HEAD /v2/foo/bar/manifests/v1`. -/
def headV1 : Request := req "HEAD" "/v2/foo/bar/manifests/v1" "" ""

/-- The request `GET /v2/nowhere/referrers/v1`. -/
def referrersOfV1 : Request := req "GET" "/v2/nowhere/referrers/v1" "" ""

/-- The registry with the repositories `r` and `foo/bar`. -/
def twoRepos : Store :=
  run refEnv GoMap.empty [req "PUT" "/v2/r/manifests/a" "text/plain" "a", putAbc]

/-- The request `GET /v2/_catalog?n=1`. -/
def catalogOne : Request :=
  { method := "GET", path := "/v2/_catalog", query := [("n", "1")], contentType := "",
    body := [] }

/-- The descriptor of the content `abc` with media type `text/plain`. -/
def descAbc : Descriptor := ⟨"text/plain", Ref.sha256 (Ref.ascii "abc"), 3, ""⟩

/-- A not-found parse error wrapped in another error. -/
def wrappedNotFound : Ociserver.GoError := .wrap "parse" (.parseError .errNotFound)

/-- The registry of `ocimem` as `New` returns it. -/
def memEmpty : Ocimem.Registry := ⟨none⟩

/-- The registry after `putPlain` and then `putAbc`. -/
def afterPlainThenAbc : Store := (handle refEnv afterPutPlain putAbc).1

/-- The request `GET /v2/foo/bar/tags/list`. -/
def listFooBar : Request := listReq "/v2/foo/bar/tags/list" "" ""

/-- The request `PUT /v2/r/manifests/<digest of plainManifest>` of
`referrerManifest`, a body with another digest. -/
def putReferrerOverPlain : Request :=
  req "PUT" ("/v2/r/manifests/" ++ Ref.sha256 (Ref.ascii plainManifest)) ociManifest
    referrerManifest

/-- The registry after `putPlain` and `putReferrerOverPlain`. -/
def afterPutOverPlain : Store := (handle refEnv afterPutPlain putReferrerOverPlain).1

/-- The repository `r` of `afterPutOverPlain`. -/
def repoOverPlain : GoMap Manifest := (afterPutOverPlain.get "r").getD GoMap.empty

/-- A client without a registry: every request can be built, and no call is
answered. -/
def offline : Ociclient.Client :=
  { construct := fun rreq => ("GET", "/v2/" ++ rreq.repo ++ "/blobs/" ++ rreq.digest)
    newRequest := fun method u => .ok ⟨method, u, GoMap.empty⟩
    doRequest := fun _ => .error "no registry"
    doHTTP := fun _ _ => .error "no registry"
    descriptorFromResponse := fun _ _ _ => .error "no response" }

end Ex

/-! ## Lemmas on Go maps -/

namespace GoMap

variable {V : Type}

theorem getEntries_setEntries_same (k : String) (v : V) (l : List (String × V)) :
    getEntries k (setEntries k v l) = some v := by
  induction l with
  | nil => simp [setEntries, getEntries]
  | cons e rest ih =>
    obtain ⟨k', v'⟩ := e
    by_cases h : k' = k
    · simp [setEntries, getEntries, h]
    · simp [setEntries, getEntries, h, ih]

theorem getEntries_setEntries_ne {k k' : String} (hne : k' ≠ k) (v : V)
    (l : List (String × V)) : getEntries k' (setEntries k v l) = getEntries k' l := by
  induction l with
  | nil => simp [setEntries, getEntries, hne.symm]
  | cons e rest ih =>
    obtain ⟨k0, v0⟩ := e
    by_cases h : k0 = k
    · subst h
      simp [setEntries, getEntries, hne.symm]
    · by_cases h2 : k0 = k'
      · subst h2
        simp [setEntries, getEntries, h]
      · simp [setEntries, getEntries, h, h2, ih]

theorem getEntries_deleteEntries_same (k : String) (l : List (String × V)) :
    getEntries k (deleteEntries k l) = none := by
  induction l with
  | nil => simp [deleteEntries, getEntries]
  | cons e rest ih =>
    obtain ⟨k0, v0⟩ := e
    by_cases h : k0 = k
    · simpa [deleteEntries, h] using ih
    · simp [deleteEntries, getEntries, h, ih]

theorem getEntries_deleteEntries_ne {k k' : String} (hne : k' ≠ k)
    (l : List (String × V)) : getEntries k' (deleteEntries k l) = getEntries k' l := by
  induction l with
  | nil => simp [deleteEntries, getEntries]
  | cons e rest ih =>
    obtain ⟨k0, v0⟩ := e
    by_cases h : k0 = k
    · subst h
      have h2 : ¬ k0 = k' := fun e => hne e.symm
      simp [deleteEntries, getEntries, h2, ih]
    · by_cases h2 : k0 = k'
      · subst h2
        simp [deleteEntries, getEntries, h]
      · simp [deleteEntries, getEntries, h, h2, ih]

theorem getEntries_isSome_iff (k : String) (l : List (String × V)) :
    (getEntries k l).isSome = true ↔ k ∈ l.map Prod.fst := by
  induction l with
  | nil => simp [getEntries]
  | cons e rest ih =>
    obtain ⟨k0, v0⟩ := e
    by_cases h : k0 = k
    · simp [getEntries, h]
    · have h2 : ¬ k = k0 := fun e => h e.symm
      simp only [getEntries, h, if_false, ih, List.map_cons, List.mem_cons, h2, false_or]

theorem getEntries_of_mem {k : String} {v : V} {l : List (String × V)}
    (hn : (l.map Prod.fst).Nodup) (hm : (k, v) ∈ l) : getEntries k l = some v := by
  induction l with
  | nil => simp at hm
  | cons e rest ih =>
    obtain ⟨k0, v0⟩ := e
    simp only [List.map_cons, List.nodup_cons] at hn
    rcases List.mem_cons.1 hm with h | h
    · cases h; simp [getEntries]
    · have hk : k ∈ rest.map Prod.fst := List.mem_map.2 ⟨(k, v), h, rfl⟩
      have hne : ¬ k0 = k := fun e => hn.1 (e ▸ hk)
      simp [getEntries, hne, ih hn.2 h]

theorem mem_of_getEntries {k : String} {v : V} {l : List (String × V)}
    (h : getEntries k l = some v) : (k, v) ∈ l := by
  induction l with
  | nil => simp [getEntries] at h
  | cons e rest ih =>
    obtain ⟨k0, v0⟩ := e
    by_cases hk : k0 = k
    · simp only [getEntries, hk, if_true, Option.some.injEq] at h
      subst hk; subst h; exact List.mem_cons_self _ _
    · simp only [getEntries, hk, if_false] at h
      exact List.mem_cons_of_mem _ (ih h)

theorem get_empty (k : String) : (empty : GoMap V).get k = none := rfl

theorem get_set_same (m : GoMap V) (k : String) (v : V) : (m.set k v).get k = some v :=
  getEntries_setEntries_same k v m.entries

theorem get_set_ne (m : GoMap V) {k k' : String} (hne : k' ≠ k) (v : V) :
    (m.set k v).get k' = m.get k' :=
  getEntries_setEntries_ne hne v m.entries

theorem get_delete_same (m : GoMap V) (k : String) : (m.delete k).get k = none :=
  getEntries_deleteEntries_same k m.entries

theorem get_delete_ne (m : GoMap V) {k k' : String} (hne : k' ≠ k) :
    (m.delete k).get k' = m.get k' :=
  getEntries_deleteEntries_ne hne m.entries

theorem mem_keys_iff (m : GoMap V) (k : String) : k ∈ m.keys ↔ (m.get k).isSome = true :=
  (getEntries_isSome_iff k m.entries).symm

theorem mem_entries_iff (m : GoMap V) (k : String) (v : V) :
    (k, v) ∈ m.entries ↔ m.get k = some v :=
  ⟨getEntries_of_mem m.nodup, mem_of_getEntries⟩

end GoMap

/-! ## Lemmas on the manifest handler -/

/-- The repository map that `PUT` writes into: the stored one, or the fresh
empty one. -/
theorem get_created (s : Store) (R : String) :
    (if (s.get R).isNone then s.set R GoMap.empty else s).get R =
      some ((s.get R).getD GoMap.empty) := by
  cases h : s.get R with
  | none => simp [GoMap.get_set_same]
  | some c => simp [h]

theorem get_created_ne (s : Store) {R R' : String} (hne : R' ≠ R) :
    (if (s.get R).isNone then s.set R GoMap.empty else s).get R' = s.get R' := by
  split
  · exact GoMap.get_set_ne s hne _
  · rfl

/-- A `PUT` that is not rejected ends in `putStore`. -/
theorem handlePut_ok {env : Env} {s s' : Store} {R t : String} {req : Request} {r : Response}
    (h : handlePut env s R t req = (s', .ok r)) :
    (s', Outcome.ok r) =
      putStore (if (s.get R).isNone then s.set R GoMap.empty else s) R t
        (env.sha256 req.body) ⟨req.contentType, req.body⟩ := by
  unfold handlePut at h
  simp only at h
  split at h
  · split at h
    · simp at h
    · split at h
      · simp at h
      · exact h.symm
  · exact h.symm

/-- The state after a successful `PUT`: under the reference and under the
digest, the repository holds the body. -/
theorem handlePut_ok_lookup {env : Env} {s s' : Store} {R t : String} {req : Request}
    {r : Response} (h : handlePut env s R t req = (s', .ok r)) :
    r = ⟨201, [("Docker-Content-Digest", env.sha256 req.body)], .empty⟩ ∧
    s'.lookup R t = some ⟨req.contentType, req.body⟩ ∧
    s'.lookup R (env.sha256 req.body) = some ⟨req.contentType, req.body⟩ := by
  have h2 := handlePut_ok h
  unfold putStore at h2
  simp only [Prod.mk.injEq, Outcome.ok.injEq] at h2
  obtain ⟨hs, hr⟩ := h2
  refine ⟨hr, ?_, ?_⟩
  · rw [hs]
    simp only [Store.lookup, GoMap.get_set_same, Option.bind]
    by_cases ht : t = env.sha256 req.body
    · rw [ht, GoMap.get_set_same]
    · rw [GoMap.get_set_ne _ ht, GoMap.get_set_same]
  · rw [hs]
    simp only [Store.lookup, GoMap.get_set_same, Option.bind]

/-- The manifest handler on a request that names `R/t`. -/
theorem handle_get {env : Env} {s : Store} {req : Request} {R t : String}
    (hm : req.method = "GET") (ha : req.addresses R t) :
    handle env s req =
      match s.lookup R t with
      | some m => (s, .ok (getResponse env m))
      | none => if (s.get R).isSome then (s, .err errManifestUnknown)
                else (s, .err errNameUnknown) := by
  unfold handle Store.lookup
  simp only [ha.1, ha.2, hm]
  cases h : s.get R with
  | none => simp
  | some c => cases h2 : c.get t <;> simp [h2]

theorem handle_put {env : Env} {s : Store} {req : Request} {R t : String}
    (hm : req.method = "PUT") (ha : req.addresses R t) :
    handle env s req = handlePut env s R t req := by
  unfold handle
  simp [ha.1, ha.2, hm]

theorem lookup_set_same (s : Store) (R k : String) (c : GoMap Manifest) :
    Store.lookup (s.set R c) R k = c.get k := by
  simp [Store.lookup, GoMap.get_set_same]

theorem lookup_set_ne (s : Store) {R R' : String} (hne : R' ≠ R) (k : String)
    (c : GoMap Manifest) : Store.lookup (s.set R c) R' k = s.lookup R' k := by
  simp [Store.lookup, GoMap.get_set_ne s hne]

theorem lookup_created (s : Store) (R R' k : String) :
    Store.lookup (if (s.get R).isNone then s.set R GoMap.empty else s) R' k = s.lookup R' k := by
  by_cases hR : R' = R
  · subst hR
    cases h : s.get R' with
    | none => simp [Store.lookup, h, GoMap.get_set_same, GoMap.get_empty]
    | some c => simp [h]
  · simp only [Store.lookup, get_created_ne s hR]

/-- The lookups after the two assignments of a successful `PUT`. -/
theorem lookup_putStore (s : Store) (R t d : String) (mf : Manifest) (R' k : String) :
    Store.lookup (putStore s R t d mf).1 R' k =
      if R' = R ∧ (k = t ∨ k = d) then some mf else s.lookup R' k := by
  unfold putStore
  by_cases hR : R' = R
  · subst hR
    simp only [lookup_set_same, true_and]
    by_cases hd : k = d
    · subst hd; simp [GoMap.get_set_same]
    · rw [GoMap.get_set_ne _ hd]
      by_cases ht : k = t
      · subst ht; simp [GoMap.get_set_same]
      · rw [GoMap.get_set_ne _ ht]
        simp only [ht, hd, or_self, if_false, Store.lookup]
        cases s.get R' <;> simp [GoMap.get_empty]
  · simp only [lookup_set_ne s hR, hR, false_and, if_false]

/-- What `PUT` leaves behind: the store with the repository created, or that
store after the two assignments. -/
theorem handlePut_state (env : Env) (s : Store) (R t : String) (req : Request) :
    (handlePut env s R t req).1 = (if (s.get R).isNone then s.set R GoMap.empty else s) ∨
    (handlePut env s R t req).1 =
      (putStore (if (s.get R).isNone then s.set R GoMap.empty else s) R t
        (env.sha256 req.body) ⟨req.contentType, req.body⟩).1 := by
  unfold handlePut
  simp only
  split
  · split
    · exact Or.inl rfl
    · split
      · exact Or.inl rfl
      · exact Or.inr rfl
  · exact Or.inr rfl

/-- The state after a manifest request: unchanged, or that of a `PUT`, or
that of a `DELETE` of a stored reference. -/
theorem handle_state (env : Env) (s : Store) (req : Request) :
    (handle env s req).1 = s ∨
    (∃ R t, req.method = "PUT" ∧ req.addresses R t ∧
      (handle env s req).1 = (handlePut env s R t req).1) ∨
    (∃ R t c m, req.method = "DELETE" ∧ req.addresses R t ∧ s.get R = some c ∧
      c.get t = some m ∧ (handle env s req).1 = s.set R (c.delete t)) := by
  unfold handle
  simp only
  split
  · rename_i target repo htarget hrepo
    by_cases hget : req.method = "GET"
    · left
      simp only [hget, if_true]
      cases s.get repo with
      | none => rfl
      | some c => dsimp only; cases c.get target <;> rfl
    by_cases hhead : req.method = "HEAD"
    · left
      simp only [hget, hhead, if_true, if_false]
      cases s.get repo with
      | none => rfl
      | some c => dsimp only; cases c.get target <;> rfl
    by_cases hput : req.method = "PUT"
    · right; left
      simp only [hget, hhead, hput, if_true, if_false]
      exact ⟨repo, target, trivial, ⟨htarget, hrepo⟩, rfl⟩
    by_cases hdel : req.method = "DELETE"
    · simp only [hget, hhead, hput, hdel, if_true, if_false]
      cases hc : s.get repo with
      | none => left; rfl
      | some c =>
        dsimp only
        cases hk : c.get target with
        | none => left; rfl
        | some m0 =>
          right; right
          exact ⟨repo, target, c, m0, trivial, ⟨htarget, hrepo⟩, hc, hk, rfl⟩
    · left
      simp only [hget, hhead, hput, hdel, if_false]
  · left; rfl

/-- One manifest request keeps the digest-key invariant, unless it is a `PUT`
under a digest that is not the digest of its body. -/
theorem handle_keeps_digestKeys (env : Env) (s : Store) (req : Request)
    (hs : DigestKeysOK env s)
    (hreq : req.method = "PUT" → req.referenceMatchesBody env = true) :
    DigestKeysOK env (handle env s req).1 := by
  rcases handle_state env s req with h | ⟨repo, target, hput, ha, h⟩ | ⟨repo, target, c, m0, _, _, hc, _, h⟩
  · rw [h]; exact hs
  · rw [h]
    have hm := hreq hput
    simp only [Request.referenceMatchesBody, ha.1, Bool.or_eq_true, Option.isNone_iff_eq_none,
      decide_eq_true_eq] at hm
    have hcreated :
        DigestKeysOK env (if (s.get repo).isNone then s.set repo GoMap.empty else s) := by
      intro R k m hl
      rw [lookup_created] at hl
      exact hs R k m hl
    rcases handlePut_state env s repo target req with h | h
    · rw [h]; exact hcreated
    · rw [h]
      intro R k m hl hk
      rw [lookup_putStore] at hl
      split at hl
      · rename_i hc
        simp only [Option.some.injEq] at hl
        subst hl
        rcases hc.2 with h1 | h1
        · rcases hm with h2 | h2
          · exact absurd (h1 ▸ h2) hk
          · rw [h1, h2]
        · exact h1.symm
      · exact hcreated R k m hl hk
  · rw [h]
    intro R k m hl hv
    by_cases hR : R = repo
    · subst hR
      rw [lookup_set_same] at hl
      by_cases hkt : k = target
      · subst hkt; rw [GoMap.get_delete_same] at hl; cases hl
      · rw [GoMap.get_delete_ne _ hkt] at hl
        exact hs R k m (by simp [Store.lookup, hc, hl]) hv
    · rw [lookup_set_ne s hR] at hl
      exact hs R k m hl hv

theorem handle_delete {env : Env} {s : Store} {req : Request} {R t : String}
    (hm : req.method = "DELETE") (ha : req.addresses R t) :
    handle env s req =
      match s.get R with
      | none => (s, .err errNameUnknown)
      | some c =>
        match c.get t with
        | none => (s, .err errManifestUnknown)
        | some _ => (s.set R (c.delete t), .ok ⟨202, [], .empty⟩) := by
  unfold handle
  simp [ha.1, ha.2, hm]

/-- The sub-manifest loop passes exactly when every listed descriptor that is
distributable and an index or image is a key of the repository. -/
theorem checkSubManifests_eq_none_iff (env : Env) (c : GoMap Manifest)
    (descs : List Descriptor) :
    checkSubManifests env c descs = none ↔
      ∀ d ∈ descs, env.isDistributable d.mediaType = true →
        (env.isIndex d.mediaType = true ∨ env.isImage d.mediaType = true) →
        c.get d.digest ≠ none := by
  induction descs with
  | nil => simp [checkSubManifests]
  | cons d rest ih =>
    simp only [checkSubManifests, List.mem_cons, forall_eq_or_imp]
    cases hd : env.isDistributable d.mediaType
    · simp [ih]
    · cases hi : (env.isIndex d.mediaType || env.isImage d.mediaType)
      · have hi2 := hi
        simp only [Bool.or_eq_false_iff] at hi2
        simp [hi2.1, hi2.2, ih]
      · have hi2 := hi
        simp only [Bool.or_eq_true] at hi2
        cases hg : c.get d.digest with
        | none => simp [hi2]
        | some m => simp [hi2, ih]

/-- The error of the sub-manifest loop is 404 `MANIFEST_UNKNOWN`. -/
theorem checkSubManifests_some (env : Env) (c : GoMap Manifest) (descs : List Descriptor)
    (e : RegError) (h : checkSubManifests env c descs = some e) :
    ∃ msg, e = ⟨404, "MANIFEST_UNKNOWN", msg⟩ := by
  induction descs with
  | nil => simp [checkSubManifests] at h
  | cons d rest ih =>
    simp only [checkSubManifests] at h
    split at h
    · exact ih h
    · split at h
      · split at h
        · exact ih h
        · simp only [Option.some.injEq] at h
          exact ⟨_, h.symm⟩
      · exact ih h

/-- The repository map that `PUT` checks sub-manifests against holds the keys
of the repository before the request. -/
theorem get_created_getD (s : Store) (R k : String) :
    (((if (s.get R).isNone then s.set R GoMap.empty else s).get R).getD GoMap.empty).get k =
      s.lookup R k := by
  rw [get_created]
  cases h : s.get R <;> simp [Store.lookup, h, GoMap.get_empty]

/-! ## Lemmas on the order of strings and on sorting -/

theorem strLe_total (a b : String) : strLe a b ∨ strLe b a := by
  unfold strLe strLt
  rcases lt_trichotomy a.data b.data with h | h | h
  · exact Or.inl (lt_asymm h)
  · exact Or.inl (h ▸ lt_irrefl _)
  · exact Or.inr (lt_asymm h)

theorem strLe_trans {a b c : String} (h1 : strLe a b) (h2 : strLe b c) : strLe a c := by
  unfold strLe strLt at *
  exact not_lt.2 (le_trans (not_lt.1 h1) (not_lt.1 h2))

theorem strLt_of_strLe_of_ne {a b : String} (h : strLe a b) (hne : a ≠ b) : strLt a b := by
  unfold strLe strLt at *
  rcases lt_trichotomy a.data b.data with h1 | h1 | h1
  · exact h1
  · exact absurd (String.ext h1) hne
  · exact absurd h1 h

theorem strLt_irrefl (a : String) : ¬ strLt a a := lt_irrefl a.data

theorem strLt_trans {a b c : String} (h1 : strLt a b) (h2 : strLt b c) : strLt a c :=
  lt_trans (α := List Char) h1 h2

/-- The sorted slice is ascending. -/
theorem sortStrings_sorted (l : List String) : (sortStrings l).Sorted strLe := by
  haveI : IsTotal String strLe := ⟨strLe_total⟩
  haveI : IsTrans String strLe := ⟨fun _ _ _ => strLe_trans⟩
  exact List.sorted_insertionSort strLe l

theorem mem_sortStrings (l : List String) (x : String) : x ∈ sortStrings l ↔ x ∈ l :=
  List.mem_insertionSort strLe

/-- Sorting a slice without duplicates gives a strictly ascending slice. -/
theorem sortStrings_strict (l : List String) (h : l.Nodup) :
    (sortStrings l).Sorted strLt ∧ (sortStrings l).Nodup := by
  have hn : (sortStrings l).Nodup := (List.perm_insertionSort strLe l).nodup_iff.2 h
  refine ⟨?_, hn⟩
  have hs := sortStrings_sorted l
  unfold List.Sorted at *
  unfold List.Nodup at hn
  exact (hs.and hn).imp (fun hab => strLt_of_strLe_of_ne hab.1 hab.2)

/-- The tag listing without `last` and `n` on an existing repository. -/
theorem handleTags_plain {env : Env} {s : Store} {req : Request} {R : String}
    {c : GoMap Manifest} (hm : req.method = "GET")
    (hr : repoOf (pathElems req.path) = some R) (hR : s.get R = some c)
    (hlast : req.queryGet "last" = "") (hn : req.queryGet "n" = "") :
    handleTags env s req =
      (s, .ok ⟨200,
        [("Content-Length", toString (env.jsonLen (.tags R
          (sortStrings (c.keys.filter (fun tag => !stringsContains tag "sha256:"))))))],
        .tags R (sortStrings (c.keys.filter (fun tag => !stringsContains tag "sha256:")))⟩) := by
  unfold handleTags
  simp [hr, hm, hR, hlast, hn]

/-- The cursor loop on an ascending slice: the tags greater than `last` when
there is one, and otherwise the whole slice as it was. -/
theorem seekLast_sorted (last : String) (all : List String) (l : List String)
    (hs : l.Sorted strLe) :
    seekLast last all l =
      if ∃ t ∈ l, strLt last t then l.filter (fun t => decide (strLt last t)) else all := by
  induction l with
  | nil => simp [seekLast]
  | cons t rest ih =>
    have hrest : rest.Sorted strLe := (List.sorted_cons.1 hs).2
    have hle : ∀ x ∈ rest, strLe t x := (List.sorted_cons.1 hs).1
    by_cases ht : strLt last t
    · have hall : ∀ x ∈ rest, strLt last x := by
        intro x hx
        have h1 := hle x hx
        unfold strLe strLt at *
        exact lt_of_lt_of_le ht (not_lt.1 h1)
      have hfilter : rest.filter (fun t => decide (strLt last t)) = rest :=
        List.filter_eq_self.2 (fun x hx => by simpa using hall x hx)
      have hex : ∃ x ∈ t :: rest, strLt last x := ⟨t, List.mem_cons_self _ _, ht⟩
      simp only [seekLast, ht, if_true, hex, List.filter_cons, decide_True, hfilter]
    · have hex : (∃ x ∈ t :: rest, strLt last x) ↔ ∃ x ∈ rest, strLt last x := by
        constructor
        · rintro ⟨x, hx, hlt⟩
          rcases List.mem_cons.1 hx with h | h
          · exact absurd (h ▸ hlt) ht
          · exact ⟨x, h, hlt⟩
        · rintro ⟨x, hx, hlt⟩
          exact ⟨x, List.mem_cons_of_mem _ hx, hlt⟩
      simp only [seekLast, ht, if_false, ih hrest, hex, List.filter_cons, decide_False]
      rfl

/-- The slice at the count under a cursor: the sorted tags greater than `last`
when there is one, and all sorted tags when there is none. -/
theorem tagsAtCount_cursor (c : GoMap Manifest) (last : String) (hl : last ≠ "") :
    tagsAtCount c last =
      if ∃ t ∈ sortStrings (c.keys.filter (fun tag => !stringsContains tag "sha256:")),
          strLt last t then
        (sortStrings (c.keys.filter (fun tag => !stringsContains tag "sha256:"))).filter
          (fun t => decide (strLt last t))
      else sortStrings (c.keys.filter (fun tag => !stringsContains tag "sha256:")) := by
  unfold tagsAtCount
  rw [if_pos hl]
  exact seekLast_sorted last _ _ (sortStrings_sorted _)

/-- The tag listing on an existing repository, from the slice at the count. -/
theorem handleTags_eq {env : Env} {s : Store} {req : Request} {R : String}
    {c : GoMap Manifest} (hm : req.method = "GET")
    (hr : repoOf (pathElems req.path) = some R) (hR : s.get R = some c) :
    handleTags env s req =
      if req.queryGet "n" ≠ "" then
        match atoi (req.queryGet "n") with
        | .error e =>
          (s, .err ⟨400, "BAD_REQUEST", "parsing n: strconv.Atoi: parsing " ++
            env.quote (req.queryGet "n") ++ ": " ++ e.text⟩)
        | .ok n =>
          if n < ((tagsAtCount c (req.queryGet "last")).length : Int) then
            if n < 0 then (s, .panic)
            else (s, .ok ⟨200, [("Content-Length", toString (env.jsonLen
              (.tags R ((tagsAtCount c (req.queryGet "last")).take n.toNat))))],
              .tags R ((tagsAtCount c (req.queryGet "last")).take n.toNat)⟩)
          else (s, .ok ⟨200, [("Content-Length", toString (env.jsonLen
              (.tags R (tagsAtCount c (req.queryGet "last")))))],
              .tags R (tagsAtCount c (req.queryGet "last"))⟩)
      else (s, .ok ⟨200, [("Content-Length", toString (env.jsonLen
              (.tags R (tagsAtCount c (req.queryGet "last")))))],
              .tags R (tagsAtCount c (req.queryGet "last"))⟩) := by
  unfold handleTags tagsAtCount
  simp only [hr, hm, hR, if_true]

/-- The tag listing on an existing repository, by the count `n`: without a
count every tag at the cursor, with a count that does not parse
`BAD_REQUEST`, with a negative count a panic, and with a count `n ≥ 0` the
first `n` tags at the cursor. -/
theorem handleTags_by_count {env : Env} {s : Store} {req : Request} {R : String}
    {c : GoMap Manifest} (hm : req.method = "GET")
    (hr : repoOf (pathElems req.path) = some R) (hR : s.get R = some c) :
    (req.queryGet "n" = "" →
      handleTags env s req =
        (s, .ok ⟨200, [("Content-Length", toString (env.jsonLen
          (.tags R (tagsAtCount c (req.queryGet "last")))))],
          .tags R (tagsAtCount c (req.queryGet "last"))⟩)) ∧
    (∀ e, req.queryGet "n" ≠ "" → atoi (req.queryGet "n") = .error e →
      handleTags env s req =
        (s, .err ⟨400, "BAD_REQUEST", "parsing n: strconv.Atoi: parsing " ++
          env.quote (req.queryGet "n") ++ ": " ++ e.text⟩)) ∧
    (∀ n : Int, req.queryGet "n" ≠ "" → atoi (req.queryGet "n") = .ok n → n < 0 →
      handleTags env s req = (s, .panic)) ∧
    (∀ n : Int, req.queryGet "n" ≠ "" → atoi (req.queryGet "n") = .ok n → 0 ≤ n →
      handleTags env s req =
        (s, .ok ⟨200, [("Content-Length", toString (env.jsonLen
          (.tags R ((tagsAtCount c (req.queryGet "last")).take n.toNat))))],
          .tags R ((tagsAtCount c (req.queryGet "last")).take n.toNat)⟩)) := by
  rw [handleTags_eq hm hr hR]
  generalize tagsAtCount c (req.queryGet "last") = tags
  refine ⟨?_, ?_, ?_, ?_⟩
  · intro hn
    simp only [hn, ne_eq, not_true_eq_false, if_false]
  · intro e hns he
    simp only [hns, ne_eq, not_false_eq_true, if_true, he]
  · intro n hns hn hneg
    have hlen : n < (tags.length : Int) := lt_of_lt_of_le hneg (Int.ofNat_nonneg _)
    simp only [hns, ne_eq, not_false_eq_true, if_true, hn, hlen, hneg]
  · intro n hns hn hpos
    have hnot : ¬ n < 0 := not_lt.2 hpos
    by_cases hlen : n < (tags.length : Int)
    · simp only [hns, ne_eq, not_false_eq_true, if_true, hn, hlen, hnot, if_false]
    · have htake : tags.take n.toNat = tags := by
        apply List.take_of_length_le
        have := not_lt.1 hlen
        omega
      simp only [hns, ne_eq, not_false_eq_true, if_true, hn, hlen, if_false, htake]

/-! ## The concrete environment is lawful -/

theorem Ref.isHex_hexDigit (n : Nat) : Ref.isHex (Ref.hexDigit (n % 16)) = true := by
  have h : n % 16 < 16 := Nat.mod_lt _ (by decide)
  generalize n % 16 = m at h
  interval_cases m <;> decide

theorem Ref.hexWord_length (w : Nat) : (Ref.hexWord w).length = 8 := by
  simp [Ref.hexWord]

theorem Ref.hexWord_all (w : Nat) : (Ref.hexWord w).all Ref.isHex = true := by
  simp only [Ref.hexWord, List.map_cons, List.map_nil, List.all_cons, List.all_nil,
    Ref.isHex_hexDigit, Bool.and_self]

theorem Ref.sha256Hex_length (m : List Nat) : (Ref.sha256Hex m).length = 64 := by
  unfold Ref.sha256Hex
  simp only [List.length_append, Ref.hexWord_length]

theorem Ref.sha256Hex_all (m : List Nat) : (Ref.sha256Hex m).all Ref.isHex = true := by
  unfold Ref.sha256Hex
  simp only [List.all_append, Ref.hexWord_all, Bool.and_self]



theorem Ref.sha256_data (b : Bytes) :
    (Ref.sha256 b).data = "sha256:".data ++ Ref.sha256Hex (b.map UInt8.toNat) := rfl

theorem Ref.newHash_of (s : String) (h1 : s.data.take 7 = "sha256:".data)
    (h2 : (s.data.drop 7).length = 64) (h3 : (s.data.drop 7).all Ref.isHex = true) :
    Ref.newHash s = some s := by
  unfold Ref.newHash
  rw [if_pos ⟨h1, h2, h3⟩]

/-- The digest of any content is a valid digest and parses to itself. -/
theorem Ref.newHash_sha256 (b : Bytes) : Ref.newHash (Ref.sha256 b) = some (Ref.sha256 b) := by
  have h0 : List.drop 7 "sha256:".data = [] := rfl
  have h7 : ("sha256:".data ++ Ref.sha256Hex (b.map UInt8.toNat)).take 7 = "sha256:".data := by
    rw [List.take_append_of_le_length (by decide)]
    rfl
  have hd : ("sha256:".data ++ Ref.sha256Hex (b.map UInt8.toNat)).drop 7 =
      Ref.sha256Hex (b.map UInt8.toNat) := by
    rw [List.drop_append_of_le_length (by decide), h0, List.nil_append]
  apply Ref.newHash_of
  · rw [Ref.sha256_data, h7]
  · rw [Ref.sha256_data, hd, Ref.sha256Hex_length]
  · rw [Ref.sha256_data, hd, Ref.sha256Hex_all]

theorem refEnv_newHash : refEnv.newHash = Ref.newHash := rfl

theorem refEnv_sha256 : refEnv.sha256 = Ref.sha256 := rfl

/-- The concrete environment meets what the handlers rely on. -/
theorem refEnv_lawful : refEnv.Lawful := by
  constructor
  · intro s h hs
    rw [refEnv_newHash] at hs
    unfold Ref.newHash at hs
    split at hs
    · exact (Option.some.inj hs).symm
    · cases hs
  · intro b
    rw [refEnv_newHash, refEnv_sha256]
    exact Ref.newHash_sha256 b

/-- A valid digest of the concrete environment contains the text `sha256:`. -/
theorem refEnv_digest_contains (k : String) (h : refEnv.newHash k ≠ none) :
    stringsContains k "sha256:" = true := by
  rw [refEnv_newHash] at h
  unfold Ref.newHash at h
  split at h
  · rename_i hc
    unfold stringsContains
    rw [List.any_eq_true]
    refine ⟨k.data, by simp, ?_⟩
    rw [List.isPrefixOf_iff_prefix, ← hc.1]
    exact List.take_prefix 7 k.data
  · exact absurd rfl h

/-! ## Lemmas on the referrers query -/

/-- The referrers query for a valid digest on an existing repository. -/
theorem handleReferrers_ok {env : Env} {s : Store} {req : Request} {R D : String}
    {c : GoMap Manifest} (hm : req.method = "GET") (ha : req.addresses R D)
    (hD : env.newHash D ≠ none) (hR : s.get R = some c) :
    handleReferrers env s req =
      (s, .ok ⟨200,
        [("Content-Length", toString (env.jsonLen (.index 2 env.mediaTypeOCIImageIndex
          (c.entries.filterMap (referrerOf env D)))))],
        .index 2 env.mediaTypeOCIImageIndex (c.entries.filterMap (referrerOf env D))⟩) := by
  unfold handleReferrers
  cases hh : env.newHash D with
  | none => exact absurd hh hD
  | some h => simp [hm, ha.1, ha.2, hh, hR]

/-- The descriptor that the loop of the referrers query appends for an
entry. -/
theorem referrerOf_eq_some_iff (env : Env) (D : String) (e : String × Manifest)
    (d : Descriptor) :
    referrerOf env D e = some d ↔
      ∃ h subject, env.newHash e.1 = some h ∧ env.unmarshalSubject e.2.blob = some subject ∧
        subject.digest = D ∧
        d = ⟨e.2.contentType, h, (e.2.blob.length : Int),
          env.unmarshalConfigMediaType e.2.blob⟩ := by
  unfold referrerOf
  cases hh : env.newHash e.1 with
  | none => simp
  | some h =>
    cases hsub : env.unmarshalSubject e.2.blob with
    | none => simp
    | some subject =>
      by_cases hd : subject.digest = D
      · simp [hd, eq_comm]
      · simp [hd]

/-! ## Dual addressing -/

/-- C1 (dual addressing).  If the manifest `PUT` of body `C` with content type
`T` to `R/t` succeeds, then in the resulting state the `GET` of `R/t` and the
`GET` of `R/digest(C)` both answer 200 with body `C`, `Content-Type` `T`,
`Content-Length` `len(C)` and `Docker-Content-Digest` `digest(C)`, whatever the
state before held, and leave the state as it is. -/
theorem put_then_get_by_reference_and_digest (env : Env) (s s' : Store)
    (put getRef getDigest : Request) (R t : String) (r : Response)
    (hput : put.method = "PUT") (haddr : put.addresses R t)
    (hok : handle env s put = (s', .ok r))
    (hg1 : getRef.method = "GET") (ha1 : getRef.addresses R t)
    (hg2 : getDigest.method = "GET") (ha2 : getDigest.addresses R (env.sha256 put.body)) :
    handle env s' getRef =
      (s', .ok ⟨200, [("Docker-Content-Digest", env.sha256 put.body),
                      ("Content-Type", put.contentType),
                      ("Content-Length", toString put.body.length)], .raw put.body⟩) ∧
    handle env s' getDigest =
      (s', .ok ⟨200, [("Docker-Content-Digest", env.sha256 put.body),
                      ("Content-Type", put.contentType),
                      ("Content-Length", toString put.body.length)], .raw put.body⟩) := by
  rw [handle_put hput haddr] at hok
  obtain ⟨_, h1, h2⟩ := handlePut_ok_lookup hok
  rw [handle_get hg1 ha1, handle_get hg2 ha2, h1, h2]
  exact ⟨rfl, rfl⟩

theorem put_then_get_by_reference_and_digest_witness :
    handle refEnv Ex.afterPutAbc Ex.getV1 =
      (Ex.afterPutAbc, .ok ⟨200, [("Docker-Content-Digest", refEnv.sha256 Ex.putAbc.body),
                      ("Content-Type", Ex.putAbc.contentType),
                      ("Content-Length", toString Ex.putAbc.body.length)],
                      .raw Ex.putAbc.body⟩) ∧
    handle refEnv Ex.afterPutAbc Ex.getAbcByDigest =
      (Ex.afterPutAbc, .ok ⟨200, [("Docker-Content-Digest", refEnv.sha256 Ex.putAbc.body),
                      ("Content-Type", Ex.putAbc.contentType),
                      ("Content-Length", toString Ex.putAbc.body.length)],
                      .raw Ex.putAbc.body⟩) :=
  put_then_get_by_reference_and_digest refEnv GoMap.empty Ex.afterPutAbc Ex.putAbc Ex.getV1
    Ex.getAbcByDigest "foo/bar" "v1"
    ⟨201, [("Docker-Content-Digest",
      "sha256:ba7816bf8f01cfea414140de5dae2223b00361a396177a9cb410ff61f20015ad")], .empty⟩
    (by decide!) (by decide!) (by decide!) (by decide!) (by decide!) (by decide!) (by decide!)

/-! ## Digest keys -/

/-- C2 (counterexample).  On the empty registry the request
`PUT /v2/r/manifests/sha256:aa…a` with body `abc` is answered 201 and stores
`abc` under the key `sha256:aa…a`, a valid digest that is not the digest of
`abc`: the reached state breaks the digest-key invariant. -/
theorem mismatched_digest_reference_is_stored :
    ¬ DigestKeysOK refEnv (run refEnv GoMap.empty [Ex.putMismatch]) ∧
    (handle refEnv GoMap.empty Ex.putMismatch).2 =
      .ok ⟨201, [("Docker-Content-Digest", refEnv.sha256 (Ref.ascii "abc"))], .empty⟩ ∧
    Store.lookup (handle refEnv GoMap.empty Ex.putMismatch).1 "r" Ex.digestA =
      some ⟨"text/plain", Ref.ascii "abc"⟩ ∧
    refEnv.newHash Ex.digestA = some Ex.digestA ∧
    refEnv.sha256 (Ref.ascii "abc") ≠ Ex.digestA := by
  refine ⟨?_, by decide!, by decide!, by decide!, by decide!⟩
  intro h
  have h2 := h "r" Ex.digestA ⟨"text/plain", Ref.ascii "abc"⟩ (by decide!) (by decide!)
  revert h2
  decide!

/-- C2 (amended).  In every state reached from the empty registry by manifest
requests in which each `PUT` under a syntactically valid digest carries a body
of exactly that digest, every key that is a syntactically valid digest holds
content whose digest is that key.  The handler itself never compares the
reference with the digest of the body: a `PUT` with a content type that is no
index is answered 201 whatever its reference and stores the body under it. -/
theorem digest_keys_ok_when_references_match (env : Env) (reqs : List Request)
    (hreqs : ∀ req ∈ reqs, req.method = "PUT" → req.referenceMatchesBody env = true) :
    DigestKeysOK env (run env GoMap.empty reqs) ∧
    (∀ (s : Store) (put : Request) (R t : String),
      put.method = "PUT" → put.addresses R t → env.isIndex put.contentType = false →
      ∃ s', handle env s put =
          (s', .ok ⟨201, [("Docker-Content-Digest", env.sha256 put.body)], .empty⟩) ∧
        s'.lookup R t = some ⟨put.contentType, put.body⟩) := by
  constructor
  · have key : ∀ (l : List Request) (s : Store), DigestKeysOK env s →
        (∀ req ∈ l, req.method = "PUT" → req.referenceMatchesBody env = true) →
        DigestKeysOK env (run env s l) := by
      intro l
      induction l with
      | nil => intro s hs _; exact hs
      | cons req rest ih =>
        intro s hs hl
        exact ih _ (handle_keeps_digestKeys env s req hs (hl req (List.mem_cons_self _ _)))
          (fun r hr => hl r (List.mem_cons_of_mem _ hr))
    refine key reqs GoMap.empty ?_ hreqs
    intro R k m hl
    simp [Store.lookup, GoMap.get_empty] at hl
  · intro s put R t hput ha hidx
    have hp : handlePut env s R t put =
        putStore (if (s.get R).isNone then s.set R GoMap.empty else s) R t
          (env.sha256 put.body) ⟨put.contentType, put.body⟩ := by
      unfold handlePut
      simp [hidx]
    rw [handle_put hput ha]
    refine ⟨(handlePut env s R t put).1, ?_, ?_⟩
    · rw [hp]; rfl
    · rw [hp, lookup_putStore]
      simp

theorem digest_keys_ok_when_references_match_witness :
    DigestKeysOK refEnv (run refEnv GoMap.empty [Ex.putAbc, Ex.putAbcByDigest, Ex.deleteV1]) ∧
    (∀ (s : Store) (put : Request) (R t : String),
      put.method = "PUT" → put.addresses R t → refEnv.isIndex put.contentType = false →
      ∃ s', handle refEnv s put =
          (s', .ok ⟨201, [("Docker-Content-Digest", refEnv.sha256 put.body)], .empty⟩) ∧
        s'.lookup R t = some ⟨put.contentType, put.body⟩) :=
  digest_keys_ok_when_references_match refEnv [Ex.putAbc, Ex.putAbcByDigest, Ex.deleteV1]
    (by decide!)

/-! ## Deleting a reference -/

/-- C3 (DELETE removes exactly one key).  When repository `R` holds an entry
under `k`, the `DELETE` of `R/k` is answered 202 and the new state is the old
one with the map of `R` replaced by that map without `k`: in `R` the key `k` is
gone and every other key holds what it held, the entries of `R` are the old
ones without the one under `k`, the repositories are the same, every other
repository is unchanged, and a following `GET` of `R/k` answers
`MANIFEST_UNKNOWN`. -/
theorem delete_removes_exactly_one_key (env : Env) (s : Store) (del get : Request)
    (R k : String) (c : GoMap Manifest) (m : Manifest)
    (hdel : del.method = "DELETE") (ha : del.addresses R k)
    (hR : s.get R = some c) (hk : c.get k = some m)
    (hget : get.method = "GET") (hga : get.addresses R k) :
    handle env s del = (s.set R (c.delete k), .ok ⟨202, [], .empty⟩) ∧
    Store.lookup (s.set R (c.delete k)) R k = none ∧
    (∀ k', k' ≠ k → Store.lookup (s.set R (c.delete k)) R k' = s.lookup R k') ∧
    (c.delete k).entries = c.entries.filter (fun e => decide (e.1 ≠ k)) ∧
    (s.set R (c.delete k)).keys = s.keys ∧
    (∀ R', R' ≠ R → (s.set R (c.delete k)).get R' = s.get R') ∧
    handle env (s.set R (c.delete k)) get =
      (s.set R (c.delete k), .err ⟨404, "MANIFEST_UNKNOWN", "Unknown manifest"⟩) := by
  refine ⟨?_, ?_, ?_, ?_, ?_, ?_, ?_⟩
  · rw [handle_delete hdel ha, hR]
    simp only [hk]
  · rw [lookup_set_same, GoMap.get_delete_same]
  · intro k' hne
    rw [lookup_set_same, GoMap.get_delete_ne _ hne]
    simp [Store.lookup, hR]
  · show GoMap.deleteEntries k c.entries = _
    generalize c.entries = l
    induction l with
    | nil => rfl
    | cons e rest ih =>
      obtain ⟨k0, v0⟩ := e
      by_cases h : k0 = k
      · simp [GoMap.deleteEntries, h, ih]
      · simp [GoMap.deleteEntries, h, ih]
  · have hmem : R ∈ s.entries.map Prod.fst :=
      (GoMap.mem_keys_iff s R).2 (by rw [hR]; rfl)
    show (GoMap.setEntries R (c.delete k) s.entries).map Prod.fst = s.entries.map Prod.fst
    generalize s.entries = l at hmem
    induction l with
    | nil => simp at hmem
    | cons e rest ih =>
      obtain ⟨k0, v0⟩ := e
      by_cases h : k0 = R
      · simp [GoMap.setEntries, h]
      · have h2 : R ∈ rest.map Prod.fst := by
          simp only [List.map_cons, List.mem_cons] at hmem
          rcases hmem with h3 | h3
          · exact absurd h3.symm h
          · exact h3
        simp [GoMap.setEntries, h, ih h2]
  · intro R' hne
    exact GoMap.get_set_ne s hne _
  · rw [handle_get hget hga, lookup_set_same, GoMap.get_delete_same]
    simp [GoMap.get_set_same, errManifestUnknown]

theorem delete_removes_exactly_one_key_witness :
    handle refEnv Ex.afterPutAbc Ex.deleteV1 =
      (Ex.afterPutAbc.set "foo/bar" (Ex.repoAbc.delete "v1"), .ok ⟨202, [], .empty⟩) ∧
    Store.lookup (Ex.afterPutAbc.set "foo/bar" (Ex.repoAbc.delete "v1")) "foo/bar" "v1" = none ∧
    (∀ k', k' ≠ "v1" →
      Store.lookup (Ex.afterPutAbc.set "foo/bar" (Ex.repoAbc.delete "v1")) "foo/bar" k' =
        Ex.afterPutAbc.lookup "foo/bar" k') ∧
    (Ex.repoAbc.delete "v1").entries =
      Ex.repoAbc.entries.filter (fun e => decide (e.1 ≠ "v1")) ∧
    (Ex.afterPutAbc.set "foo/bar" (Ex.repoAbc.delete "v1")).keys = Ex.afterPutAbc.keys ∧
    (∀ R', R' ≠ "foo/bar" →
      (Ex.afterPutAbc.set "foo/bar" (Ex.repoAbc.delete "v1")).get R' = Ex.afterPutAbc.get R') ∧
    handle refEnv (Ex.afterPutAbc.set "foo/bar" (Ex.repoAbc.delete "v1")) Ex.getV1 =
      (Ex.afterPutAbc.set "foo/bar" (Ex.repoAbc.delete "v1"),
        .err ⟨404, "MANIFEST_UNKNOWN", "Unknown manifest"⟩) :=
  delete_removes_exactly_one_key refEnv Ex.afterPutAbc Ex.deleteV1 Ex.getV1 "foo/bar" "v1"
    Ex.repoAbc ⟨"text/plain", Ref.ascii "abc"⟩
    (by decide!) (by decide!) (by decide!) (by decide!) (by decide!) (by decide!)

/-! ## Index validation -/

/-- C4 (index validation).  For a manifest `PUT` to `R` whose content type is
an index type and whose body parses as an index, the request is answered 404
`MANIFEST_UNKNOWN` exactly when some listed descriptor with a distributable
media type that is an index or image type has a digest that is no key of `R`
in the state before the request, and is answered 201 otherwise.  A `PUT` whose
content type is no index type is always answered 201.  After a successful
`PUT` of a body to `R` its digest is a key of `R`, so an index listing it is
then accepted. -/
theorem put_index_validation (env : Env) (s : Store) (put : Request) (R t : String)
    (hput : put.method = "PUT") (ha : put.addresses R t) :
    (∀ descs, env.isIndex put.contentType = true → env.unmarshalIndex put.body = .ok descs →
      ((∃ msg, (handle env s put).2 = .err ⟨404, "MANIFEST_UNKNOWN", msg⟩) ↔
        ∃ d ∈ descs, env.isDistributable d.mediaType = true ∧
          (env.isIndex d.mediaType = true ∨ env.isImage d.mediaType = true) ∧
          s.lookup R d.digest = none) ∧
      ((¬ ∃ d ∈ descs, env.isDistributable d.mediaType = true ∧
          (env.isIndex d.mediaType = true ∨ env.isImage d.mediaType = true) ∧
          s.lookup R d.digest = none) →
        (handle env s put).2 =
          .ok ⟨201, [("Docker-Content-Digest", env.sha256 put.body)], .empty⟩)) ∧
    (env.isIndex put.contentType = false →
      (handle env s put).2 =
        .ok ⟨201, [("Docker-Content-Digest", env.sha256 put.body)], .empty⟩) ∧
    (∀ s' r, handle env s put = (s', .ok r) → s'.lookup R (env.sha256 put.body) ≠ none) := by
  rw [handle_put hput ha]
  refine ⟨?_, ?_, ?_⟩
  · intro descs hidx hparse
    have hnone := checkSubManifests_eq_none_iff env
      (((if (s.get R).isNone then s.set R GoMap.empty else s).get R).getD GoMap.empty) descs
    simp only [get_created_getD] at hnone
    have hex : (¬ ∃ d ∈ descs, env.isDistributable d.mediaType = true ∧
          (env.isIndex d.mediaType = true ∨ env.isImage d.mediaType = true) ∧
          s.lookup R d.digest = none) ↔
        ∀ d ∈ descs, env.isDistributable d.mediaType = true →
          (env.isIndex d.mediaType = true ∨ env.isImage d.mediaType = true) →
          s.lookup R d.digest ≠ none := by
      constructor
      · intro h d hd h1 h2 h3
        exact h ⟨d, hd, h1, h2, h3⟩
      · rintro h ⟨d, hd, h1, h2, h3⟩
        exact h d hd h1 h2 h3
    cases hc : checkSubManifests env
        (((if (s.get R).isNone then s.set R GoMap.empty else s).get R).getD GoMap.empty) descs with
    | none =>
      have hall := hex.2 (hnone.1 hc)
      have hres : (handlePut env s R t put).2 =
          .ok ⟨201, [("Docker-Content-Digest", env.sha256 put.body)], .empty⟩ := by
        unfold handlePut
        simp only [hidx, if_true, hparse, hc]
        rfl
      refine ⟨⟨?_, fun h => absurd h hall⟩, fun _ => hres⟩
      rintro ⟨msg, hmsg⟩
      rw [hres] at hmsg
      cases hmsg
    | some e =>
      obtain ⟨msg, he⟩ := checkSubManifests_some env _ descs e hc
      have hres : (handlePut env s R t put).2 = .err ⟨404, "MANIFEST_UNKNOWN", msg⟩ := by
        unfold handlePut
        simp only [hidx, if_true, hparse, hc, he]
      have hnall : ∃ d ∈ descs, env.isDistributable d.mediaType = true ∧
          (env.isIndex d.mediaType = true ∨ env.isImage d.mediaType = true) ∧
          s.lookup R d.digest = none := by
        by_contra hcon
        have := hnone.2 (hex.1 hcon)
        rw [hc] at this
        cases this
      exact ⟨⟨fun _ => hnall, fun _ => ⟨msg, hres⟩⟩, fun h => absurd hnall h⟩
  · intro hidx
    unfold handlePut
    simp only [hidx]
    rfl
  · intro s' r hok
    rw [(handlePut_ok_lookup hok).2.2]
    simp

theorem put_index_validation_witness :
    (∀ descs, refEnv.isIndex Ex.putIndex.contentType = true →
      refEnv.unmarshalIndex Ex.putIndex.body = .ok descs →
      ((∃ msg, (handle refEnv Ex.afterPutPlain Ex.putIndex).2 =
          .err ⟨404, "MANIFEST_UNKNOWN", msg⟩) ↔
        ∃ d ∈ descs, refEnv.isDistributable d.mediaType = true ∧
          (refEnv.isIndex d.mediaType = true ∨ refEnv.isImage d.mediaType = true) ∧
          Ex.afterPutPlain.lookup "r" d.digest = none) ∧
      ((¬ ∃ d ∈ descs, refEnv.isDistributable d.mediaType = true ∧
          (refEnv.isIndex d.mediaType = true ∨ refEnv.isImage d.mediaType = true) ∧
          Ex.afterPutPlain.lookup "r" d.digest = none) →
        (handle refEnv Ex.afterPutPlain Ex.putIndex).2 =
          .ok ⟨201, [("Docker-Content-Digest", refEnv.sha256 Ex.putIndex.body)], .empty⟩)) ∧
    (refEnv.isIndex Ex.putIndex.contentType = false →
      (handle refEnv Ex.afterPutPlain Ex.putIndex).2 =
        .ok ⟨201, [("Docker-Content-Digest", refEnv.sha256 Ex.putIndex.body)], .empty⟩) ∧
    (∀ s' r, handle refEnv Ex.afterPutPlain Ex.putIndex = (s', .ok r) →
      s'.lookup "r" (refEnv.sha256 Ex.putIndex.body) ≠ none) :=
  put_index_validation refEnv Ex.afterPutPlain Ex.putIndex "r" "multi" (by decide!) (by decide!)

/-! ## Rejected writes -/

/-- What a rejected `PUT` leaves behind: the store as it was when the
repository existed, and otherwise the store with the repository created
empty. -/
theorem rejected_put_state (env : Env) (s s' : Store) (put : Request) (R t : String)
    (e : RegError) (hput : put.method = "PUT") (ha : put.addresses R t)
    (herr : handle env s put = (s', .err e)) :
    s' = (if (s.get R).isNone then s.set R GoMap.empty else s) ∧
    (∀ R' k, s'.lookup R' k = s.lookup R' k) ∧
    (s.get R ≠ none → s' = s) := by
  rw [handle_put hput ha] at herr
  have hs : s' = (if (s.get R).isNone then s.set R GoMap.empty else s) := by
    unfold handlePut at herr
    simp only at herr
    split at herr
    · split at herr
      · exact (congrArg Prod.fst herr).symm
      · split at herr
        · exact (congrArg Prod.fst herr).symm
        · simp [putStore] at herr
    · simp [putStore] at herr
  refine ⟨hs, ?_, ?_⟩
  · intro R' k
    rw [hs, lookup_created]
  · intro hne
    rw [hs]
    cases h : s.get R with
    | none => exact absurd h hne
    | some c => simp

/-- C5 (the code at the failing input).  On the empty registry the request
`PUT /v2/fresh/manifests/v1` with an index content type is rejected, with
`MANIFEST_INVALID` for the body `not json` and with `MANIFEST_UNKNOWN` for an
index that lists a missing sub-manifest, and either way the repository `fresh`
is left behind, created and empty: before the request `GET`, the tag listing
and the referrers query on it answer `NAME_UNKNOWN`, after it they answer
`MANIFEST_UNKNOWN`, 200 and 200. -/
theorem rejected_put_creates_repository :
    (handle refEnv GoMap.empty Ex.putBadIndex).1 = GoMap.empty.set "fresh" GoMap.empty ∧
    (handle refEnv GoMap.empty Ex.putBadIndex).2.errorCode = some (400, "MANIFEST_INVALID") ∧
    handle refEnv GoMap.empty Ex.putDanglingIndex =
      (GoMap.empty.set "fresh" GoMap.empty,
        .err ⟨404, "MANIFEST_UNKNOWN",
          "Sub-manifest \"sha256:21b3a3de24c0315ae30c2c464da0203709dd8965110fb50e28dce88b04eb803b\" not found"⟩) ∧
    (handle refEnv GoMap.empty Ex.getFresh).2 = .err ⟨404, "NAME_UNKNOWN", "Unknown name"⟩ ∧
    (handleTags refEnv GoMap.empty Ex.listFresh).2 = .err ⟨404, "NAME_UNKNOWN", "Unknown name"⟩ ∧
    (handleReferrers refEnv GoMap.empty Ex.referrersFresh).2 =
      .err ⟨404, "NAME_UNKNOWN", "Unknown name"⟩ ∧
    (handle refEnv (GoMap.empty.set "fresh" GoMap.empty) Ex.getFresh).2 =
      .err ⟨404, "MANIFEST_UNKNOWN", "Unknown manifest"⟩ ∧
    (handleTags refEnv (GoMap.empty.set "fresh" GoMap.empty) Ex.listFresh).2 =
      .ok ⟨200, [("Content-Length", toString (refEnv.jsonLen (.tags "fresh" [])))],
        .tags "fresh" []⟩ ∧
    (handleReferrers refEnv (GoMap.empty.set "fresh" GoMap.empty) Ex.referrersFresh).2 =
      .ok ⟨200, [("Content-Length", toString (refEnv.jsonLen
          (.index 2 "application/vnd.oci.image.index.v1+json" [])))],
        .index 2 "application/vnd.oci.image.index.v1+json" []⟩ := by
  refine ⟨by decide!, by decide!, by decide!, by decide!, by decide!, by decide!, by decide!,
    by decide!, by decide!⟩

/-! ## Tag listing -/

/-- C6 (the code at the failing input).  With the tags `a`, `b`, `c`, `d` in
repository `r`, the listing with `last=b` and `n=1` is `[c]`; but with
`last=z`, a cursor no tag is greater than, and `n=5` the listing is not empty:
it holds all four tags. -/
theorem tags_after_last_cursor_past_the_end :
    (handleTags refEnv Ex.fourTags (Ex.listReq "/v2/r/tags/list" "b" "1")).2 =
      .ok ⟨200, [("Content-Length", toString (refEnv.jsonLen (.tags "r" ["c"])))],
        .tags "r" ["c"]⟩ ∧
    (handleTags refEnv Ex.fourTags (Ex.listReq "/v2/r/tags/list" "z" "5")).2 =
      .ok ⟨200, [("Content-Length", toString (refEnv.jsonLen (.tags "r" ["a", "b", "c", "d"])))],
        .tags "r" ["a", "b", "c", "d"]⟩ := by
  refine ⟨by decide!, by decide!⟩

/-- C7 (counterexample).  After `PUT /v2/r/manifests/sha256:latest` the
repository `r` holds the key `sha256:latest`, which is no valid digest, and
the tag listing without `last` and `n` does not list it. -/
theorem key_with_digest_prefix_is_not_listed :
    Store.lookup Ex.afterPutOddTag "r" "sha256:latest" = some ⟨"text/plain", Ref.ascii "abc"⟩ ∧
    refEnv.newHash "sha256:latest" = none ∧
    (handleTags refEnv Ex.afterPutOddTag (Ex.listReq "/v2/r/tags/list" "" "")).2 =
      .ok ⟨200, [("Content-Length", toString (refEnv.jsonLen (.tags "r" [])))], .tags "r" []⟩ := by
  refine ⟨by decide!, by decide!, by decide!⟩

/-- C7 (amended).  For an existing repository the tag listing without `last`
and `n` is answered 200 with, in strictly ascending order and without
duplicates, exactly those keys of the repository that do not contain the text
`sha256:`.  So a key that contains it is omitted whether or not it is a valid
digest, and where every valid digest contains it every key that is a valid
digest is omitted. -/
theorem full_tag_list (env : Env) (s : Store) (req : Request) (R : String)
    (c : GoMap Manifest) (hm : req.method = "GET")
    (hr : repoOf (pathElems req.path) = some R) (hR : s.get R = some c)
    (hlast : req.queryGet "last" = "") (hn : req.queryGet "n" = "") :
    ∃ tags, handleTags env s req =
        (s, .ok ⟨200, [("Content-Length", toString (env.jsonLen (.tags R tags)))],
          .tags R tags⟩) ∧
      tags.Sorted strLt ∧ tags.Nodup ∧
      (∀ k, k ∈ tags ↔ (c.get k ≠ none ∧ stringsContains k "sha256:" = false)) ∧
      ((∀ k, env.newHash k ≠ none → stringsContains k "sha256:" = true) →
        ∀ k, env.newHash k ≠ none → k ∉ tags) := by
  refine ⟨_, handleTags_plain hm hr hR hlast hn, ?_⟩
  have hnodup : (c.keys.filter (fun tag => !stringsContains tag "sha256:")).Nodup :=
    List.Nodup.filter _ c.nodup
  have hmem : ∀ k, k ∈ sortStrings (c.keys.filter (fun tag => !stringsContains tag "sha256:")) ↔
      (c.get k ≠ none ∧ stringsContains k "sha256:" = false) := by
    intro k
    rw [mem_sortStrings, List.mem_filter, GoMap.mem_keys_iff]
    simp [Option.isSome_iff_ne_none]
  refine ⟨(sortStrings_strict _ hnodup).1, (sortStrings_strict _ hnodup).2, hmem, ?_⟩
  intro hdig k hk hin
  have := ((hmem k).1 hin).2
  rw [hdig k hk] at this
  cases this

theorem full_tag_list_witness :
    ∃ tags, handleTags refEnv Ex.fourTags (Ex.listReq "/v2/r/tags/list" "" "") =
        (Ex.fourTags, .ok ⟨200, [("Content-Length", toString (refEnv.jsonLen (.tags "r" tags)))],
          .tags "r" tags⟩) ∧
      tags.Sorted strLt ∧ tags.Nodup ∧
      (∀ k, k ∈ tags ↔ (Ex.repoFourTags.get k ≠ none ∧ stringsContains k "sha256:" = false)) ∧
      ((∀ k, refEnv.newHash k ≠ none → stringsContains k "sha256:" = true) →
        ∀ k, refEnv.newHash k ≠ none → k ∉ tags) :=
  full_tag_list refEnv Ex.fourTags (Ex.listReq "/v2/r/tags/list" "" "") "r" Ex.repoFourTags
    (by decide!) (by decide!) (by decide!) (by decide!) (by decide!)

/-- C8 (the code at the failing input).  With the tags `a`, `b`, `c`, `d` in
repository `r`, the listing with `n=-1` parses the count, takes the branch
`n < len(tags)` and panics in `tags[:n]`; with `n=x` it answers `BAD_REQUEST`
and with `n=0` it answers 200 with no tag. -/
theorem tags_negative_count_panics :
    handleTags refEnv Ex.fourTags (Ex.listReq "/v2/r/tags/list" "" "-1") =
      (Ex.fourTags, .panic) ∧
    atoi "-1" = .ok (-1) ∧
    (handleTags refEnv Ex.fourTags (Ex.listReq "/v2/r/tags/list" "" "x")).2 =
      .err ⟨400, "BAD_REQUEST", "parsing n: strconv.Atoi: parsing \"x\": invalid syntax"⟩ ∧
    (handleTags refEnv Ex.fourTags (Ex.listReq "/v2/r/tags/list" "" "0")).2 =
      .ok ⟨200, [("Content-Length", toString (refEnv.jsonLen (.tags "r" [])))], .tags "r" []⟩ := by
  refine ⟨by decide!, by rfl, by decide!, by decide!⟩

/-! ## Referrers -/

/-- C9 (counterexample).  The manifest `referrerManifest`, whose subject is the
valid digest `digestA`, is put to `r` and listed by the referrers query for
`digestA`.  Then a `PUT` whose reference is the digest of `referrerManifest`
and whose body is another manifest is answered 201.  Nothing was deleted, the
key `digest(referrerManifest)` is still in `r`, and the referrers query for
`digestA` now returns an empty index. -/
theorem referrer_overwritten_under_its_digest :
    (handle refEnv GoMap.empty Ex.putReferrer).2 =
      .ok ⟨201, [("Docker-Content-Digest", refEnv.sha256 Ex.putReferrer.body)], .empty⟩ ∧
    (refEnv.unmarshalSubject Ex.putReferrer.body).map Descriptor.digest = some Ex.digestA ∧
    refEnv.newHash Ex.digestA = some Ex.digestA ∧
    (handleReferrers refEnv Ex.afterPutReferrer Ex.referrersOfA).2 =
      .ok ⟨200, [("Content-Length", toString (refEnv.jsonLen
          (.index 2 "application/vnd.oci.image.index.v1+json"
            [⟨Ex.ociManifest, refEnv.sha256 Ex.putReferrer.body, Ex.putReferrer.body.length,
              "application/example"⟩])))],
        .index 2 "application/vnd.oci.image.index.v1+json"
          [⟨Ex.ociManifest, refEnv.sha256 Ex.putReferrer.body, Ex.putReferrer.body.length,
            "application/example"⟩]⟩ ∧
    (handle refEnv Ex.afterPutReferrer Ex.putOverReferrer).2 =
      .ok ⟨201, [("Docker-Content-Digest", refEnv.sha256 Ex.putOverReferrer.body)], .empty⟩ ∧
    Store.lookup Ex.afterPutOverReferrer "r" (refEnv.sha256 Ex.putReferrer.body) =
      some ⟨Ex.ociManifest, Ex.putOverReferrer.body⟩ ∧
    (handleReferrers refEnv Ex.afterPutOverReferrer Ex.referrersOfA).2 =
      .ok ⟨200, [("Content-Length", toString (refEnv.jsonLen
          (.index 2 "application/vnd.oci.image.index.v1+json" [])))],
        .index 2 "application/vnd.oci.image.index.v1+json" []⟩ := by
  refine ⟨by decide!, by decide!, by decide!, by decide!, by decide!, by decide!, by decide!⟩

/-- C9 (amended).  For a repository `R`, a valid digest `D` and a manifest
body `M` whose subject has digest `D`: in every state in which the entry of
`R` under `digest(M)` holds `M` with content type `T`, the referrers query for
`D` on `R` is answered 200 and its index contains a descriptor with digest
`digest(M)`, size `len(M)` and media type `T`.  A successful `PUT` of `M` with
content type `T` to `R` leads to such a state.  (Having been put and not
deleted is not enough: a later `PUT` under the reference `digest(M)` replaces
the entry.) -/
theorem referrers_complete (env : Env) (hl : env.Lawful) (s : Store) (q : Request)
    (R D : String) (M : Bytes) (T : String) (subject : Descriptor)
    (hq : q.method = "GET") (ha : q.addresses R D) (hD : env.newHash D ≠ none)
    (hsub : env.unmarshalSubject M = some subject) (hsd : subject.digest = D)
    (hstored : s.lookup R (env.sha256 M) = some ⟨T, M⟩) :
    (∃ ds, handleReferrers env s q =
        (s, .ok ⟨200, [("Content-Length",
            toString (env.jsonLen (.index 2 env.mediaTypeOCIImageIndex ds)))],
          .index 2 env.mediaTypeOCIImageIndex ds⟩) ∧
      ∃ d ∈ ds, d.digest = env.sha256 M ∧ d.size = (M.length : Int) ∧ d.mediaType = T) ∧
    (∀ (s0 s1 : Store) (put : Request) (t : String) (r : Response),
      put.method = "PUT" → put.addresses R t → handle env s0 put = (s1, .ok r) →
      s1.lookup R (env.sha256 put.body) = some ⟨put.contentType, put.body⟩) := by
  constructor
  · cases hR : s.get R with
    | none => simp [Store.lookup, hR] at hstored
    | some c =>
      have hc : c.get (env.sha256 M) = some ⟨T, M⟩ := by
        simpa [Store.lookup, hR] using hstored
      refine ⟨_, handleReferrers_ok hq ha hD hR, ?_⟩
      refine ⟨⟨T, env.sha256 M, (M.length : Int), env.unmarshalConfigMediaType M⟩, ?_, rfl, rfl, rfl⟩
      rw [List.mem_filterMap]
      refine ⟨(env.sha256 M, ⟨T, M⟩), (GoMap.mem_entries_iff c _ _).2 hc, ?_⟩
      rw [referrerOf_eq_some_iff]
      exact ⟨env.sha256 M, subject, hl.newHash_sha256 M, hsub, hsd, rfl⟩
  · intro s0 s1 put t r hput hpa hok
    rw [handle_put hput hpa] at hok
    exact (handlePut_ok_lookup hok).2.2

theorem referrers_complete_witness :
    (∃ ds, handleReferrers refEnv Ex.afterPutReferrer Ex.referrersOfA =
        (Ex.afterPutReferrer, .ok ⟨200, [("Content-Length",
            toString (refEnv.jsonLen (.index 2 refEnv.mediaTypeOCIImageIndex ds)))],
          .index 2 refEnv.mediaTypeOCIImageIndex ds⟩) ∧
      ∃ d ∈ ds, d.digest = refEnv.sha256 Ex.putReferrer.body ∧
        d.size = (Ex.putReferrer.body.length : Int) ∧ d.mediaType = Ex.ociManifest) ∧
    (∀ (s0 s1 : Store) (put : Request) (t : String) (r : Response),
      put.method = "PUT" → put.addresses "r" t → handle refEnv s0 put = (s1, .ok r) →
      s1.lookup "r" (refEnv.sha256 put.body) = some ⟨put.contentType, put.body⟩) :=
  referrers_complete refEnv refEnv_lawful Ex.afterPutReferrer Ex.referrersOfA "r" Ex.digestA
    Ex.putReferrer.body Ex.ociManifest
    ⟨Ex.ociManifest, Ex.digestA, 3, ""⟩
    (by decide!) (by decide!) (by decide!) (by decide!) (by decide!) (by decide!)

/-- C10 (counterexample).  The manifest `plainManifest`, which has no subject,
is put to `r` under the tag `img`; then `referrerManifest`, whose subject is
`digestA`, is put under the reference `digest(plainManifest)`.  Both are
answered 201 and `plainManifest` is still stored under `img`.  The referrers
query for `digestA` now returns a descriptor whose digest is
`digest(plainManifest)` and whose size is the length of `referrerManifest`:
every manifest stored in `r` with the digest of that descriptor has no
subject. -/
theorem descriptor_names_manifest_without_subject :
    (handle refEnv GoMap.empty Ex.putPlain).2 =
      .ok ⟨201, [("Docker-Content-Digest", refEnv.sha256 Ex.putPlain.body)], .empty⟩ ∧
    (handle refEnv Ex.afterPutPlain Ex.putReferrerOverPlain).2 =
      .ok ⟨201, [("Docker-Content-Digest", refEnv.sha256 Ex.putReferrerOverPlain.body)],
        .empty⟩ ∧
    refEnv.newHash Ex.digestA = some Ex.digestA ∧
    Store.lookup Ex.afterPutOverPlain "r" "img" = some ⟨Ex.ociManifest, Ex.putPlain.body⟩ ∧
    refEnv.unmarshalSubject Ex.putPlain.body = none ∧
    (∃ ds, (handleReferrers refEnv Ex.afterPutOverPlain Ex.referrersOfA).2 =
        .ok ⟨200, [("Content-Length", toString (refEnv.jsonLen
            (.index 2 "application/vnd.oci.image.index.v1+json" ds)))],
          .index 2 "application/vnd.oci.image.index.v1+json" ds⟩ ∧
      (⟨Ex.ociManifest, refEnv.sha256 Ex.putPlain.body, Ex.putReferrerOverPlain.body.length,
        "application/example"⟩ : Descriptor) ∈ ds) ∧
    Ex.putReferrerOverPlain.body.length ≠ Ex.putPlain.body.length ∧
    (∀ e ∈ Ex.repoOverPlain.entries, refEnv.sha256 e.2.blob = refEnv.sha256 Ex.putPlain.body →
      refEnv.unmarshalSubject e.2.blob = none) := by
  refine ⟨by decide!, by decide!, by decide!, by decide!, by decide!, ?_, by decide!, by decide!⟩
  refine ⟨[⟨Ex.ociManifest, refEnv.sha256 Ex.putPlain.body, Ex.putReferrerOverPlain.body.length,
      "application/example"⟩,
    ⟨Ex.ociManifest, refEnv.sha256 Ex.putReferrerOverPlain.body,
      Ex.putReferrerOverPlain.body.length, "application/example"⟩], by decide!, ?_⟩
  exact List.mem_cons_self _ _

/-- The empty registry satisfies the digest-key invariant. -/
theorem digestKeysOK_empty (env : Env) : DigestKeysOK env GoMap.empty := by
  intro R k m hl
  simp [Store.lookup, GoMap.get_empty] at hl

/-- C10 (amended).  For a valid digest `D` and an existing repository `R` the
referrers query is answered 200 with an index in which every descriptor is
built from an entry of `R` under a key that is a valid digest: its digest is
that key, its size, media type and artifactType are the length, the content
type and the config media type of the manifest stored under that key, and the
body of that manifest carries a subject with digest `D`; an entry whose body
has no subject, or a subject with another digest, is described by no
descriptor.  In a state that satisfies the digest-key invariant, every
descriptor moreover has the digest of the manifest it is built from, so it
describes a stored manifest with subject `D`, and a descriptor with the digest
of a stored manifest without such a subject would be built from another body
of the same digest.  The invariant holds on the empty registry and is kept by
every request that is no `PUT` under a valid digest other than the digest of
its body. -/
theorem referrers_sound (env : Env) (hl : env.Lawful) (s : Store) (q : Request)
    (R D : String) (c : GoMap Manifest)
    (hq : q.method = "GET") (ha : q.addresses R D) (hD : env.newHash D ≠ none)
    (hR : s.get R = some c) :
    ∃ ds, handleReferrers env s q =
        (s, .ok ⟨200, [("Content-Length",
            toString (env.jsonLen (.index 2 env.mediaTypeOCIImageIndex ds)))],
          .index 2 env.mediaTypeOCIImageIndex ds⟩) ∧
      (∀ d ∈ ds, env.newHash d.digest ≠ none ∧ ∃ m subject, c.get d.digest = some m ∧
        env.unmarshalSubject m.blob = some subject ∧ subject.digest = D ∧
        d.size = (m.blob.length : Int) ∧ d.mediaType = m.contentType ∧
        d.artifactType = env.unmarshalConfigMediaType m.blob) ∧
      (∀ k m, c.get k = some m →
        (∀ subject, env.unmarshalSubject m.blob = some subject → subject.digest ≠ D) →
        ∀ d ∈ ds, d.digest ≠ k) ∧
      (DigestKeysOK env s →
        (∀ d ∈ ds, ∃ m subject, c.get d.digest = some m ∧ d.digest = env.sha256 m.blob ∧
          env.unmarshalSubject m.blob = some subject ∧ subject.digest = D ∧
          d.size = (m.blob.length : Int) ∧ d.mediaType = m.contentType ∧
          d.artifactType = env.unmarshalConfigMediaType m.blob) ∧
        (∀ k m, c.get k = some m →
          (∀ subject, env.unmarshalSubject m.blob = some subject → subject.digest ≠ D) →
          ∀ d ∈ ds, d.digest = env.sha256 m.blob →
            ∃ m', c.get d.digest = some m' ∧ m'.blob ≠ m.blob ∧
              env.sha256 m'.blob = env.sha256 m.blob)) ∧
      DigestKeysOK env GoMap.empty ∧
      (∀ (s0 : Store) (req : Request), DigestKeysOK env s0 →
        (req.method = "PUT" → req.referenceMatchesBody env = true) →
        DigestKeysOK env (handle env s0 req).1) := by
  have hsound : ∀ d ∈ c.entries.filterMap (referrerOf env D),
      env.newHash d.digest ≠ none ∧ ∃ m subject,
      c.get d.digest = some m ∧ env.unmarshalSubject m.blob = some subject ∧
      subject.digest = D ∧ d.size = (m.blob.length : Int) ∧ d.mediaType = m.contentType ∧
      d.artifactType = env.unmarshalConfigMediaType m.blob := by
    intro d hd
    rw [List.mem_filterMap] at hd
    obtain ⟨⟨k, m⟩, hmem, href⟩ := hd
    rw [referrerOf_eq_some_iff] at href
    obtain ⟨h, subject, hh, hsub, hsd, hdsc⟩ := href
    have hk : h = k := hl.newHash_string k h hh
    subst hk
    subst hdsc
    refine ⟨?_, m, subject, (GoMap.mem_entries_iff c _ _).1 hmem, hsub, hsd, rfl, rfl, rfl⟩
    simp only [hh]
    exact Option.some_ne_none _
  have hlook : ∀ k m, c.get k = some m → s.lookup R k = some m := by
    intro k m hk
    simp [Store.lookup, hR, hk]
  have hsound2 : DigestKeysOK env s → ∀ d ∈ c.entries.filterMap (referrerOf env D),
      ∃ m subject, c.get d.digest = some m ∧ d.digest = env.sha256 m.blob ∧
        env.unmarshalSubject m.blob = some subject ∧ subject.digest = D ∧
        d.size = (m.blob.length : Int) ∧ d.mediaType = m.contentType ∧
        d.artifactType = env.unmarshalConfigMediaType m.blob := by
    intro hinv d hd
    obtain ⟨hvalid, m, subject, hget, hsub, hsd, h1, h2, h3⟩ := hsound d hd
    exact ⟨m, subject, hget, (hinv R d.digest m (hlook _ _ hget) hvalid).symm, hsub, hsd,
      h1, h2, h3⟩
  refine ⟨_, handleReferrers_ok hq ha hD hR, hsound, ?_, ?_, digestKeysOK_empty env,
    fun s0 req hs hreq => handle_keeps_digestKeys env s0 req hs hreq⟩
  · intro k m hkm hno d hd hdk
    obtain ⟨_, m', subject, hget, hsub, hsd, _⟩ := hsound d hd
    rw [hdk, hkm] at hget
    cases hget
    exact hno subject hsub hsd
  · intro hinv
    refine ⟨hsound2 hinv, ?_⟩
    intro k m hkm hno d hd hdm
    obtain ⟨m', subject, hget, hdig, hsub, hsd, _⟩ := hsound2 hinv d hd
    refine ⟨m', hget, ?_, ?_⟩
    · intro hb
      rw [hb] at hsub
      exact hno subject hsub hsd
    · rw [← hdig, hdm]

theorem referrers_sound_witness :
    ∃ ds, handleReferrers refEnv Ex.afterPutReferrer Ex.referrersOfA =
        (Ex.afterPutReferrer, .ok ⟨200, [("Content-Length",
            toString (refEnv.jsonLen (.index 2 refEnv.mediaTypeOCIImageIndex ds)))],
          .index 2 refEnv.mediaTypeOCIImageIndex ds⟩) ∧
      DigestKeysOK refEnv Ex.afterPutReferrer ∧
      (∀ d ∈ ds, ∃ m subject, Ex.repoReferrer.get d.digest = some m ∧
        d.digest = refEnv.sha256 m.blob ∧
        refEnv.unmarshalSubject m.blob = some subject ∧ subject.digest = Ex.digestA ∧
        d.size = (m.blob.length : Int) ∧ d.mediaType = m.contentType ∧
        d.artifactType = refEnv.unmarshalConfigMediaType m.blob) ∧
      (∀ k m, Ex.repoReferrer.get k = some m →
        (∀ subject, refEnv.unmarshalSubject m.blob = some subject →
          subject.digest ≠ Ex.digestA) →
        ∀ d ∈ ds, d.digest ≠ k) := by
  obtain ⟨ds, h1, _, h3, h4, h5, h6⟩ :=
    referrers_sound refEnv refEnv_lawful Ex.afterPutReferrer Ex.referrersOfA "r" Ex.digestA
      Ex.repoReferrer (by decide!) (by decide!) (by decide!) (by decide!)
  have hinv : DigestKeysOK refEnv Ex.afterPutReferrer :=
    h6 GoMap.empty Ex.putReferrer h5 (fun _ => by decide!)
  exact ⟨ds, h1, hinv, (h4 hinv).1, h3⟩

/-! ## Idempotent re-put -/

/-- Assigning to a key the value it holds leaves the map as it is. -/
theorem GoMap.set_eq_self {V : Type} (m : GoMap V) (k : String) (v : V)
    (h : m.get k = some v) : m.set k v = m := by
  have key : ∀ l : List (String × V), GoMap.getEntries k l = some v →
      GoMap.setEntries k v l = l := by
    intro l
    induction l with
    | nil => intro hl; simp [GoMap.getEntries] at hl
    | cons e rest ih =>
      obtain ⟨k0, v0⟩ := e
      intro hl
      by_cases hk : k0 = k
      · simp only [GoMap.getEntries, hk, if_true, Option.some.injEq] at hl
        simp [GoMap.setEntries, hk, hl]
      · simp only [GoMap.getEntries, hk, if_false] at hl
        simp [GoMap.setEntries, hk, ih hl]
  cases m with
  | mk entries nodup =>
    have := key entries h
    simp only [GoMap.set, this]

/-- An assignment keeps the keys that were there. -/
theorem GoMap.get_set_ne_none {V : Type} (m : GoMap V) (k k' : String) (v : V)
    (h : m.get k' ≠ none) : (m.set k v).get k' ≠ none := by
  by_cases hk : k' = k
  · subst hk; simp [GoMap.get_set_same]
  · rw [GoMap.get_set_ne m hk]; exact h

/-- C11 (idempotent re-put).  If a manifest `PUT` succeeds, the identical `PUT`
repeated on the resulting state succeeds too, with the same response, 201 and
the `Docker-Content-Digest` of the body, and leaves that state exactly as it
is. -/
theorem put_twice_is_idempotent (env : Env) (s s' : Store) (put : Request) (R t : String)
    (r : Response) (hput : put.method = "PUT") (ha : put.addresses R t)
    (hok : handle env s put = (s', .ok r)) :
    handle env s' put = (s', .ok r) ∧
    r = ⟨201, [("Docker-Content-Digest", env.sha256 put.body)], .empty⟩ := by
  rw [handle_put hput ha] at hok ⊢
  have hr := (handlePut_ok_lookup hok).1
  refine ⟨?_, hr⟩
  have h2 := handlePut_ok hok
  unfold putStore at h2
  simp only [Prod.mk.injEq, Outcome.ok.injEq] at h2
  obtain ⟨hs, _⟩ := h2
  rw [get_created] at hs
  simp only [Option.getD_some] at hs
  have hget : s'.get R = some ((((s.get R).getD GoMap.empty).set t
      ⟨put.contentType, put.body⟩).set (env.sha256 put.body) ⟨put.contentType, put.body⟩) := by
    rw [hs]; exact GoMap.get_set_same _ _ _
  have hsome : (s'.get R).isNone = false := by rw [hget]; rfl
  have hstore : putStore s' R t (env.sha256 put.body) ⟨put.contentType, put.body⟩ =
      (s', .ok r) := by
    unfold putStore
    simp only [hget, Option.getD_some]
    have e1 : ((((s.get R).getD GoMap.empty).set t ⟨put.contentType, put.body⟩).set
        (env.sha256 put.body) ⟨put.contentType, put.body⟩).set t
          (⟨put.contentType, put.body⟩ : Manifest) =
        (((s.get R).getD GoMap.empty).set t ⟨put.contentType, put.body⟩).set
          (env.sha256 put.body) ⟨put.contentType, put.body⟩ := by
      apply GoMap.set_eq_self
      by_cases htd : t = env.sha256 put.body
      · rw [htd]; exact GoMap.get_set_same _ _ _
      · rw [GoMap.get_set_ne _ htd]; exact GoMap.get_set_same _ _ _
    rw [e1, GoMap.set_eq_self _ _ _ (GoMap.get_set_same _ _ _), GoMap.set_eq_self s' R _ hget, hr]
  unfold handlePut
  simp only [hsome, Bool.false_eq_true, if_false]
  by_cases hidx : env.isIndex put.contentType = true
  · simp only [hidx, if_true]
    unfold handlePut at hok
    simp only [hidx, if_true] at hok
    cases hparse : env.unmarshalIndex put.body with
    | error e => rw [hparse] at hok; simp at hok
    | ok descs =>
      rw [hparse] at hok
      simp only at hok ⊢
      cases hc : checkSubManifests env
          (((if (s.get R).isNone then s.set R GoMap.empty else s).get R).getD GoMap.empty)
          descs with
      | some e => rw [hc] at hok; simp at hok
      | none =>
        have hc2 : checkSubManifests env ((s'.get R).getD GoMap.empty) descs = none := by
          rw [checkSubManifests_eq_none_iff] at hc ⊢
          intro d hd h1 h2
          have h3 := hc d hd h1 h2
          rw [get_created] at h3
          simp only [Option.getD_some] at h3
          rw [hget]
          simp only [Option.getD_some]
          exact GoMap.get_set_ne_none _ _ _ _ (GoMap.get_set_ne_none _ _ _ _ h3)
        rw [hc2]
        exact hstore
  · simp only [hidx, if_false]
    exact hstore

theorem put_twice_is_idempotent_witness :
    handle refEnv Ex.afterPutAbc Ex.putAbc =
      (Ex.afterPutAbc, .ok ⟨201, [("Docker-Content-Digest",
        "sha256:ba7816bf8f01cfea414140de5dae2223b00361a396177a9cb410ff61f20015ad")], .empty⟩) ∧
    (⟨201, [("Docker-Content-Digest",
        "sha256:ba7816bf8f01cfea414140de5dae2223b00361a396177a9cb410ff61f20015ad")], .empty⟩ :
      Response) = ⟨201, [("Docker-Content-Digest", refEnv.sha256 Ex.putAbc.body)], .empty⟩ :=
  put_twice_is_idempotent refEnv GoMap.empty Ex.afterPutAbc Ex.putAbc "foo/bar" "v1"
    ⟨201, [("Docker-Content-Digest",
      "sha256:ba7816bf8f01cfea414140de5dae2223b00361a396177a9cb410ff61f20015ad")], .empty⟩
    (by decide!) (by decide!) (by decide!)

/-! ## Reads of absent references, and `HEAD` -/

theorem handle_head {env : Env} {s : Store} {req : Request} {R t : String}
    (hm : req.method = "HEAD") (ha : req.addresses R t) :
    handle env s req =
      match s.lookup R t with
      | some m => (s, .ok (headResponse env m))
      | none => if (s.get R).isSome then (s, .err errManifestUnknown)
                else (s, .err errNameUnknown) := by
  unfold handle Store.lookup
  simp only [ha.1, ha.2, hm]
  cases h : s.get R with
  | none => simp
  | some c => cases h2 : c.get t <;> simp [h2]

/-- C12 (not-found taxonomy).  For a `GET`, `HEAD` or `DELETE` of `R/k`: the
answer is 404 `NAME_UNKNOWN` exactly when `R` is not in the store, it is 404
`MANIFEST_UNKNOWN` exactly when `R` is in the store and has no entry under
`k`, and the request succeeds exactly when `R` has an entry under `k`; when an
error is returned the state is unchanged. -/
theorem not_found_taxonomy (env : Env) (s : Store) (req : Request) (R k : String)
    (hm : req.method = "GET" ∨ req.method = "HEAD" ∨ req.method = "DELETE")
    (ha : req.addresses R k) :
    ((handle env s req).2 = .err ⟨404, "NAME_UNKNOWN", "Unknown name"⟩ ↔ s.get R = none) ∧
    ((handle env s req).2 = .err ⟨404, "MANIFEST_UNKNOWN", "Unknown manifest"⟩ ↔
      (s.get R ≠ none ∧ s.lookup R k = none)) ∧
    ((∃ r, (handle env s req).2 = .ok r) ↔ s.lookup R k ≠ none) ∧
    (∀ e, (handle env s req).2 = .err e → (handle env s req).1 = s) := by
  have hlook : ∀ c, s.get R = some c → s.lookup R k = c.get k := by
    intro c hc; simp [Store.lookup, hc]
  rcases hm with hm | hm | hm
  · rw [handle_get hm ha]
    cases hR : s.get R with
    | none => simp [Store.lookup, hR, errNameUnknown]
    | some c =>
      cases hk : c.get k with
      | none => simp [Store.lookup, hR, hk, errManifestUnknown]
      | some m => simp [Store.lookup, hR, hk]
  · rw [handle_head hm ha]
    cases hR : s.get R with
    | none => simp [Store.lookup, hR, errNameUnknown]
    | some c =>
      cases hk : c.get k with
      | none => simp [Store.lookup, hR, hk, errManifestUnknown]
      | some m => simp [Store.lookup, hR, hk]
  · rw [handle_delete hm ha]
    cases hR : s.get R with
    | none => simp [Store.lookup, hR, errNameUnknown]
    | some c =>
      cases hk : c.get k with
      | none => simp [Store.lookup, hR, hk, errManifestUnknown]
      | some m => simp [Store.lookup, hR, hk]

theorem not_found_taxonomy_witness :
    ((handle refEnv Ex.afterPutAbc Ex.headV1).2 = .err ⟨404, "NAME_UNKNOWN", "Unknown name"⟩ ↔
      Ex.afterPutAbc.get "foo/bar" = none) ∧
    ((handle refEnv Ex.afterPutAbc Ex.headV1).2 =
        .err ⟨404, "MANIFEST_UNKNOWN", "Unknown manifest"⟩ ↔
      (Ex.afterPutAbc.get "foo/bar" ≠ none ∧ Ex.afterPutAbc.lookup "foo/bar" "v1" = none)) ∧
    ((∃ r, (handle refEnv Ex.afterPutAbc Ex.headV1).2 = .ok r) ↔
      Ex.afterPutAbc.lookup "foo/bar" "v1" ≠ none) ∧
    (∀ e, (handle refEnv Ex.afterPutAbc Ex.headV1).2 = .err e →
      (handle refEnv Ex.afterPutAbc Ex.headV1).1 = Ex.afterPutAbc) :=
  not_found_taxonomy refEnv Ex.afterPutAbc Ex.headV1 "foo/bar" "v1"
    (Or.inr (Or.inl (by decide!))) (by decide!)

/-- C13 (HEAD agrees with GET).  For a `HEAD` and a `GET` of the same `R/k`:
neither changes the state; when the `GET` returns an error the `HEAD` returns
the same error; when the `GET` succeeds its status is 200 and the `HEAD`
succeeds with the same status and the same headers (`Docker-Content-Digest`,
`Content-Type`, `Content-Length`) and writes no body. -/
theorem head_agrees_with_get (env : Env) (s : Store) (get head : Request) (R k : String)
    (hg : get.method = "GET") (hga : get.addresses R k)
    (hh : head.method = "HEAD") (hha : head.addresses R k) :
    (handle env s get).1 = s ∧ (handle env s head).1 = s ∧
    (handle env s head).2 =
      (match (handle env s get).2 with
       | .ok r => .ok ⟨r.status, r.headers, .empty⟩
       | out => out) ∧
    (∀ r, (handle env s get).2 = .ok r →
      r.status = 200 ∧ r.body = .raw ((s.lookup R k).map Manifest.blob |>.getD []) ∧
      r.headers.map Prod.fst = ["Docker-Content-Digest", "Content-Type", "Content-Length"]) := by
  rw [handle_get hg hga, handle_head hh hha]
  cases hl : s.lookup R k with
  | some m =>
    refine ⟨rfl, rfl, rfl, ?_⟩
    intro r hr
    simp only [Outcome.ok.injEq] at hr
    subst hr
    exact ⟨rfl, rfl, rfl⟩
  | none =>
    simp only
    cases hR : (s.get R).isSome
    · simp
    · simp

theorem head_agrees_with_get_witness :
    (handle refEnv Ex.afterPutAbc Ex.getV1).1 = Ex.afterPutAbc ∧
    (handle refEnv Ex.afterPutAbc Ex.headV1).1 = Ex.afterPutAbc ∧
    (handle refEnv Ex.afterPutAbc Ex.headV1).2 =
      (match (handle refEnv Ex.afterPutAbc Ex.getV1).2 with
       | .ok r => .ok ⟨r.status, r.headers, .empty⟩
       | out => out) ∧
    (∀ r, (handle refEnv Ex.afterPutAbc Ex.getV1).2 = .ok r →
      r.status = 200 ∧
      r.body = .raw ((Ex.afterPutAbc.lookup "foo/bar" "v1").map Manifest.blob |>.getD []) ∧
      r.headers.map Prod.fst = ["Docker-Content-Digest", "Content-Type", "Content-Length"]) :=
  head_agrees_with_get refEnv Ex.afterPutAbc Ex.getV1 Ex.headV1 "foo/bar" "v1"
    (by decide!) (by decide!) (by decide!) (by decide!)

/-! ## Referrers: the error cases -/

/-- C14 (referrers error cases).  For a `GET` referrers request for target `D`
on repository `R`: when `D` is no syntactically valid digest the answer is 400
`UNSUPPORTED`, whatever the state; when `D` is valid and `R` is not in the
store the answer is 404 `NAME_UNKNOWN`; when `D` is valid and `R` is in the
store the answer is 200 with an index, which is empty when no entry of `R` has
a body with a subject of digest `D`.  No assumption is made on how the stored
bodies parse: a body without a readable subject adds no descriptor and no
error.  The state is unchanged in every case. -/
theorem referrers_error_cases (env : Env) (s : Store) (q : Request) (R D : String)
    (hq : q.method = "GET") (ha : q.addresses R D) :
    (env.newHash D = none →
      handleReferrers env s q =
        (s, .err ⟨400, "UNSUPPORTED", "Target must be a valid digest"⟩)) ∧
    (env.newHash D ≠ none → s.get R = none →
      handleReferrers env s q = (s, .err ⟨404, "NAME_UNKNOWN", "Unknown name"⟩)) ∧
    (env.newHash D ≠ none → ∀ c, s.get R = some c →
      ∃ ds, handleReferrers env s q =
          (s, .ok ⟨200, [("Content-Length",
              toString (env.jsonLen (.index 2 env.mediaTypeOCIImageIndex ds)))],
            .index 2 env.mediaTypeOCIImageIndex ds⟩) ∧
        ((∀ k m subject, c.get k = some m → env.unmarshalSubject m.blob = some subject →
            subject.digest ≠ D) → ds = []) ∧
        (∀ d ∈ ds, ∃ k m, c.get k = some m ∧ env.unmarshalSubject m.blob ≠ none ∧
          env.newHash k = some d.digest)) := by
  refine ⟨?_, ?_, ?_⟩
  · intro hD
    unfold handleReferrers
    simp [hq, ha.1, ha.2, hD]
  · intro hD hR
    unfold handleReferrers
    cases hh : env.newHash D with
    | none => exact absurd hh hD
    | some h => simp [hq, ha.1, ha.2, hh, hR, errNameUnknown]
  · intro hD c hR
    refine ⟨_, handleReferrers_ok hq ha hD hR, ?_, ?_⟩
    · intro hno
      rw [List.filterMap_eq_nil_iff]
      intro e he
      cases href : referrerOf env D e with
      | none => rfl
      | some d =>
        rw [referrerOf_eq_some_iff] at href
        obtain ⟨h, subject, _, hsub, hsd, _⟩ := href
        exact absurd hsd (hno e.1 e.2 subject ((GoMap.mem_entries_iff c _ _).1 he) hsub)
    · intro d hd
      rw [List.mem_filterMap] at hd
      obtain ⟨⟨k, m⟩, hmem, href⟩ := hd
      rw [referrerOf_eq_some_iff] at href
      obtain ⟨h, subject, hh, hsub, _, hdsc⟩ := href
      refine ⟨k, m, (GoMap.mem_entries_iff c _ _).1 hmem, ?_, ?_⟩
      · rw [hsub]; simp
      · rw [hdsc]; exact hh

theorem referrers_error_cases_witness :
    (refEnv.newHash "v1" = none →
      handleReferrers refEnv Ex.afterPutAbc Ex.referrersOfV1 =
        (Ex.afterPutAbc, .err ⟨400, "UNSUPPORTED", "Target must be a valid digest"⟩)) ∧
    (refEnv.newHash "v1" ≠ none → Ex.afterPutAbc.get "nowhere" = none →
      handleReferrers refEnv Ex.afterPutAbc Ex.referrersOfV1 =
        (Ex.afterPutAbc, .err ⟨404, "NAME_UNKNOWN", "Unknown name"⟩)) ∧
    (refEnv.newHash "v1" ≠ none → ∀ c, Ex.afterPutAbc.get "nowhere" = some c →
      ∃ ds, handleReferrers refEnv Ex.afterPutAbc Ex.referrersOfV1 =
          (Ex.afterPutAbc, .ok ⟨200, [("Content-Length",
              toString (refEnv.jsonLen (.index 2 refEnv.mediaTypeOCIImageIndex ds)))],
            .index 2 refEnv.mediaTypeOCIImageIndex ds⟩) ∧
        ((∀ k m subject, c.get k = some m → refEnv.unmarshalSubject m.blob = some subject →
            subject.digest ≠ "v1") → ds = []) ∧
        (∀ d ∈ ds, ∃ k m, c.get k = some m ∧ refEnv.unmarshalSubject m.blob ≠ none ∧
          refEnv.newHash k = some d.digest)) :=
  referrers_error_cases refEnv Ex.afterPutAbc Ex.referrersOfV1 "nowhere" "v1"
    (by decide!) (by decide!)

/-! ## Catalog -/

/-- The catalog loop appends the first `n` keys of the order. -/
theorem catalogLoop_eq (n : Int) (order : List String) (count : Nat) (repos : List String) :
    catalogLoop n order count repos = repos ++ order.take (n - count).toNat := by
  induction order generalizing count repos with
  | nil => simp [catalogLoop]
  | cons key rest ih =>
    unfold catalogLoop
    by_cases h : (count : Int) ≥ n
    · have h0 : (n - count).toNat = 0 := by omega
      simp [h, h0]
    · have h1 : (n - count).toNat = (n - (count + 1 : Nat)).toNat + 1 := by omega
      simp only [h, if_false, ih, h1, List.take_succ_cons, List.append_assoc,
        List.singleton_append]

/-- The catalog listing answers every `GET` with 200 and the first `n` keys of
the order. -/
theorem handleCatalog_eq (env : Env) (s : Store) (order : List String) (req : Request)
    (hm : req.method = "GET") :
    handleCatalog env s order req =
      (s, .ok ⟨200, [("Content-Length", toString (env.jsonLen (.catalog
          (order.take (if req.queryGet "n" ≠ "" then atoiValue (req.queryGet "n")
            else 10000).toNat))))],
        .catalog (order.take (if req.queryGet "n" ≠ "" then atoiValue (req.queryGet "n")
            else 10000).toNat)⟩) := by
  unfold handleCatalog
  simp only [hm, if_true, catalogLoop_eq, List.nil_append, Nat.cast_zero, sub_zero]

/-- C15 (catalog truncation).  For a `GET` catalog request, whatever the order
in which the map yields its keys: the answer is 200 with a list of pairwise
distinct names of repositories of the store; without `n` and with at most
10000 repositories the list holds every repository name; with an `n` that
parses as a non-negative integer the list holds exactly `min(n, number of
repositories)` names; with a non-negative `n` above the range of `int`, which
`Atoi` clamps to the largest `int`, the list holds every repository name. -/
theorem catalog_truncation (env : Env) (s : Store) (order : List String) (req : Request)
    (hm : req.method = "GET") (horder : order.Perm s.keys) :
    ∃ repos, handleCatalog env s order req =
        (s, .ok ⟨200, [("Content-Length", toString (env.jsonLen (.catalog repos)))],
          .catalog repos⟩) ∧
      repos.Nodup ∧ (∀ name ∈ repos, s.get name ≠ none) ∧
      (req.queryGet "n" = "" → s.keys.length ≤ 10000 → repos.Perm s.keys) ∧
      (∀ n : Nat, req.queryGet "n" ≠ "" → atoi (req.queryGet "n") = .ok (n : Int) →
        repos.length = min n s.keys.length) ∧
      (atoi (req.queryGet "n") = .error .rangeErr →
        (req.queryGet "n").data.head? ≠ some '-' → s.keys.length < 2 ^ 63 →
        repos.Perm s.keys) := by
  refine ⟨_, handleCatalog_eq env s order req hm, ?_, ?_, ?_, ?_, ?_⟩
  · exact List.Nodup.sublist (List.take_sublist _ _) (horder.nodup_iff.2 s.nodup)
  · intro name hname
    have h1 : name ∈ s.keys := horder.subset (List.mem_of_mem_take hname)
    have h2 := (GoMap.mem_keys_iff s name).1 h1
    intro h3
    rw [h3] at h2
    cases h2
  · intro hn hlen
    have hl : order.length ≤ 10000 := by rw [horder.length_eq]; exact hlen
    simp only [hn, ne_eq, not_true_eq_false, if_false]
    rw [List.take_of_length_le (by simpa using hl)]
    exact horder
  · intro n hns hn
    have hv : atoiValue (req.queryGet "n") = (n : Int) := by
      unfold atoiValue; rw [hn]
    simp only [hns, ne_eq, not_false_eq_true, if_true, hv, Int.toNat_ofNat, List.length_take,
      horder.length_eq]
  · intro hr hh hlen
    have hns : req.queryGet "n" ≠ "" := by
      intro h0
      rw [h0] at hr
      have h1 : atoi "" = .error .syntaxErr := rfl
      rw [h1] at hr
      cases hr
    have hv : atoiValue (req.queryGet "n") = 2 ^ 63 - 1 := by
      unfold atoiValue; rw [hr]; simp only [hh, if_false]
    have hl : order.length ≤ ((2 : Int) ^ 63 - 1).toNat := by
      rw [horder.length_eq]; omega
    simp only [hns, ne_eq, not_false_eq_true, if_true, hv]
    rw [List.take_of_length_le hl]
    exact horder

theorem catalog_truncation_witness :
    ∃ repos, handleCatalog refEnv Ex.twoRepos ["foo/bar", "r"] Ex.catalogOne =
        (Ex.twoRepos, .ok ⟨200, [("Content-Length",
            toString (refEnv.jsonLen (.catalog repos)))], .catalog repos⟩) ∧
      repos.Nodup ∧ (∀ name ∈ repos, Ex.twoRepos.get name ≠ none) ∧
      (Ex.catalogOne.queryGet "n" = "" → Ex.twoRepos.keys.length ≤ 10000 →
        repos.Perm Ex.twoRepos.keys) ∧
      (∀ n : Nat, Ex.catalogOne.queryGet "n" ≠ "" →
        atoi (Ex.catalogOne.queryGet "n") = .ok (n : Int) →
        repos.length = min n Ex.twoRepos.keys.length) ∧
      (atoi (Ex.catalogOne.queryGet "n") = .error .rangeErr →
        (Ex.catalogOne.queryGet "n").data.head? ≠ some '-' → Ex.twoRepos.keys.length < 2 ^ 63 →
        repos.Perm Ex.twoRepos.keys) :=
  catalog_truncation refEnv Ex.twoRepos ["foo/bar", "r"] Ex.catalogOne (by decide!)
    (by decide!)

/-! ## Descriptors of `ocimem` -/

open Ocimem Ociserver

/-- C16 (CheckDescriptor).  `CheckDescriptor` returns no error exactly when the
media type of the descriptor is not empty and, for non-nil data, the digest of
the data is the descriptor's digest and the descriptor's size is the length of
the data, or, for nil data, the descriptor's size is not zero.  When it returns
an error, that is the first that applies of: `digest mismatch`, `size mismatch`
(for nil data `zero sized content`), `no media type in descriptor`. -/
theorem check_descriptor (fromBytes : Bytes → String) (desc : Descriptor)
    (data : Option Bytes) :
    (CheckDescriptor fromBytes desc data = none ↔
      (desc.mediaType ≠ "" ∧
        match data with
        | some d => fromBytes d = desc.digest ∧ desc.size = (d.length : Int)
        | none => desc.size ≠ 0)) ∧
    (∀ d, data = some d → fromBytes d ≠ desc.digest →
      CheckDescriptor fromBytes desc data = some "digest mismatch") ∧
    (∀ d, data = some d → fromBytes d = desc.digest → desc.size ≠ (d.length : Int) →
      CheckDescriptor fromBytes desc data = some "size mismatch") ∧
    (data = none → desc.size = 0 →
      CheckDescriptor fromBytes desc data = some "zero sized content") ∧
    (∀ d, data = some d → fromBytes d = desc.digest → desc.size = (d.length : Int) →
      desc.mediaType = "" →
      CheckDescriptor fromBytes desc data = some "no media type in descriptor") ∧
    (data = none → desc.size ≠ 0 → desc.mediaType = "" →
      CheckDescriptor fromBytes desc data = some "no media type in descriptor") := by
  refine ⟨?_, ?_, ?_, ?_, ?_, ?_⟩
  · cases data with
    | none =>
      unfold CheckDescriptor
      by_cases h1 : desc.size = 0 <;> by_cases h2 : desc.mediaType = "" <;> simp [h1, h2]
    | some d =>
      unfold CheckDescriptor
      by_cases h0 : fromBytes d = desc.digest <;> by_cases h1 : desc.size = (d.length : Int) <;>
        by_cases h2 : desc.mediaType = "" <;> simp [h0, h1, h2]
  · intro d hd h0; subst hd; simp [CheckDescriptor, h0]
  · intro d hd h0 h1; subst hd; simp [CheckDescriptor, h0, h1]
  · intro hd h1; subst hd; simp [CheckDescriptor, h1]
  · intro d hd h0 h1 h2; subst hd; simp [CheckDescriptor, h0, h1, h2]
  · intro hd h1 h2; subst hd; simp [CheckDescriptor, h1, h2]

theorem check_descriptor_witness :
    CheckDescriptor Ref.sha256 Ex.descAbc (some (Ref.ascii "abc")) = none ∧
    CheckDescriptor Ref.sha256 Ex.descAbc (some (Ref.ascii "abd")) = some "digest mismatch" :=
  ⟨(check_descriptor Ref.sha256 Ex.descAbc (some (Ref.ascii "abc"))).1.2
      ⟨by decide!, by decide!, by decide!⟩,
    (check_descriptor Ref.sha256 Ex.descAbc (some (Ref.ascii "abd"))).2.1 _ rfl (by decide!)⟩

/-! ## Status codes of parse errors -/

/-- C19 (parse-error status mapping).  `handlerErrorForRequestParseError` maps
nil to nil.  For an error in which `errors.As` finds a request parse error, it
returns `withHTTPCode` of the original error with status 404 for the kind
not-found, 400 for badly-formed-digest, 405 for method-not-allowed and 400 for
bad-request, and returns the error itself for any other kind.  An error in
which `errors.As` finds no parse error is returned itself. -/
theorem parse_error_status_mapping :
    handlerErrorForRequestParseError none = none ∧
    (∀ e, asParseError e = some .errNotFound →
      handlerErrorForRequestParseError (some e) = some (.withHTTPCode 404 e)) ∧
    (∀ e, asParseError e = some .errBadlyFormedDigest →
      handlerErrorForRequestParseError (some e) = some (.withHTTPCode 400 e)) ∧
    (∀ e, asParseError e = some .errMethodNotAllowed →
      handlerErrorForRequestParseError (some e) = some (.withHTTPCode 405 e)) ∧
    (∀ e, asParseError e = some .errBadRequest →
      handlerErrorForRequestParseError (some e) = some (.withHTTPCode 400 e)) ∧
    (∀ e text, asParseError e = some (.other text) →
      handlerErrorForRequestParseError (some e) = some (.same e)) ∧
    (∀ e, asParseError e = none →
      handlerErrorForRequestParseError (some e) = some (.same e)) := by
  refine ⟨rfl, ?_, ?_, ?_, ?_, ?_, ?_⟩ <;> intros <;>
    simp [handlerErrorForRequestParseError, *]

theorem parse_error_status_mapping_witness :
    handlerErrorForRequestParseError (some Ex.wrappedNotFound) =
      some (.withHTTPCode 404 Ex.wrappedNotFound) :=
  parse_error_status_mapping.2.1 Ex.wrappedNotFound (by decide)

/-! ## Patterns of `ocimem`: tags -/

namespace Ocimem
open RegularExpression

/-- A character class matches the one-character strings of its characters. -/
theorem charClass_rmatch (l : List Char) (x : List Char) :
    (charClass l).rmatch x = true ↔ ∃ c ∈ l, x = [c] := by
  induction l with
  | nil => simp [charClass, zero_def]
  | cons a rest ih =>
    have h : charClass (a :: rest) = char a + charClass rest := rfl
    rw [h, add_rmatch_iff, char_rmatch_iff, ih]
    simp

/-- The repetition `r{0,n}` of a character class matches the strings of at most
`n` characters of the class. -/
theorem upTo_charClass_rmatch (l : List Char) (n : Nat) (x : List Char) :
    (upTo n (charClass l)).rmatch x = true ↔ x.length ≤ n ∧ ∀ c ∈ x, c ∈ l := by
  induction n generalizing x with
  | zero =>
    have h : upTo 0 (charClass l) = 1 := rfl
    rw [h, one_rmatch_iff]
    constructor
    · rintro rfl; simp
    · rintro ⟨h1, _⟩; exact List.length_eq_zero.1 (Nat.le_zero.1 h1)
  | succ n ih =>
    have h : upTo (n + 1) (charClass l) = 1 + charClass l * upTo n (charClass l) := rfl
    rw [h, add_rmatch_iff, one_rmatch_iff, mul_rmatch_iff]
    constructor
    · rintro (rfl | ⟨t, u, rfl, ht, hu⟩)
      · simp
      · obtain ⟨c, hc, rfl⟩ := (charClass_rmatch l t).1 ht
        obtain ⟨hlen, hall⟩ := (ih u).1 hu
        refine ⟨by simpa using hlen, ?_⟩
        intro d hd
        rcases List.mem_cons.1 hd with rfl | hd
        · exact hc
        · exact hall d hd
    · rintro ⟨hlen, hall⟩
      cases x with
      | nil => exact Or.inl rfl
      | cons c u =>
        refine Or.inr ⟨[c], u, rfl, (charClass_rmatch l [c]).2 ⟨c, hall c (List.mem_cons_self _ _), rfl⟩,
          (ih u).2 ⟨by simpa using hlen, fun d hd => hall d (List.mem_cons_of_mem _ hd)⟩⟩

/-- A character between two others is the character of its code. -/
theorem char_eq_ofNat (c : Char) : c = Char.ofNat c.toNat := by
  simp

theorem mem_lowerChars (c : Char) : c ∈ lowerChars ↔ ('a' ≤ c ∧ c ≤ 'z') := by
  constructor
  · intro h
    simp only [lowerChars, List.mem_cons, List.mem_singleton] at h
    rcases h with h | h | h | h | h | h | h | h | h | h | h | h | h | h | h | h | h | h | h | h |
      h | h | h | h | h | h | h <;> first | (subst h; decide) | simp at h
  · rintro ⟨h1, h2⟩
    have h1' : 97 ≤ c.toNat := h1
    have h2' : c.toNat ≤ 122 := h2
    rw [char_eq_ofNat c]
    generalize c.toNat = n at h1' h2'
    interval_cases n <;> decide

theorem mem_upperChars (c : Char) : c ∈ upperChars ↔ ('A' ≤ c ∧ c ≤ 'Z') := by
  constructor
  · intro h
    simp only [upperChars, List.mem_cons, List.mem_singleton] at h
    rcases h with h | h | h | h | h | h | h | h | h | h | h | h | h | h | h | h | h | h | h | h |
      h | h | h | h | h | h | h <;> first | (subst h; decide) | simp at h
  · rintro ⟨h1, h2⟩
    have h1' : 65 ≤ c.toNat := h1
    have h2' : c.toNat ≤ 90 := h2
    rw [char_eq_ofNat c]
    generalize c.toNat = n at h1' h2'
    interval_cases n <;> decide

theorem mem_digitChars (c : Char) : c ∈ digitChars ↔ ('0' ≤ c ∧ c ≤ '9') := by
  constructor
  · intro h
    simp only [digitChars, List.mem_cons, List.mem_singleton] at h
    rcases h with h | h | h | h | h | h | h | h | h | h | h <;>
      first | (subst h; decide) | simp at h
  · rintro ⟨h1, h2⟩
    have h1' : 48 ≤ c.toNat := h1
    have h2' : c.toNat ≤ 57 := h2
    rw [char_eq_ofNat c]
    generalize c.toNat = n at h1' h2'
    interval_cases n <;> decide

/-- The tag pattern matches a string exactly when it is one character of the
first class followed by at most 127 characters of the second. -/
theorem isValidTag_iff (tag : String) :
    isValidTag tag = true ↔
      ∃ c cs, tag.data = c :: cs ∧ cs.length ≤ 127 ∧
        (isAsciiLetter c = true ∨ isAsciiDigit c = true ∨ c = '_') ∧
        ∀ d ∈ cs, isAsciiLetter d = true ∨ isAsciiDigit d = true ∨ d = '.' ∨ d = '_' ∨ d = '-' := by
  have hfirst : ∀ c, c ∈ lowerChars ++ upperChars ++ digitChars ++ ['_'] ↔
      (isAsciiLetter c = true ∨ isAsciiDigit c = true ∨ c = '_') := by
    intro c
    simp only [List.mem_append, mem_lowerChars, mem_upperChars, mem_digitChars,
      List.mem_singleton, isAsciiLetter, isAsciiDigit, decide_eq_true_eq, Bool.decide_or,
      Bool.decide_and, Bool.or_eq_true, Bool.and_eq_true]
    tauto
  have hlater : ∀ c, c ∈ lowerChars ++ upperChars ++ digitChars ++ ['.', '_', '-'] ↔
      (isAsciiLetter c = true ∨ isAsciiDigit c = true ∨ c = '.' ∨ c = '_' ∨ c = '-') := by
    intro c
    simp only [List.mem_append, mem_lowerChars, mem_upperChars, mem_digitChars,
      List.mem_cons, List.mem_singleton, isAsciiLetter, isAsciiDigit, decide_eq_true_eq,
      Bool.decide_or, Bool.decide_and, Bool.or_eq_true, Bool.and_eq_true, List.not_mem_nil,
      or_false]
    tauto
  have hp : tagPattern = charClass (lowerChars ++ upperChars ++ digitChars ++ ['_']) *
      upTo 127 (charClass (lowerChars ++ upperChars ++ digitChars ++ ['.', '_', '-'])) := rfl
  unfold isValidTag
  rw [hp, mul_rmatch_iff]
  constructor
  · rintro ⟨t, u, hx, ht, hu⟩
    obtain ⟨c, hc, rfl⟩ := (charClass_rmatch _ t).1 ht
    obtain ⟨hlen, hall⟩ := (upTo_charClass_rmatch _ 127 u).1 hu
    exact ⟨c, u, hx, hlen, (hfirst c).1 hc, fun d hd => (hlater d).1 (hall d hd)⟩
  · rintro ⟨c, cs, hx, hlen, hc, hall⟩
    exact ⟨[c], cs, hx, (charClass_rmatch _ [c]).2 ⟨c, (hfirst c).2 hc, rfl⟩,
      (upTo_charClass_rmatch _ 127 cs).2 ⟨hlen, fun d hd => (hlater d).2 (hall d hd)⟩⟩

end Ocimem

/-- C18 (tag grammar).  `isValidTag` accepts a string exactly when the
specification's grammar does: its length is between 1 and 128, its first
character is an ASCII letter, a digit or `_`, and every later character is an
ASCII letter, a digit, `.`, `_` or `-`. -/
theorem tag_grammar (tag : String) :
    isValidTag tag = specTag tag ∧
    (isValidTag tag = true ↔
      (1 ≤ tag.length ∧ tag.length ≤ 128 ∧
        (∀ c, tag.data.head? = some c →
          (isAsciiLetter c = true ∨ isAsciiDigit c = true ∨ c = '_')) ∧
        ∀ d ∈ tag.data.tail,
          isAsciiLetter d = true ∨ isAsciiDigit d = true ∨ d = '.' ∨ d = '_' ∨ d = '-')) := by
  have hlen : tag.length = tag.data.length := rfl
  constructor
  · rw [Bool.eq_iff_iff, isValidTag_iff]
    unfold specTag
    cases hd : tag.data with
    | nil => simp
    | cons c cs =>
      simp only [List.cons.injEq, List.length_cons, Bool.decide_and, Bool.decide_or,
        Bool.and_eq_true, Bool.or_eq_true, decide_eq_true_eq, List.all_eq_true]
      constructor
      · rintro ⟨c', cs', ⟨rfl, rfl⟩, h1, h2, h3⟩
        exact ⟨⟨by omega, by omega⟩, h2, h3⟩
      · rintro ⟨⟨_, h1⟩, h2, h3⟩
        exact ⟨c, cs, ⟨rfl, rfl⟩, by omega, h2, h3⟩
  · rw [isValidTag_iff, hlen]
    cases hd : tag.data with
    | nil => simp
    | cons c cs =>
      simp only [List.cons.injEq, List.length_cons, List.head?_cons, Option.some.injEq,
        List.tail_cons]
      constructor
      · rintro ⟨c', cs', ⟨rfl, rfl⟩, h1, h2, h3⟩
        exact ⟨by omega, by omega, fun d hd => hd ▸ h2, h3⟩
      · rintro ⟨_, h1, h2, h3⟩
        exact ⟨c, cs, ⟨rfl, rfl⟩, by omega, h2 c rfl, h3⟩

theorem tag_grammar_witness :
    isValidTag "v1.0-rc_1" = true ∧ specTag "v1.0-rc_1" = true ∧
    isValidTag ".hidden" = false ∧ specTag ".hidden" = false ∧
    isValidTag "" = false ∧ isValidTag "a:b" = false :=
  ⟨by decide!, (tag_grammar "v1.0-rc_1").1 ▸ (by decide!), by decide!,
    (tag_grammar ".hidden").1 ▸ (by decide!), by decide!, by decide!⟩

/-! ## Patterns of `ocimem`: repository names -/

namespace Ocimem
open RegularExpression

/-! ### Splitting -/

theorem splitBy_nil (p : Char → Bool) : splitBy p [] = [[]] := rfl

theorem splitBy_ne_nil (p : Char → Bool) (x : List Char) : splitBy p x ≠ [] := by
  induction x with
  | nil => simp [splitBy]
  | cons c cs ih =>
    unfold splitBy at ih ⊢
    simp only [List.foldr_cons]
    split
    · simp
    · split <;> simp

theorem splitBy_cons_sep (p : Char → Bool) (c : Char) (cs : List Char) (h : p c = true) :
    splitBy p (c :: cs) = [] :: splitBy p cs := by
  simp [splitBy, h]

theorem splitBy_cons_not (p : Char → Bool) (c : Char) (cs : List Char) (h : p c = false) :
    splitBy p (c :: cs) = (c :: (splitBy p cs).headD []) :: (splitBy p cs).tail := by
  have hne := splitBy_ne_nil p cs
  unfold splitBy at hne ⊢
  simp only [List.foldr_cons, h, Bool.false_eq_true, if_false]
  split
  · rename_i heq; exact absurd heq hne
  · rename_i heq; rw [heq]; rfl

/-- A list without separators is its only piece. -/
theorem splitBy_of_all_not (p : Char → Bool) (x : List Char) (h : ∀ c ∈ x, p c = false) :
    splitBy p x = [x] := by
  induction x with
  | nil => rfl
  | cons c cs ih =>
    rw [splitBy_cons_not p c cs (h c (List.mem_cons_self _ _)),
      ih (fun d hd => h d (List.mem_cons_of_mem _ hd))]
    rfl

/-- Splitting at a separator: the pieces before it, then the pieces after
it. -/
theorem splitBy_append_sep (p : Char → Bool) (a : List Char) (c : Char) (b : List Char)
    (h : p c = true) : splitBy p (a ++ c :: b) = splitBy p a ++ splitBy p b := by
  induction a with
  | nil => rw [List.nil_append, splitBy_cons_sep p c b h]; rfl
  | cons d ds ih =>
    cases hd : p d
    · rw [List.cons_append, splitBy_cons_not p d _ hd, ih, splitBy_cons_not p d ds hd]
      have hne := splitBy_ne_nil p ds
      cases hs : splitBy p ds with
      | nil => exact absurd hs hne
      | cons x xs => rfl
    · rw [List.cons_append, splitBy_cons_sep p d _ hd, ih, splitBy_cons_sep p d ds hd]
      rfl

/-- No piece holds a separator. -/
theorem splitBy_pieces_clean (p : Char → Bool) (x : List Char) :
    ∀ piece ∈ splitBy p x, ∀ c ∈ piece, p c = false := by
  induction x with
  | nil => intro piece hp; simp [splitBy] at hp; subst hp; simp
  | cons d ds ih =>
    cases hd : p d
    · rw [splitBy_cons_not p d ds hd]
      have hne := splitBy_ne_nil p ds
      cases hs : splitBy p ds with
      | nil => exact absurd hs hne
      | cons x xs =>
        rw [hs] at ih
        intro piece hp c hc
        simp only [List.headD_cons, List.tail_cons, List.mem_cons] at hp
        rcases hp with rfl | hp
        · rcases List.mem_cons.1 hc with rfl | hc
          · exact hd
          · exact ih x (List.mem_cons_self _ _) c hc
        · exact ih piece (List.mem_cons_of_mem _ hp) c hc
    · rw [splitBy_cons_sep p d ds hd]
      intro piece hp c hc
      rcases List.mem_cons.1 hp with rfl | hp
      · simp at hc
      · exact ih piece hp c hc

/-- Every character is a separator or lies in a piece. -/
theorem splitBy_cover (p : Char → Bool) (x : List Char) :
    ∀ c ∈ x, p c = true ∨ ∃ piece ∈ splitBy p x, c ∈ piece := by
  induction x with
  | nil => intro c hc; simp at hc
  | cons d ds ih =>
    intro c hc
    cases hd : p d
    · rw [splitBy_cons_not p d ds hd]
      have hne := splitBy_ne_nil p ds
      cases hs : splitBy p ds with
      | nil => exact absurd hs hne
      | cons x xs =>
        rw [hs] at ih
        rcases List.mem_cons.1 hc with rfl | hc
        · exact Or.inr ⟨c :: x, List.mem_cons_self _ _, List.mem_cons_self _ _⟩
        · rcases ih c hc with h | ⟨piece, hp, hcp⟩
          · exact Or.inl h
          · rcases List.mem_cons.1 hp with rfl | hp
            · exact Or.inr ⟨d :: piece, List.mem_cons_self _ _, List.mem_cons_of_mem _ hcp⟩
            · exact Or.inr ⟨piece, List.mem_cons_of_mem _ hp, hcp⟩
    · rw [splitBy_cons_sep p d ds hd]
      rcases List.mem_cons.1 hc with rfl | hc
      · exact Or.inl hd
      · rcases ih c hc with h | ⟨piece, hp, hcp⟩
        · exact Or.inl h
        · exact Or.inr ⟨piece, List.mem_cons_of_mem _ hp, hcp⟩

/-- A list has no separator, or a first one. -/
theorem first_sep (p : Char → Bool) (x : List Char) :
    (∀ c ∈ x, p c = false) ∨
    ∃ t c rest, x = t ++ c :: rest ∧ (∀ d ∈ t, p d = false) ∧ p c = true := by
  induction x with
  | nil => left; simp
  | cons d ds ih =>
    cases hd : p d
    · rcases ih with h | ⟨t, c, rest, rfl, ht, hc⟩
      · left
        intro c hc
        rcases List.mem_cons.1 hc with rfl | hc
        · exact hd
        · exact h c hc
      · right
        refine ⟨d :: t, c, rest, rfl, ?_, hc⟩
        intro e he
        rcases List.mem_cons.1 he with rfl | he
        · exact hd
        · exact ht e he
    · right
      exact ⟨[], d, ds, rfl, by simp, hd⟩

/-- The pattern `P(SP)*` with a separator class `S` whose characters do not
occur in the strings of `P`: a string matches exactly when every piece between
separators matches `P`. -/
theorem sepBy_rmatch (P S : RegularExpression Char) (p : Char → Bool)
    (hS : ∀ t, S.rmatch t = true ↔ ∃ c, p c = true ∧ t = [c])
    (hP : ∀ t, P.rmatch t = true → ∀ c ∈ t, p c = false) (x : List Char) :
    (comp P (star (comp S P))).rmatch x = true ↔ ∀ piece ∈ splitBy p x, P.rmatch piece = true := by
  have hc : comp P (star (comp S P)) = P * star (S * P) := rfl
  rw [hc, mul_rmatch_iff]
  constructor
  · rintro ⟨t, u, rfl, ht, hu⟩
    obtain ⟨L, rfl, hL⟩ := (star_rmatch_iff _ u).1 hu
    clear hu
    induction L generalizing t with
    | nil =>
      rw [List.flatten_nil, List.append_nil, splitBy_of_all_not p t (hP t ht)]
      intro piece hp
      rw [List.mem_singleton.1 hp]; exact ht
    | cons w L ih =>
      obtain ⟨_, hw⟩ := hL w (List.mem_cons_self _ _)
      obtain ⟨a, b, rfl, ha, hb⟩ := (mul_rmatch_iff S P w).1 hw
      obtain ⟨c, hpc, rfl⟩ := (hS a).1 ha
      have hrest := ih b hb (fun v hv => hL v (List.mem_cons_of_mem _ hv))
      rw [List.flatten_cons, List.append_assoc, List.singleton_append,
        splitBy_append_sep p t c _ hpc, splitBy_of_all_not p t (hP t ht)]
      intro piece hp
      rcases List.mem_append.1 hp with hp | hp
      · rw [List.mem_singleton.1 hp]; exact ht
      · exact hrest piece hp
  · have key : ∀ (n : Nat) (x : List Char), x.length = n →
        (∀ piece ∈ splitBy p x, P.rmatch piece = true) →
        ∃ t u, x = t ++ u ∧ P.rmatch t = true ∧ (S * P).star.rmatch u = true := by
      intro n
      induction n using Nat.strong_induction_on with
      | _ n ih =>
        intro x hn hall
        rcases first_sep p x with h | ⟨t, c, rest, rfl, ht, hpc⟩
        · rw [splitBy_of_all_not p x h] at hall
          exact ⟨x, [], by simp, hall x (List.mem_singleton_self _),
            (star_rmatch_iff _ []).2 ⟨[], rfl, by simp⟩⟩
        · rw [splitBy_append_sep p t c rest hpc, splitBy_of_all_not p t ht] at hall
          have hrest : ∀ piece ∈ splitBy p rest, P.rmatch piece = true :=
            fun piece hp => hall piece (List.mem_append_right _ hp)
          have hlen : rest.length < n := by
            rw [← hn]; simp; omega
          obtain ⟨t', u', rfl, ht', hu'⟩ := ih rest.length hlen rest rfl hrest
          obtain ⟨L, rfl, hL⟩ := (star_rmatch_iff _ u').1 hu'
          refine ⟨t, (c :: t') ++ L.flatten, by simp, hall t (by simp), ?_⟩
          refine (star_rmatch_iff _ _).2 ⟨(c :: t') :: L, by simp, ?_⟩
          intro v hv
          rcases List.mem_cons.1 hv with rfl | hv
          · exact ⟨by simp,
              (mul_rmatch_iff S P _).2 ⟨[c], t', rfl, (hS [c]).2 ⟨c, hpc, rfl⟩, ht'⟩⟩
          · exact hL v hv
    exact fun hall => key x.length x rfl hall

/-- Splitting at the separators of one kind and then at those of another is
splitting at both. -/
theorem splitBy_flatMap (p q : Char → Bool) (x : List Char) :
    (splitBy p x).flatMap (splitBy q) = splitBy (fun c => p c || q c) x := by
  induction x with
  | nil => rfl
  | cons c cs ih =>
    have hne := splitBy_ne_nil p cs
    cases hp : p c
    · rw [splitBy_cons_not p c cs hp]
      cases hs : splitBy p cs with
      | nil => exact absurd hs hne
      | cons h t =>
        rw [hs] at ih
        simp only [List.headD_cons, List.tail_cons, List.flatMap_cons] at ih ⊢
        cases hq : q c
        · rw [splitBy_cons_not q c h hq, splitBy_cons_not _ c cs (by simp [hp, hq]), ← ih]
          have hne2 := splitBy_ne_nil q h
          cases hs2 : splitBy q h with
          | nil => exact absurd hs2 hne2
          | cons h2 t2 => rfl
        · rw [splitBy_cons_sep q c h hq, splitBy_cons_sep _ c cs (by simp [hq]), ← ih]
          rfl
    · rw [splitBy_cons_sep p c cs hp, splitBy_cons_sep _ c cs (by simp [hp]), ← ih]
      rfl

/-- The repetition `r+` of a character class matches the non-empty strings of
characters of the class. -/
theorem oneOrMore_charClass_rmatch (l : List Char) (x : List Char) :
    (oneOrMore (charClass l)).rmatch x = true ↔ x ≠ [] ∧ ∀ c ∈ x, c ∈ l := by
  have h : oneOrMore (charClass l) = charClass l * star (charClass l) := rfl
  rw [h, mul_rmatch_iff]
  constructor
  · rintro ⟨t, u, rfl, ht, hu⟩
    obtain ⟨c, hc, rfl⟩ := (charClass_rmatch l t).1 ht
    obtain ⟨L, rfl, hL⟩ := (star_rmatch_iff _ u).1 hu
    refine ⟨by simp, ?_⟩
    intro d hd
    rcases List.mem_cons.1 hd with rfl | hd
    · exact hc
    · obtain ⟨w, hw, hdw⟩ := List.mem_flatten.1 hd
      obtain ⟨e, he, rfl⟩ := (charClass_rmatch l w).1 (hL w hw).2
      rw [List.mem_singleton.1 hdw]; exact he
  · rintro ⟨hne, hall⟩
    cases x with
    | nil => exact absurd rfl hne
    | cons c u =>
      refine ⟨[c], u, rfl, (charClass_rmatch l [c]).2 ⟨c, hall c (List.mem_cons_self _ _), rfl⟩, ?_⟩
      refine (star_rmatch_iff _ u).2 ⟨u.map (fun d => [d]), ?_, ?_⟩
      · clear hall hne
        induction u with
        | nil => rfl
        | cons d ds ih => simp [← ih]
      · intro w hw
        obtain ⟨d, hd, rfl⟩ := List.mem_map.1 hw
        exact ⟨by simp, (charClass_rmatch l [d]).2 ⟨d, hall d (List.mem_cons_of_mem _ hd), rfl⟩⟩

theorem mem_lowerAlnum (c : Char) : c ∈ lowerChars ++ digitChars ↔ isLowerAlnum c = true := by
  simp only [List.mem_append, mem_lowerChars, mem_digitChars, isLowerAlnum, Bool.decide_or,
    Bool.decide_and, Bool.or_eq_true, Bool.and_eq_true, decide_eq_true_eq]

theorem specRun_iff (x : List Char) :
    specRun x = true ↔ x ≠ [] ∧ ∀ c ∈ x, isLowerAlnum c = true := by
  simp [specRun]

/-- A run of the pattern is a run of the specification. -/
theorem run_rmatch (x : List Char) :
    (oneOrMore (charClass (lowerChars ++ digitChars))).rmatch x = specRun x := by
  rw [Bool.eq_iff_iff, oneOrMore_charClass_rmatch, specRun_iff]
  simp only [mem_lowerAlnum]

/-- No character of a run is a separator or a slash. -/
theorem lowerAlnum_not_break (c : Char) (h : isLowerAlnum c = true) :
    isNameSeparator c = false ∧ c ≠ '/' := by
  have key : ∀ d ∈ lowerChars ++ digitChars, isNameSeparator d = false ∧ d ≠ '/' := by decide
  exact key c ((mem_lowerAlnum c).2 h)

/-- The segment pattern matches the segments of the specification. -/
theorem segment_rmatch (x : List Char) : segmentPattern.rmatch x = specSegment x := by
  rw [Bool.eq_iff_iff]
  unfold segmentPattern specSegment
  rw [sepBy_rmatch _ _ isNameSeparator]
  · simp only [List.all_eq_true, run_rmatch]
  · intro t
    rw [charClass_rmatch]
    simp only [List.mem_cons, List.mem_singleton, List.not_mem_nil, or_false, isNameSeparator,
      Bool.decide_or, Bool.or_eq_true, decide_eq_true_eq]
  · intro t ht c hc
    rw [run_rmatch, specRun_iff] at ht
    exact (lowerAlnum_not_break c (ht.2 c hc)).1

/-- The repository name pattern matches the names of the specification. -/
theorem repoName_rmatch (x : List Char) :
    repoNamePattern.rmatch x = (splitBy (fun c => c = '/') x).all specSegment := by
  rw [Bool.eq_iff_iff]
  unfold repoNamePattern
  rw [sepBy_rmatch _ _ (fun c => decide (c = '/'))]
  · simp only [List.all_eq_true, segment_rmatch]
  · intro t
    rw [char_rmatch_iff]
    simp
  · intro t ht c hc
    rw [segment_rmatch] at ht
    simp only [specSegment, List.all_eq_true] at ht
    rcases splitBy_cover isNameSeparator t c hc with hsep | ⟨run, hrun, hcr⟩
    · simp only [decide_eq_false_iff_not]
      rintro rfl
      revert hsep
      decide
    · have h := (specRun_iff run).1 (ht run hrun)
      simpa using (lowerAlnum_not_break c (h.2 c hcr)).2

/-- The names of the specification, with the two kinds of separators taken
together: every piece between separators or slashes is a run. -/
theorem specRepoName_flat (name : String) :
    specRepoName name =
      (splitBy (fun c => decide (c = '/') || isNameSeparator c) name.data).all specRun := by
  unfold specRepoName specSegment
  rw [← splitBy_flatMap]
  generalize splitBy (fun c => decide (c = '/')) name.data = segs
  induction segs with
  | nil => rfl
  | cons seg rest ih => simp only [List.all_cons, List.flatMap_cons, List.all_append, ih]

/-- What an accepted repository name looks like, character by character. -/
theorem valid_repoName_shape (name : String) (hv : isValidRepoName name = true) :
    name.data ≠ [] ∧
    (∀ c ∈ name.data, isLowerAlnum c = true ∨ isNameSeparator c = true ∨ c = '/') ∧
    (∀ c rest, name.data = c :: rest → isLowerAlnum c = true) ∧
    (∀ front c, name.data = front ++ [c] → isLowerAlnum c = true) ∧
    (∀ a c1 c2 b, name.data = a ++ c1 :: c2 :: b →
      isLowerAlnum c1 = true ∨ isLowerAlnum c2 = true) := by
  have hflat : ∀ piece ∈ splitBy (fun c => decide (c = '/') || isNameSeparator c) name.data,
      specRun piece = true := by
    have h : specRepoName name = true := by
      unfold specRepoName; rw [← repoName_rmatch]; exact hv
    rw [specRepoName_flat] at h
    exact List.all_eq_true.1 h
  have hnil : [] ∉ splitBy (fun c => decide (c = '/') || isNameSeparator c) name.data := by
    intro hmem
    exact absurd (hflat [] hmem) (by decide)
  have hchars : ∀ c ∈ name.data, isLowerAlnum c = true ∨ isNameSeparator c = true ∨ c = '/' := by
    intro c hc
    rcases splitBy_cover (fun c => decide (c = '/') || isNameSeparator c) name.data c hc with
      h | ⟨piece, hp, hcp⟩
    · have h' : (decide (c = '/') || isNameSeparator c) = true := h
      rcases Bool.or_eq_true_iff.1 h' with h | h
      · exact Or.inr (Or.inr (of_decide_eq_true h))
      · exact Or.inr (Or.inl h)
    · exact Or.inl (((specRun_iff piece).1 (hflat piece hp)).2 c hcp)
  have hbreak : ∀ c ∈ name.data, isLowerAlnum c ≠ true →
      (fun c => decide (c = '/') || isNameSeparator c) c = true := by
    intro c hc hn
    rcases hchars c hc with h | h | h
    · exact absurd h hn
    · simp [h]
    · simp [h]
  refine ⟨?_, hchars, ?_, ?_, ?_⟩
  · intro h
    rw [h] at hnil
    exact hnil (by simp [splitBy])
  · intro c rest h
    by_contra hn
    rw [h] at hnil hbreak
    rw [splitBy_cons_sep _ c rest (hbreak c (List.mem_cons_self _ _) hn)] at hnil
    exact hnil (List.mem_cons_self _ _)
  · intro front c h
    by_contra hn
    rw [h] at hnil hbreak
    rw [splitBy_append_sep _ front c [] (hbreak c (by simp) hn)] at hnil
    exact hnil (by simp [splitBy])
  · intro a c1 c2 b h
    by_contra hn
    rw [not_or] at hn
    rw [h] at hnil hbreak
    rw [splitBy_append_sep _ a c1 (c2 :: b) (hbreak c1 (by simp) hn.1),
      splitBy_cons_sep _ c2 b (hbreak c2 (by simp) hn.2)] at hnil
    exact hnil (by simp)

end Ocimem

/-- C17 (repository name grammar).  `isValidRepoName` accepts a string exactly
when the specification's grammar does: every piece between slashes is a
segment, and in a segment every piece between separators `.`, `_`, `-` is a
non-empty run of characters from `a-z` and `0-9`.  Hence an accepted name is
not empty, holds only such characters, separators and slashes (no uppercase
letter), starts and ends with a character of a run, and has no two adjacent
characters that are both separators or slashes; and `makeRepo` fails for every
name that is not accepted and leaves the registry as it is. -/
theorem repo_name_grammar (name : String) :
    isValidRepoName name = specRepoName name ∧
    (isValidRepoName name = true →
      name.data ≠ [] ∧
      (∀ c ∈ name.data, isLowerAlnum c = true ∨ isNameSeparator c = true ∨ c = '/') ∧
      (∀ c ∈ name.data, ¬ ('A' ≤ c ∧ c ≤ 'Z')) ∧
      (∀ c rest, name.data = c :: rest → isLowerAlnum c = true) ∧
      (∀ front c, name.data = front ++ [c] → isLowerAlnum c = true) ∧
      (∀ a c1 c2 b, name.data = a ++ c1 :: c2 :: b →
        isLowerAlnum c1 = true ∨ isLowerAlnum c2 = true)) ∧
    (isValidRepoName name = false →
      ∀ r : Registry, r.makeRepo name = (r, .error (.invalidRepositoryName name))) := by
  refine ⟨?_, ?_, ?_⟩
  · unfold isValidRepoName specRepoName
    exact repoName_rmatch name.data
  · intro hv
    obtain ⟨h1, h2, h3, h4, h5⟩ := valid_repoName_shape name hv
    refine ⟨h1, h2, ?_, h3, h4, h5⟩
    rintro c hc ⟨hA, hZ⟩
    have hA' : 65 ≤ c.toNat := hA
    have hZ' : c.toNat ≤ 90 := hZ
    rcases h2 c hc with h | h | h
    · simp only [isLowerAlnum, Bool.decide_or, Bool.decide_and, Bool.or_eq_true,
        Bool.and_eq_true, decide_eq_true_eq] at h
      rcases h with ⟨ha, _⟩ | ⟨_, h9⟩
      · have ha' : 97 ≤ c.toNat := ha
        omega
      · have h9' : c.toNat ≤ 57 := h9
        omega
    · simp only [isNameSeparator, Bool.decide_or, Bool.or_eq_true, decide_eq_true_eq] at h
      rcases h with rfl | rfl | rfl <;> revert hA' hZ' <;> decide
    · subst h; revert hA' hZ'; decide
  · intro hv r
    simp [Registry.makeRepo, hv]

theorem repo_name_grammar_witness :
    isValidRepoName "foo/bar-baz.1" = true ∧ specRepoName "foo/bar-baz.1" = true ∧
    isValidRepoName "Foo" = false ∧ isValidRepoName "foo//bar" = false ∧
    isValidRepoName "foo..bar" = false ∧ isValidRepoName "/foo" = false ∧
    isValidRepoName "foo-" = false ∧ isValidRepoName "" = false ∧
    Registry.makeRepo ⟨none⟩ "Foo" = (⟨none⟩, .error (.invalidRepositoryName "Foo")) :=
  ⟨by decide!, (repo_name_grammar "foo/bar-baz.1").1 ▸ (by decide!), by decide!, by decide!,
    by decide!, by decide!, by decide!, by decide!,
    (repo_name_grammar "Foo").2.2 (by decide!) ⟨none⟩⟩

/-! ## Repositories of `ocimem` -/

namespace Ocimem

/-- The stored pointer after an assignment to the map of a registry. -/
theorem entry_set_same (m : GoMap (Option Repository)) (name : String) (repo : Repository) :
    Registry.entry ⟨some (m.set name (some repo))⟩ name = some repo := by
  simp [Registry.entry, GoMap.get_set_same]

theorem entry_set_ne (m : GoMap (Option Repository)) {name other : String}
    (hne : other ≠ name) (p : Option Repository) :
    Registry.entry ⟨some (m.set name p)⟩ other = Registry.entry ⟨some m⟩ other := by
  simp [Registry.entry, GoMap.get_set_ne m hne]

/-- The registry after the nil check of `makeRepo` holds the pointers it
held. -/
theorem entry_made (r : Registry) (name : String) :
    Registry.entry (if r.repos.isNone then ⟨some GoMap.empty⟩ else r) name = r.entry name := by
  cases r with
  | mk repos =>
    cases repos with
    | none => simp [Registry.entry, GoMap.get_empty]
    | some m => simp

/-- A non-nil stored pointer is what `repo` returns. -/
theorem repo_of_entry (r : Registry) (name : String) (repo : Repository)
    (h : r.entry name = some repo) : r.repo name = some repo := by
  cases r with
  | mk repos =>
    cases repos with
    | none => simp [Registry.entry] at h
    | some m =>
      simp only [Registry.entry] at h
      simp only [Registry.repo]
      cases hm : m.get name with
      | none => rw [hm] at h; simp at h
      | some p => rw [hm] at h; simpa using h

/-- The method `makeRepo` on a valid name. -/
theorem makeRepo_valid (r : Registry) (name : String) (hv : isValidRepoName name = true) :
    r.makeRepo name =
      match r.entry name with
      | some repo => (if r.repos.isNone then ⟨some GoMap.empty⟩ else r, .ok repo)
      | none =>
        (⟨some (((if r.repos.isNone then (⟨some GoMap.empty⟩ : Registry) else r).repos.getD
            GoMap.empty).set name (some ⟨GoMap.empty, GoMap.empty, GoMap.empty⟩))⟩,
          .ok ⟨GoMap.empty, GoMap.empty, GoMap.empty⟩) := by
  unfold Registry.makeRepo
  simp only [hv, Bool.not_true, Bool.false_eq_true, if_false]
  rw [entry_made]

end Ocimem

/-- C20 (repository creation).  `makeRepo` with an invalid name returns an
error and leaves the registry as it is.  With a valid name: when a repository
is stored under the name it returns that repository, with its tags, manifests
and blobs, and leaves the registry as it is; otherwise it registers and
returns a new repository with three empty maps.  In both valid cases every
other name holds what it held, a following `repo(name)` returns the returned
repository, and a second `makeRepo` returns it again and changes nothing. -/
theorem make_repo (r : Registry) (name : String) :
    (isValidRepoName name = false →
      r.makeRepo name = (r, .error (.invalidRepositoryName name))) ∧
    (isValidRepoName name = true →
      (∀ repo, r.entry name = some repo → r.makeRepo name = (r, .ok repo)) ∧
      (r.entry name = none →
        (r.makeRepo name).2 = .ok ⟨GoMap.empty, GoMap.empty, GoMap.empty⟩) ∧
      ∃ repo, (r.makeRepo name).2 = .ok repo ∧
        (∀ other, other ≠ name → (r.makeRepo name).1.entry other = r.entry other ∧
          (r.makeRepo name).1.repo other = r.repo other) ∧
        (r.makeRepo name).1.entry name = some repo ∧
        (r.makeRepo name).1.repo name = some repo ∧
        (r.makeRepo name).1.makeRepo name = ((r.makeRepo name).1, .ok repo)) := by
  constructor
  · intro hv
    simp [Registry.makeRepo, hv]
  · intro hv
    have hexist : ∀ (r : Registry) repo, r.entry name = some repo →
        r.makeRepo name = (r, .ok repo) := by
      intro r repo he
      have hsome : r.repos.isNone = false := by
        cases r with
        | mk repos =>
          cases repos with
          | none => simp [Registry.entry] at he
          | some m => rfl
      rw [makeRepo_valid r name hv, he]
      simp [hsome]
    refine ⟨hexist r, ?_, ?_⟩
    · intro he
      rw [makeRepo_valid r name hv, he]
    · cases he : r.entry name with
      | some repo =>
        rw [hexist r repo he]
        exact ⟨repo, rfl, fun _ _ => ⟨rfl, rfl⟩, he, repo_of_entry r name repo he,
          hexist r repo he⟩
      | none =>
        have hm : r.makeRepo name =
            (⟨some (((if r.repos.isNone then (⟨some GoMap.empty⟩ : Registry) else r).repos.getD
              GoMap.empty).set name (some ⟨GoMap.empty, GoMap.empty, GoMap.empty⟩))⟩,
             .ok ⟨GoMap.empty, GoMap.empty, GoMap.empty⟩) := by
          rw [makeRepo_valid r name hv, he]
        rw [hm]
        refine ⟨⟨GoMap.empty, GoMap.empty, GoMap.empty⟩, rfl, ?_, entry_set_same _ _ _,
          repo_of_entry _ _ _ (entry_set_same _ _ _), hexist _ _ (entry_set_same _ _ _)⟩
        intro other hne
        constructor
        · rw [entry_set_ne _ hne, ← entry_made r other]
          cases r with
          | mk repos =>
            cases repos with
            | none => rfl
            | some m => rfl
        · cases r with
          | mk repos =>
            cases repos with
            | none =>
              simp only [Registry.repo, Option.isNone_none, if_true, Option.getD_some]
              rw [GoMap.get_set_ne _ hne]
              rfl
            | some m =>
              simp only [Registry.repo, Option.isNone_some, Bool.false_eq_true, if_false,
                Option.getD_some]
              rw [GoMap.get_set_ne _ hne]

theorem make_repo_witness :
    (Ex.memEmpty.makeRepo "foo/bar").2 = .ok ⟨GoMap.empty, GoMap.empty, GoMap.empty⟩ :=
  ((make_repo Ex.memEmpty "foo/bar").2 (by decide!)).2.1 (by decide!)

/-! ## The frame of `PUT` -/

/-- C21 (PUT frame).  After a successful `PUT` of body `C` to `R/t`: the
entries `R[t]` and `R[digest(C)]` hold `C` with the content type of the
request; every other key of `R` reads as before; every other repository is the
map it was; and the repositories of the store are those it had, and `R`. -/
theorem put_frame (env : Env) (s s' : Store) (put : Request) (R t : String) (r : Response)
    (hput : put.method = "PUT") (ha : put.addresses R t)
    (hok : handle env s put = (s', .ok r)) :
    s'.lookup R t = some ⟨put.contentType, put.body⟩ ∧
    s'.lookup R (env.sha256 put.body) = some ⟨put.contentType, put.body⟩ ∧
    (∀ k, k ≠ t → k ≠ env.sha256 put.body → s'.lookup R k = s.lookup R k) ∧
    (∀ R', R' ≠ R → s'.get R' = s.get R') ∧
    (∀ R', s'.get R' ≠ none ↔ (R' = R ∨ s.get R' ≠ none)) := by
  rw [handle_put hput ha] at hok
  obtain ⟨_, h1, h2⟩ := handlePut_ok_lookup hok
  have h3 := handlePut_ok hok
  have hs : s' = (putStore (if (s.get R).isNone then s.set R GoMap.empty else s) R t
      (env.sha256 put.body) ⟨put.contentType, put.body⟩).1 := by
    rw [← h3]
  have hother : ∀ R', R' ≠ R → s'.get R' = s.get R' := by
    intro R' hne
    rw [hs]
    unfold putStore
    simp only
    rw [GoMap.get_set_ne _ hne, get_created_ne s hne]
  refine ⟨h1, h2, ?_, hother, ?_⟩
  · intro k hk hd
    rw [hs, lookup_putStore, lookup_created]
    simp [hk, hd]
  · intro R'
    by_cases hR : R' = R
    · subst hR
      simp only [true_or, iff_true]
      intro hnone
      simp [Store.lookup, hnone] at h1
    · rw [hother R' hR]
      simp [hR]

theorem put_frame_witness :
    Ex.afterPlainThenAbc.lookup "foo/bar" "v1" = some ⟨Ex.putAbc.contentType, Ex.putAbc.body⟩ ∧
    Ex.afterPlainThenAbc.lookup "foo/bar" (refEnv.sha256 Ex.putAbc.body) =
      some ⟨Ex.putAbc.contentType, Ex.putAbc.body⟩ ∧
    (∀ k, k ≠ "v1" → k ≠ refEnv.sha256 Ex.putAbc.body →
      Ex.afterPlainThenAbc.lookup "foo/bar" k = Ex.afterPutPlain.lookup "foo/bar" k) ∧
    (∀ R', R' ≠ "foo/bar" → Ex.afterPlainThenAbc.get R' = Ex.afterPutPlain.get R') ∧
    (∀ R', Ex.afterPlainThenAbc.get R' ≠ none ↔
      (R' = "foo/bar" ∨ Ex.afterPutPlain.get R' ≠ none)) :=
  put_frame refEnv Ex.afterPutPlain Ex.afterPlainThenAbc Ex.putAbc "foo/bar" "v1"
    ⟨201, [("Docker-Content-Digest",
      "sha256:ba7816bf8f01cfea414140de5dae2223b00361a396177a9cb410ff61f20015ad")], .empty⟩
    (by decide!) (by decide!) (by decide!)

/-! ## Valid tags and the tag listing -/

/-- A string that contains another holds each of its characters. -/
theorem mem_of_stringsContains (s sub : String) (h : stringsContains s sub = true) (c : Char)
    (hc : c ∈ sub.data) : c ∈ s.data := by
  unfold stringsContains at h
  rw [List.any_eq_true] at h
  obtain ⟨t, ht, hp⟩ := h
  rw [List.mem_tails] at ht
  rw [ List.isPrefixOf_iff_prefix] at hp
  exact ht.subset (hp.subset hc)

/-- A valid tag holds no colon. -/
theorem Ocimem.colon_not_mem_of_isValidTag (tag : String) (hv : isValidTag tag = true) :
    ':' ∉ tag.data := by
  rw [isValidTag_iff] at hv
  obtain ⟨c, cs, hd, _, hfirst, hrest⟩ := hv
  rw [hd]
  intro hmem
  rcases List.mem_cons.1 hmem with h | h
  · subst h
    revert hfirst
    decide
  · have := hrest ':' h
    revert this
    decide

/-- C22 (valid tags are listed).  A string that `isValidTag` accepts holds no
`:` and so does not contain the text `sha256:`; and when a repository holds a
manifest under such a tag, the tag listing of the repository without `last`
and `n` is answered 200 with a list that holds the tag. -/
theorem valid_tag_is_listed (env : Env) (s : Store) (req : Request) (R tag : String)
    (c : GoMap Manifest) (m : Manifest) (hv : isValidTag tag = true)
    (hm : req.method = "GET") (hr : repoOf (pathElems req.path) = some R)
    (hR : s.get R = some c) (hlast : req.queryGet "last" = "") (hn : req.queryGet "n" = "")
    (hc : c.get tag = some m) :
    ':' ∉ tag.data ∧ stringsContains tag "sha256:" = false ∧
    ∃ tags, handleTags env s req =
        (s, .ok ⟨200, [("Content-Length", toString (env.jsonLen (.tags R tags)))],
          .tags R tags⟩) ∧
      tag ∈ tags := by
  have hcolon := Ocimem.colon_not_mem_of_isValidTag tag hv
  have hsub : stringsContains tag "sha256:" = false := by
    cases h : stringsContains tag "sha256:" with
    | false => rfl
    | true => exact absurd (mem_of_stringsContains tag "sha256:" h ':' (by decide)) hcolon
  refine ⟨hcolon, hsub, _, handleTags_plain hm hr hR hlast hn, ?_⟩
  rw [mem_sortStrings, List.mem_filter, GoMap.mem_keys_iff]
  simp [hc, hsub]

theorem valid_tag_is_listed_witness :
    ':' ∉ "v1".data ∧ stringsContains "v1" "sha256:" = false ∧
    ∃ tags, handleTags refEnv Ex.afterPutAbc Ex.listFooBar =
        (Ex.afterPutAbc, .ok ⟨200,
          [("Content-Length", toString (refEnv.jsonLen (.tags "foo/bar" tags)))],
          .tags "foo/bar" tags⟩) ∧
      "v1" ∈ tags :=
  valid_tag_is_listed refEnv Ex.afterPutAbc Ex.listFooBar "foo/bar" "v1" Ex.repoAbc
    ⟨"text/plain", Ref.ascii "abc"⟩ (by decide!) (by decide!) (by decide!) (by decide!)
    (by decide!) (by decide!) (by decide!)

open Ociclient

/-! ## The range request of the client -/

/-- C23 (client range request).  For offsets `o0` and `o1`, `o1` an `int64`:
`GetBlobRange` with `o0 = 0` and `o1 < 0` is `GetBlob`, which sets no header.
Otherwise, when the request cannot be built no call is made and the error is
returned; when it is built as `req`, the one call made is `c.do` of `req` with
the header `Range` set, for the statuses 200 and 206, and the value of the
header is `bytes=<o0>-` when `o1 < 0` and `bytes=<o0>-<o1-1>` when `o1 ≥ 0`,
the subtraction not wrapping.  For `0 ≤ o0 < o1` the offsets of that range,
`o0` to `o1-1` inclusive, are the `o1 - o0` offsets `i` with `o0 ≤ i < o1`. -/
theorem get_blob_range_request (c : Client) (repo digest : String) (o0 o1 : Int)
    (h1 : -2 ^ 63 ≤ o1 ∧ o1 < 2 ^ 63) :
    (o0 = 0 → o1 < 0 → GetBlobRange c repo digest o0 o1 = GetBlob c repo digest) ∧
    (¬ (o0 = 0 ∧ o1 < 0) →
      (∀ err, c.newRequest (c.construct ⟨.ReqBlobGet, repo, digest, ""⟩).1
          (c.construct ⟨.ReqBlobGet, repo, digest, ""⟩).2 = .error err →
        GetBlobRange c repo digest o0 o1 = ([], .error err)) ∧
      (∀ req, c.newRequest (c.construct ⟨.ReqBlobGet, repo, digest, ""⟩).1
          (c.construct ⟨.ReqBlobGet, repo, digest, ""⟩).2 = .ok req →
        (GetBlobRange c repo digest o0 o1).1 =
          [.doHTTP ⟨req.method, req.url, req.header.set "Range" (rangeHeader o0 o1)⟩
            [200, 206]] ∧
        (req.header.set "Range" (rangeHeader o0 o1)).get "Range" = some (rangeHeader o0 o1) ∧
        ∀ key, key ≠ "Range" →
          (req.header.set "Range" (rangeHeader o0 o1)).get key = req.header.get key)) ∧
    (o1 < 0 → rangeHeader o0 o1 = "bytes=" ++ sprintD o0 ++ "-") ∧
    (0 ≤ o1 → rangeHeader o0 o1 = "bytes=" ++ sprintD o0 ++ "-" ++ sprintD (o1 - 1)) ∧
    (0 ≤ o0 → o0 < o1 →
      (inclusiveRange o0 (o1 - 1)).length = (o1 - o0).toNat ∧
      ((o1 - o0).toNat : Int) = o1 - o0 ∧
      ∀ i, i ∈ inclusiveRange o0 (o1 - 1) ↔ (o0 ≤ i ∧ i < o1)) := by
  refine ⟨?_, ?_, ?_, ?_, ?_⟩
  · intro ho0 ho1
    unfold GetBlobRange
    simp [ho0, ho1]
  · intro hno
    constructor
    · intro err herr
      unfold GetBlobRange
      simp only [hno, if_false, herr]
    · intro req hreq
      refine ⟨?_, GoMap.get_set_same _ _ _, fun key hkey => GoMap.get_set_ne _ hkey _⟩
      unfold GetBlobRange
      simp only [hno, if_false, hreq]
      cases c.doHTTP ⟨req.method, req.url, req.header.set "Range" (rangeHeader o0 o1)⟩
        [200, 206] <;> rfl
  · intro ho1
    unfold rangeHeader
    simp [ho1]
  · intro ho1
    have hw : wrapInt64 (o1 - 1) = o1 - 1 := by
      unfold wrapInt64
      omega
    unfold rangeHeader
    rw [hw]
    simp [not_lt.2 ho1]
  · intro ho0 hlt
    refine ⟨?_, ?_, ?_⟩
    · unfold inclusiveRange
      rw [List.length_map, List.length_range]
      congr 1
      omega
    · omega
    · intro i
      unfold inclusiveRange
      simp only [List.mem_map, List.mem_range]
      constructor
      · rintro ⟨j, hj, rfl⟩
        omega
      · rintro ⟨hi0, hi1⟩
        refine ⟨(i - o0).toNat, ?_, ?_⟩ <;> omega

theorem get_blob_range_request_witness :
    (GetBlobRange Ex.offline "foo/bar" Ex.digestA 2 5).1 =
      [.doHTTP ⟨"GET", "/v2/foo/bar/blobs/" ++ Ex.digestA,
        (GoMap.empty : GoMap String).set "Range" "bytes=2-4"⟩ [200, 206]] ∧
    inclusiveRange 2 4 = [2, 3, 4] :=
  ⟨(((get_blob_range_request Ex.offline "foo/bar" Ex.digestA 2 5 (by decide)).2.1
      (by decide)).2 ⟨"GET", "/v2/foo/bar/blobs/" ++ Ex.digestA, GoMap.empty⟩ rfl).1.trans
      (by decide!),
    by decide!⟩

end OciTestRegistry
